import Mathlib

/-!
# fixate: the FIX tag/value codec

A shallow embedding of `include/fixate/fixbase.hpp`, `include/fixate/fixmessage.hpp`,
`include/fixate/fixdatetime.hpp`, `include/fixate/fixate.hpp` and parts of
`include/fixate/connection_impl.hpp`, followed by theorems about it.

Conventions of the embedding.

* A `char` is a natural number; every byte the code produces is below 256.
* A destination pointer `char* dest` is a memory `Mem` together with an address.
* A source pointer `const char* src` is the list of the bytes readable from it;
  reading past its end is the fault `outOfBounds`.
* `char value[VSize]` is a list of `VSize` bytes; a store at an index `≥ VSize`
  is the fault `outOfBounds`.
* `FIXATE_ASSERT` failing is the fault `assertion`.
* The loops of `TvpArray::dump`, `width` and `sum` over `i < usedLen` end at the last
  entry of `data` when `usedLen` exceeds the array size (reads beyond the array are not
  modelled); the loop of `parse` faults there.
* The byte counters (`int bW`, `int bR`, `int w`) are natural numbers: they stay far
  below `2^31` for every buffer the library is used with.
-/

namespace fixate

/-! ## Bytes, memory and faults -/

/-- The separator byte, `SEPARATOR = '\x01'`. -/
def SEPARATOR : Nat := 1

/-- The assign character `'='`. -/
def ASSIGN : Nat := 61

/-- The character `'-'`. -/
def MINUS : Nat := 45

/-- The character `'0'`. -/
def ZERO : Nat := 48

/-- Writable memory: address to byte. -/
abbrev Mem := Nat → Nat

/-- The ways a run can fail to return normally. -/
inductive Fault where
  /-- A read or a store outside the buffer or array it addresses. -/
  | outOfBounds
  /-- A failed `FIXATE_ASSERT` (the process aborts). -/
  | assertion
  /-- An allocation request that `std::vector::resize` rejects. -/
  | lengthError
  /-- The bounded run did not finish within its fuel. -/
  | outOfFuel
deriving DecidableEq

deriving instance DecidableEq for Except

/-- Embeds `std::memcpy(m + dst, src, n)`: the `n` bytes from `dst` on become `src[0..n)`. -/
def memcpy (m : Mem) (dst : Nat) (src : List Nat) (n : Nat) : Mem :=
  fun a => if dst ≤ a ∧ a < dst + n then src.getD (a - dst) 0 else m a

/-- The store `m[a] = b`. -/
def poke (m : Mem) (a : Nat) (b : Nat) : Mem :=
  fun x => if x = a then b else m x

/-- The `n` bytes of `m` from address `a` on. -/
def peek (m : Mem) (a n : Nat) : List Nat :=
  (List.range n).map fun i => m (a + i)

/-- The store `arr[i] = b` on a fixed-size array. -/
def store (arr : List Nat) (i : Nat) (b : Nat) : Except Fault (List Nat) :=
  if i < arr.length then .ok (arr.set i b) else .error .outOfBounds

/-- The parse cursor `TvpParseData { buffer, meta }`. -/
structure TvpParseData where
  buffer : List Nat
  meta : Int := -1
deriving DecidableEq

/-! ## `details::itoa` and `details::atoi` -/

/-- Reduction of a mathematical integer to the `w`-bit two's complement range. -/
def wrap (w : Nat) (x : Int) : Int :=
  (x + 2 ^ (w - 1)) % 2 ^ w - 2 ^ (w - 1)

/-- The loop `while (copy > 0) { copy /= 10; digits++; }`. The first argument bounds
the number of iterations; `itoa` passes a bound that is never reached. -/
def itoaCount : Nat → Int → Nat → Nat
  | 0, _, digits => digits
  | k + 1, copy, digits =>
    if copy > 0 then itoaCount k (copy / 10) (digits + 1) else digits

/-- The loop `while (val > 0) { *d = '0' + val % 10; val /= 10; d--; }`, where
`d` is an index into `dest`. The first argument bounds the number of iterations. -/
def itoaFill : Nat → List Nat → Int → Nat → Except Fault (List Nat)
  | 0, dest, _, _ => .ok dest
  | k + 1, dest, val, d =>
    if val > 0 then
      match store dest d (ZERO + (val % 10).toNat) with
      | .error e => .error e
      | .ok dest1 => itoaFill k dest1 (val / 10) (d - 1)
    else .ok dest

/-- Embeds `details::itoa(dest + off, val)` for a `w`-bit signed `T`: the array after the
writes and the returned count. The recursion `itoa(dest + 1, -val)` is bounded by `fuel`. -/
def itoa (w : Nat) : Nat → List Nat → Nat → Int → Except Fault (List Nat × Nat)
  | 0, _, _, _ => .error .outOfFuel
  | fuel + 1, dest, off, val =>
    if val < 0 then
      match store dest off MINUS with
      | .error e => .error e
      | .ok dest1 =>
        match itoa w fuel dest1 (off + 1) (wrap w (-val)) with
        | .error e => .error e
        | .ok (dest2, n) => .ok (dest2, 1 + n)
    else if val = 0 then
      match store dest off ZERO with
      | .error e => .error e
      | .ok dest1 => .ok (dest1, 1)
    else
      let digits := itoaCount val.toNat val 0
      match itoaFill val.toNat dest val (off + digits - 1) with
      | .error e => .error e
      | .ok dest1 => .ok (dest1, digits)

/-- The loop of `details::atoi` over `[itr, last)`: `none` is `return false`. -/
def atoiLoop (w : Nat) : List Nat → Int → Option Int
  | [], val => some val
  | c :: rest, val =>
    let digit : Int := (c : Int) - 48
    if 0 ≤ digit ∧ digit ≤ 9 then atoiLoop w rest (wrap w (10 * val + digit)) else none

/-- Embeds `details::atoi(first, last, output)` on the bytes of `[first, last)` for a `w`-bit
signed `T`: `some v` is `return true` with `output = v`, `none` is `return false`
(`output` untouched). For an empty range the code reads `*first` outside the range;
the byte found there is taken not to be `'-'`. -/
def atoi (w : Nat) (s : List Nat) : Option Int :=
  let sign : Int := if s.head? = some MINUS then -1 else 1
  let itr := if sign = 1 then s else s.drop 1
  match atoiLoop w itr 0 with
  | none => none
  | some val => some (wrap w (sign * val))

/-! ## `TvpStatic` -/

/-- The state of a `TvpStatic<TagType, VSize, Tag>`: `value` has `VSize` entries. -/
structure TvpStatic where
  tag : List Nat
  value : List Nat
  usedLen : Nat := 0
deriving DecidableEq

namespace TvpStatic

/-- The constant `TagSize = strlen(*Tag)`. -/
def TagSize (f : TvpStatic) : Nat := f.tag.length

/-- The constant `ValueSize = VSize`. -/
def ValueSize (f : TvpStatic) : Nat := f.value.length

/-- Embeds `TvpStatic::dump(dest)`: the memory after the writes and the returned count. -/
def dump (f : TvpStatic) (m : Mem) (dest : Nat) : Mem × Nat :=
  if f.usedLen = 0 then (m, 0)
  else
    let bW := 0
    let m := memcpy m (dest + bW) f.tag f.TagSize
    let bW := bW + f.TagSize
    let m := poke m (dest + bW) ASSIGN
    let bW := bW + 1
    let m := memcpy m (dest + bW) f.value f.usedLen
    let bW := bW + f.usedLen
    let m := poke m (dest + bW) SEPARATOR
    let bW := bW + 1
    (m, bW)

/-- The loop `while (pd.buffer[bR] != SEPARATOR) value[i++] = pd.buffer[bR++];`,
running over the bytes from `pd.buffer + bR` on: the array, `i` and `bR` at exit. -/
def parseLoop : List Nat → List Nat → Nat → Nat → Except Fault (List Nat × Nat × Nat)
  | [], _, _, _ => .error .outOfBounds
  | c :: rest, value, i, bR =>
    if c = SEPARATOR then .ok (value, i, bR)
    else
      match store value i c with
      | .error e => .error e
      | .ok value1 => parseLoop rest value1 (i + 1) (bR + 1)

/-- Embeds `TvpStatic::parse(pd)`: the field and the cursor afterwards, and the returned
count. `memcmp(pd.buffer, tag, TagSize)` compares the first `TagSize` bytes. -/
def parse (f : TvpStatic) (pd : TvpParseData) :
    Except Fault (TvpStatic × TvpParseData × Nat) :=
  let bR := 0
  if pd.buffer.take f.TagSize ≠ f.tag then .ok (f, pd, bR)
  else
    let bR := bR + (f.TagSize + 1)
    match parseLoop (pd.buffer.drop bR) f.value 0 bR with
    | .error e => .error e
    | .ok (value, i, bR) =>
      let bR := bR + 1
      .ok ({ f with value := value, usedLen := i },
           { pd with buffer := pd.buffer.drop bR }, bR)

/-- Embeds `TvpStatic::width()`. -/
def width (f : TvpStatic) : Nat :=
  if f.usedLen ≠ 0 then f.TagSize + 1 + f.usedLen + 1 else 0

/-- The loop `while (i < n) w += a[i++];` on a `uint8_t w`. -/
def sumLoop (a : List Nat) : Nat → Nat → Nat → Nat
  | 0, _, w => w
  | k + 1, i, w => sumLoop a k (i + 1) ((w + a.getD i 0) % 256)

/-- Embeds `TvpStatic::sum()`. -/
def sum (f : TvpStatic) : Nat :=
  if f.usedLen = 0 then 0
  else
    let w := 0
    let w := sumLoop f.tag f.TagSize 0 w
    let w := (w + ASSIGN) % 256
    let w := sumLoop f.value f.usedLen 0 w
    let w := (w + SEPARATOR) % 256
    w

end TvpStatic

/-! ## `TvpDynamic` -/

/-- The state of a `TvpDynamic<TagType, Tag>`: `value` is the `std::string`. -/
structure TvpDynamic where
  tag : List Nat
  value : List Nat := []
  ValueSize : Nat := 0
deriving DecidableEq

namespace TvpDynamic

/-- The constant `TagSize = strlen(*Tag)`. -/
def TagSize (f : TvpDynamic) : Nat := f.tag.length

/-- Embeds `TvpDynamic::dump(dest)`. -/
def dump (f : TvpDynamic) (m : Mem) (dest : Nat) : Mem × Nat :=
  if f.ValueSize = 0 then (m, 0)
  else
    let bW := 0
    let m := memcpy m (dest + bW) f.tag f.TagSize
    let bW := bW + f.TagSize
    let m := poke m (dest + bW) ASSIGN
    let bW := bW + 1
    let m := memcpy m (dest + bW) f.value f.ValueSize
    let bW := bW + f.ValueSize
    let m := poke m (dest + bW) SEPARATOR
    let bW := bW + 1
    (m, bW)

/-- The loop `while (pd.buffer[bR] != SEPARATOR) { value.push_back(pd.buffer[bR++]); }`. -/
def parseLoop : List Nat → List Nat → Nat → Except Fault (List Nat × Nat)
  | [], _, _ => .error .outOfBounds
  | c :: rest, value, bR =>
    if c = SEPARATOR then .ok (value, bR)
    else parseLoop rest (value ++ [c]) (bR + 1)

/-- Embeds `TvpDynamic::parse(pd)`. -/
def parse (f : TvpDynamic) (pd : TvpParseData) :
    Except Fault (TvpDynamic × TvpParseData × Nat) :=
  let bR := 0
  if pd.buffer.take f.TagSize ≠ f.tag then .ok (f, pd, bR)
  else
    let bR := bR + (f.TagSize + 1)
    match parseLoop (pd.buffer.drop bR) f.value bR with
    | .error e => .error e
    | .ok (value, bR) =>
      let bR := bR + 1
      .ok ({ f with value := value }, { pd with buffer := pd.buffer.drop bR }, bR)

/-- Embeds `TvpDynamic::width()`. -/
def width (f : TvpDynamic) : Nat :=
  if f.ValueSize ≠ 0 then f.TagSize + 1 + f.ValueSize + 1 else 0

/-- Embeds `TvpDynamic::sum()`. -/
def sum (f : TvpDynamic) : Nat :=
  if f.ValueSize = 0 then 0
  else
    let w := 0
    let w := TvpStatic.sumLoop f.tag f.TagSize 0 w
    let w := (w + ASSIGN) % 256
    let w := TvpStatic.sumLoop f.value f.ValueSize 0 w
    let w := (w + SEPARATOR) % 256
    w

end TvpDynamic

/-! ## The typed fields -/

/-- Embeds `TvpChar::set(val)`. -/
def TvpChar.set (f : TvpStatic) (val : Nat) : Except Fault TvpStatic :=
  match store f.value 0 val with
  | .error e => .error e
  | .ok value => .ok { f with value := value, usedLen := 1 }

/-- Embeds `TvpChar::get()`: `value[0]`. -/
def TvpChar.get (f : TvpStatic) : Nat := f.value.getD 0 0

/-- Embeds `TvpStringFixed::set(val)`. -/
def TvpStringFixed.set (f : TvpStatic) (val : List Nat) : Except Fault TvpStatic :=
  if val.length ≤ f.ValueSize then
    .ok { f with value := val ++ f.value.drop val.length, usedLen := val.length }
  else .error .assertion

/-- Embeds `TvpStringFixed::get()`: `string_view(value, usedLen)`. -/
def TvpStringFixed.get (f : TvpStatic) : List Nat := f.value.take f.usedLen

/-- Embeds `TvpStringDynamic::set(val)`. -/
def TvpStringDynamic.set (f : TvpDynamic) (val : List Nat) : TvpDynamic :=
  { f with value := val, ValueSize := val.length }

/-- Embeds `TvpStringDynamic::get()`: `string_view(value, ValueSize)`. -/
def TvpStringDynamic.get (f : TvpDynamic) : List Nat := f.value.take f.ValueSize

/-- Embeds `TvpInteger<T, VSize, Tag>::set(val)` for a `w`-bit signed `T`. -/
def TvpInteger.set (w fuel : Nat) (f : TvpStatic) (val : Int) : Except Fault TvpStatic :=
  match itoa w fuel f.value 0 val with
  | .error e => .error e
  | .ok (value, n) => .ok { f with value := value, usedLen := n }

/-- Embeds `TvpInteger<T, VSize, Tag>::get()` for a `w`-bit signed `T`:
`output` starts at 0 and stays there when `atoi` returns false. -/
def TvpInteger.get (w : Nat) (f : TvpStatic) : Int :=
  match atoi w (f.value.take f.usedLen) with
  | some v => v
  | none => 0

/-! ## Groups and repeating containers -/

/-- The width of the C `int`, the integer type of the count fields and of `BodyLength`. -/
def INT_BITS : Nat := 32

/-- The state of a member of a schema: a field (`count` is an integer count field such
as `NoMDEntries`, see `countParse`), a `TvpArray<T, N>` (`data` has `N` entries), a
`TvpVector<T>` (`proto` is a default-constructed `T`, the element that `resize`
appends) or a `TvpGroup<...>`. -/
inductive Tvp where
  | static (f : TvpStatic)
  | dynamic (f : TvpDynamic)
  | count (f : TvpStatic)
  | array (usedLen : Nat) (data : List Tvp)
  | vector (proto : Tvp) (Size : Nat) (data : List Tvp)
  | group (members : List Tvp)

mutual
/-- The `dump(dest)` of a member. -/
def Tvp.dump : Tvp → Mem → Nat → Mem × Nat
  | .static f, m, dest => f.dump m dest
  | .dynamic f, m, dest => f.dump m dest
  | .count f, m, dest => f.dump m dest
  | .array usedLen data, m, dest => dumpFor usedLen data m dest 0
  | .vector _ _ data, m, dest => dumpEach data m dest 0
  | .group members, m, dest => dump_impl members m dest
/-- Embeds `TvpArray::dump`: `for (size_t i = 0; i < usedLen; ++i) { w += data[i].dump(dest + w); }`. -/
def dumpFor : Nat → List Tvp → Mem → Nat → Nat → Mem × Nat
  | 0, _, m, _, w => (m, w)
  | _ + 1, [], m, _, w => (m, w)
  | k + 1, t :: ts, m, dest, w =>
    let r := t.dump m (dest + w)
    dumpFor k ts r.1 dest (w + r.2)
/-- Embeds `TvpVector::dump`: `for (const auto& t : data) { w += t.dump(dest + w); }`. -/
def dumpEach : List Tvp → Mem → Nat → Nat → Mem × Nat
  | [], m, _, w => (m, w)
  | t :: ts, m, dest, w =>
    let r := t.dump m (dest + w)
    dumpEach ts r.1 dest (w + r.2)
/-- Embeds `TvpGroup::dump_impl(buffer, first, args...)`. -/
def dump_impl : List Tvp → Mem → Nat → Mem × Nat
  | [], m, _ => (m, 0)
  | first :: args, m, buffer =>
    let ret := first.dump m buffer
    let r := dump_impl args ret.1 (buffer + ret.2)
    (r.1, ret.2 + r.2)
end

mutual
/-- The `width()` of a member. -/
def Tvp.width : Tvp → Nat
  | .static f => f.width
  | .dynamic f => f.width
  | .count f => f.width
  | .array usedLen data => widthFor usedLen data 0
  | .vector _ _ data => widthEach data 0
  | .group members => width_impl members
/-- Embeds `TvpArray::width`: `for (size_t i = 0; i < usedLen; ++i) { w += data[i].width(); }`. -/
def widthFor : Nat → List Tvp → Nat → Nat
  | 0, _, w => w
  | _ + 1, [], w => w
  | k + 1, t :: ts, w => widthFor k ts (w + t.width)
/-- Embeds `TvpVector::width`: `for (const auto& t : data) { w += t.width(); }`. -/
def widthEach : List Tvp → Nat → Nat
  | [], w => w
  | t :: ts, w => widthEach ts (w + t.width)
/-- Embeds `TvpGroup::width_impl(first, args...)`. -/
def width_impl : List Tvp → Nat
  | [] => 0
  | first :: args => first.width + width_impl args
end

mutual
/-- The `sum()` of a member, a `uint8_t`. -/
def Tvp.sum : Tvp → Nat
  | .static f => f.sum
  | .dynamic f => f.sum
  | .count f => f.sum
  | .array usedLen data => sumFor usedLen data 0
  | .vector _ _ data => sumEach data 0
  | .group members => sum_impl members
/-- Embeds `TvpArray::sum`: `for (size_t i = 0; i < usedLen; ++i) { w += data[i].sum(); }`. -/
def sumFor : Nat → List Tvp → Nat → Nat
  | 0, _, w => w
  | _ + 1, [], w => w
  | k + 1, t :: ts, w => sumFor k ts ((w + t.sum) % 256)
/-- Embeds `TvpVector::sum`: `for (const auto& t : data) { w += t.sum(); }`. -/
def sumEach : List Tvp → Nat → Nat
  | [], w => w
  | t :: ts, w => sumEach ts ((w + t.sum) % 256)
/-- Embeds `TvpGroup::sum_impl(first, args...)`. -/
def sum_impl : List Tvp → Nat
  | [] => 0
  | first :: args => (first.sum + sum_impl args) % 256
end

/-- Modelled from the spec: the `parse` of an integer count field such as `NoMDEntries`.
The field types are declared in `fixate/fixtags.hpp`, which is not among the sources.
The spec: the cursor's "`meta` carries the most recently observed integer count field
(used to drive repeating containers)". A count field that is found at the cursor is
parsed as a `TvpStatic` and its `get()` is stored in `meta`. -/
def countParse (f : TvpStatic) (pd : TvpParseData) :
    Except Fault (TvpStatic × TvpParseData × Nat) :=
  match f.parse pd with
  | .error e => .error e
  | .ok (f1, pd1, bR) =>
    if bR = 0 then .ok (f1, pd1, bR)
    else .ok (f1, { pd1 with meta := TvpInteger.get INT_BITS f1 }, bR)

/-- The part of the loop `for (auto& t : data) { w += t.parse(pd); }` of
`TvpVector::parse` that runs over the `k` elements appended by `data.resize`.
Each of them is a default-constructed element, whose `parse` is `p`. -/
def parseAppended (p : TvpParseData → Except Fault (Tvp × TvpParseData × Nat)) :
    Nat → TvpParseData → Nat → Except Fault (List Tvp × TvpParseData × Nat)
  | 0, pd, w => .ok ([], pd, w)
  | k + 1, pd, w =>
    match p pd with
    | .error e => .error e
    | .ok (t1, pd1, r) =>
      match parseAppended p k pd1 (w + r) with
      | .error e => .error e
      | .ok (ts1, pd2, w1) => .ok (t1 :: ts1, pd2, w1)

mutual
/-- The `parse(pd)` of a member: the member and the cursor afterwards, and the
returned count. -/
def Tvp.parse : Tvp → TvpParseData → Except Fault (Tvp × TvpParseData × Nat)
  | .static f, pd =>
    match f.parse pd with
    | .error e => .error e
    | .ok (f1, pd1, bR) => .ok (.static f1, pd1, bR)
  | .dynamic f, pd =>
    match f.parse pd with
    | .error e => .error e
    | .ok (f1, pd1, bR) => .ok (.dynamic f1, pd1, bR)
  | .count f, pd =>
    match countParse f pd with
    | .error e => .error e
    | .ok (f1, pd1, bR) => .ok (.count f1, pd1, bR)
  | .array _ data, pd =>
    if pd.meta ≠ -1 ∧ pd.meta ≤ (data.length : Int) then
      let usedLen := (pd.meta % 2 ^ 64).toNat
      match parseFor usedLen data pd 0 with
      | .error e => .error e
      | .ok (data1, pd1, w) => .ok (.array usedLen data1, pd1, w)
    else .error .assertion
  | .vector proto Size data, pd =>
    if pd.meta ≠ -1 then
      if pd.meta < 0 then .error .lengthError
      else
        let n := pd.meta.toNat
        match parseFor (min n data.length) data pd 0 with
        | .error e => .error e
        | .ok (data1, pd1, w) =>
          match parseAppended (fun q => proto.parse q) (n - data.length) pd1 w with
          | .error e => .error e
          | .ok (data2, pd2, w1) => .ok (.vector proto Size (data1.take n ++ data2), pd2, w1)
    else .error .assertion
  | .group members, pd =>
    match parse_impl members pd with
    | .error e => .error e
    | .ok (members1, pd1, bR) => .ok (.group members1, pd1, bR)
/-- The loop `for (size_t i = 0; i < usedLen; ++i) { w += data[i].parse(pd); }`
of `TvpArray::parse`; `TvpVector::parse` runs it over the elements that
`data.resize` keeps. -/
def parseFor : Nat → List Tvp → TvpParseData → Nat →
    Except Fault (List Tvp × TvpParseData × Nat)
  | 0, data, pd, w => .ok (data, pd, w)
  | _ + 1, [], _, _ => .error .outOfBounds
  | k + 1, t :: ts, pd, w =>
    match t.parse pd with
    | .error e => .error e
    | .ok (t1, pd1, r) =>
      match parseFor k ts pd1 (w + r) with
      | .error e => .error e
      | .ok (ts1, pd2, w1) => .ok (t1 :: ts1, pd2, w1)
/-- Embeds `TvpGroup::parse_impl(pd, first, args...)`. -/
def parse_impl : List Tvp → TvpParseData → Except Fault (List Tvp × TvpParseData × Nat)
  | [], pd => .ok ([], pd, 0)
  | first :: args, pd =>
    match first.parse pd with
    | .error e => .error e
    | .ok (first1, pd1, ret) =>
      match parse_impl args pd1 with
      | .error e => .error e
      | .ok (args1, pd2, r) => .ok (first1 :: args1, pd2, ret + r)
end

/-- Embeds `TvpGroup::parse(const char* src)`: `TvpParseData pd(src, -1); return parse(pd);`. -/
def TvpGroup.parse (members : List Tvp) (src : List Nat) : Except Fault (List Tvp × Nat) :=
  match parse_impl members { buffer := src, meta := -1 } with
  | .error e => .error e
  | .ok (members1, _, bR) => .ok (members1, bR)

/-! ## `FixMessage` -/

/-- Modelled from the spec: `CheckSum::set(uint8_t)`. The type `CheckSum` is declared in
`fixate/fixtags.hpp`, which is not among the sources. The spec: the checksum is
"rendered as exactly three decimal digits", "with leading zeros (e.g. `"090"`)". -/
def CheckSum.set (f : TvpStatic) (checksum : Nat) : Except Fault TvpStatic :=
  match store f.value 0 (ZERO + checksum / 100) with
  | .error e => .error e
  | .ok v1 =>
    match store v1 1 (ZERO + checksum / 10 % 10) with
    | .error e => .error e
    | .ok v2 =>
      match store v2 2 (ZERO + checksum % 10) with
      | .error e => .error e
      | .ok v3 => .ok { f with value := v3, usedLen := 3 }

/-- Modelled from the spec: `BodyLength::set(int)`. The type `BodyLength` is declared in
`fixate/fixtags.hpp`, which is not among the sources. The spec: `updateBodyLength` is to
"compute body width, store into header's `BodyLength` field", which goes on the wire as
`9=<bodyLen>`, an integer "encoded as signed decimal ASCII": the `set` of a
`TvpInteger` over `int`. -/
def BodyLength.set (fuel : Nat) (f : TvpStatic) (val : Int) : Except Fault TvpStatic :=
  TvpInteger.set INT_BITS fuel f val

/-- The state of a `FixMessage<FixVersion, TvpTypes...>`. The header group
`TvpGroup<FixVersionTag<FixVersion>::type, BodyLength>` is kept as its two members,
the trailer group `TvpGroup<CheckSum>` as its one member. The three member types are
declared in `fixate/fixtags.hpp`, which is not among the sources; by the spec's wire
format (`8=FIX.x.y`, `9=<bodyLen>`, `10=<checksum3>`) each is a fixed-width field. -/
structure FixMessage where
  beginString : TvpStatic
  bodyLength : TvpStatic
  body : List Tvp
  checkSum : TvpStatic
  mBodyLen : Nat := 0

namespace FixMessage

/-- The member `mMsgHeader`. -/
def mMsgHeader (msg : FixMessage) : Tvp :=
  .group [.static msg.beginString, .static msg.bodyLength]

/-- The member `mMsgBody`. -/
def mMsgBody (msg : FixMessage) : Tvp := .group msg.body

/-- The member `mMsgTrailer`. -/
def mMsgTrailer (msg : FixMessage) : Tvp := .group [.static msg.checkSum]

/-- Embeds `FixMessage::getBodyLength()`. -/
def getBodyLength (msg : FixMessage) : Nat := msg.mBodyLen

/-- Embeds `FixMessage::updateBodyLength()`. -/
def updateBodyLength (fuel : Nat) (msg : FixMessage) : Except Fault (FixMessage × Nat) :=
  let mBodyLen := msg.mMsgBody.width
  match BodyLength.set fuel msg.bodyLength mBodyLen with
  | .error e => .error e
  | .ok bodyLength => .ok ({ msg with mBodyLen := mBodyLen, bodyLength := bodyLength }, mBodyLen)

/-- The local `uint8_t checksum` of `FixMessage::updateCheckSum()`. -/
def checksumOf (msg : FixMessage) : Nat :=
  (msg.mMsgHeader.sum + msg.mMsgBody.sum) % 256

/-- Embeds `FixMessage::updateCheckSum()`. -/
def updateCheckSum (msg : FixMessage) : Except Fault FixMessage :=
  let checksum := msg.checksumOf
  match CheckSum.set msg.checkSum checksum with
  | .error e => .error e
  | .ok checkSum => .ok { msg with checkSum := checkSum }

/-- The three writes of `FixMessage::dump`, after the optional updates. -/
def dumpGroups (msg : FixMessage) (m : Mem) (dest : Nat) : Mem × Nat :=
  let r := msg.mMsgHeader.dump m dest
  let bW := r.2
  let r := msg.mMsgBody.dump r.1 (dest + bW)
  let bW := bW + r.2
  let r := msg.mMsgTrailer.dump r.1 (dest + bW)
  let bW := bW + r.2
  (r.1, bW)

/-- Embeds `FixMessage::dump(dest, setBodyLength, setCheckSum)`: the message and the memory
afterwards, and the returned count. -/
def dump (fuel : Nat) (msg : FixMessage) (m : Mem) (dest : Nat)
    (setBodyLength setCheckSum : Bool) : Except Fault (FixMessage × Mem × Nat) :=
  match (if setBodyLength then (msg.updateBodyLength fuel).map Prod.fst else .ok msg) with
  | .error e => .error e
  | .ok msg1 =>
    match (if setCheckSum then msg1.updateCheckSum else .ok msg1) with
    | .error e => .error e
    | .ok msg2 =>
      let r := msg2.dumpGroups m dest
      .ok (msg2, r.1, r.2)

/-- Embeds `FixMessage::parse(src)`: the message afterwards and the returned count. Each of
the three groups is parsed by `TvpGroup::parse(const char*)`, on a cursor of its own.
A group's `parse` keeps the number and the kinds of its members, so the catch-all
branches of the two matches on the header and the trailer are never taken. -/
def parse (msg : FixMessage) (src : List Nat) : Except Fault (FixMessage × Nat) :=
  match TvpGroup.parse [.static msg.beginString, .static msg.bodyLength] src with
  | .ok ([.static beginString, .static bodyLength], r) =>
    let bR := r
    match TvpGroup.parse msg.body (src.drop bR) with
    | .error e => .error e
    | .ok (body, r) =>
      let bR := bR + r
      match TvpGroup.parse [.static msg.checkSum] (src.drop bR) with
      | .ok ([.static checkSum], r) =>
        let bR := bR + r
        .ok ({ msg with beginString := beginString, bodyLength := bodyLength,
                        body := body, checkSum := checkSum }, bR)
      | .ok _ => .error .outOfBounds
      | .error e => .error e
  | .ok _ => .error .outOfBounds
  | .error e => .error e

end FixMessage


/-! ## The wire encoding -/

/-- The first `n` bytes of an array, as `memcpy` reads them (0 past the end of the list). -/
def firstN (a : List Nat) (n : Nat) : List Nat :=
  (List.range n).map fun i => a.getD i 0

/-- The memory after the bytes `l` are written from address `d` on. -/
def blit (m : Mem) (d : Nat) (l : List Nat) : Mem := memcpy m d l l.length

/-- The wire encoding of a field, in the spec's words: nothing when the logical length
is 0, otherwise `tag`, then `'='`, then the value bytes, then `SOH`. -/
def fieldWire (tag value : List Nat) (len : Nat) : List Nat :=
  if len = 0 then [] else tag ++ [ASSIGN] ++ firstN value len ++ [SEPARATOR]

/-- The wire encoding of a `TvpStatic`. -/
def TvpStatic.wire (f : TvpStatic) : List Nat := fieldWire f.tag f.value f.usedLen

/-- The wire encoding of a `TvpDynamic`. -/
def TvpDynamic.wire (f : TvpDynamic) : List Nat := fieldWire f.tag f.value f.ValueSize

mutual
/-- The wire encoding of a member: a group is the concatenation of its members, an
array of its first `usedLen` elements, a vector of its elements. -/
def Tvp.wire : Tvp → List Nat
  | .static f => f.wire
  | .dynamic f => f.wire
  | .count f => f.wire
  | .array usedLen data => wireFor usedLen data
  | .vector _ _ data => wireEach data
  | .group members => wireEach members
/-- The concatenated encodings of the first `k` entries of a list. -/
def wireFor : Nat → List Tvp → List Nat
  | 0, _ => []
  | _ + 1, [] => []
  | k + 1, t :: ts => t.wire ++ wireFor k ts
/-- The concatenated encodings of the entries of a list. -/
def wireEach : List Tvp → List Nat
  | [] => []
  | t :: ts => t.wire ++ wireEach ts
end

/-- The wire encoding of a message: header, body, trailer. -/
def FixMessage.wire (msg : FixMessage) : List Nat :=
  msg.mMsgHeader.wire ++ msg.mMsgBody.wire ++ msg.mMsgTrailer.wire

/-- The digits of `n` in front of `acc`; the first argument bounds the number of digits. -/
def decimalDigitsAux : Nat → Nat → List Nat → List Nat
  | 0, _, acc => acc
  | k + 1, n, acc =>
    if n = 0 then acc else decimalDigitsAux k (n / 10) ((ZERO + n % 10) :: acc)

/-- The digits of `n` in base 10, most significant first, as ASCII; empty for 0
(`decimalDigits_eq_digits` relates it to `Nat.digits`). -/
def decimalDigits (n : Nat) : List Nat := decimalDigitsAux n n []

/-- The canonical decimal text of a natural number: `"0"` for zero, otherwise its
digits with no leading zero. -/
def decimal (n : Nat) : List Nat :=
  if n = 0 then [ZERO] else decimalDigits n

/-- The bytes that `dump` writes for a member: what it leaves at `[dest, dest + ret)`
(taken at address 0 of a zeroed memory; by `Tvp.dump_eq` the place does not matter). -/
def Tvp.dumped (t : Tvp) : List Nat :=
  peek (t.dump (fun _ => 0) 0).1 0 (t.dump (fun _ => 0) 0).2

/-! ## Well-formed fields -/

/-- A fixed-width field that is set to a non-empty value without `SOH`
(within the capacity of its array). -/
def TvpStatic.IsSet (f : TvpStatic) : Prop :=
  0 < f.usedLen ∧ f.usedLen ≤ f.value.length ∧ SEPARATOR ∉ f.value.take f.usedLen

instance (f : TvpStatic) : Decidable f.IsSet := by
  unfold TvpStatic.IsSet; infer_instance

/-- Two states of the same field type `TvpStatic<TagType, VSize, Tag>`: same tag,
same capacity. -/
def TvpStatic.SameType (f g : TvpStatic) : Prop :=
  g.tag = f.tag ∧ g.value.length = f.value.length

instance (f g : TvpStatic) : Decidable (f.SameType g) := by
  unfold TvpStatic.SameType; infer_instance

/-- The field `g` after it has parsed the encoding of the set field `f`. -/
def TvpStatic.received (g f : TvpStatic) : TvpStatic :=
  { g with value := f.value.take f.usedLen ++ g.value.drop f.usedLen, usedLen := f.usedLen }

/-- A group of fixed-width fields, such as one row of a repeating container. -/
def rowOf (r : List TvpStatic) : Tvp := .group (r.map .static)

/-- The row that `resize` appends (a copy of `proto`) after it has parsed the
encoding of the row `r`. -/
def receivedRow (proto r : List TvpStatic) : Tvp :=
  .group ((List.zipWith TvpStatic.received proto r).map .static)

/-! ## A sample message -/

/-- A market-data refresh in the shape of the test's `MarketDataIncrementalRefresh`:
`8=FIX.4.4`, `9=` (unset), `35=X`, `268=2`, two rows `132=1.5` and `132=22.0`,
`10=` (unset). -/
def sampleRefresh : FixMessage :=
  { beginString := ⟨[56], [70, 73, 88, 46, 52, 46, 52, 0], 7⟩
    bodyLength := ⟨[57], [0, 0, 0, 0], 0⟩
    body := [.static ⟨[51, 53], [88], 1⟩, .count ⟨[50, 54, 56], [50, 0], 1⟩,
      .vector (rowOf [⟨[49, 51, 50], [0, 0, 0, 0], 0⟩]) 2
        [rowOf [⟨[49, 51, 50], [49, 46, 53, 0], 3⟩], rowOf [⟨[49, 51, 50], [50, 50, 46, 48], 4⟩]]]
    checkSum := ⟨[49, 48], [0, 0, 0], 0⟩ }

/-- A freshly constructed message of the schema of `sampleRefresh`. -/
def sampleFresh : FixMessage :=
  { beginString := ⟨[56], [70, 73, 88, 46, 52, 46, 52, 0], 7⟩
    bodyLength := ⟨[57], [0, 0, 0, 0], 0⟩
    body := [.static ⟨[51, 53], [0], 0⟩, .count ⟨[50, 54, 56], [0, 0], 0⟩,
      .vector (rowOf [⟨[49, 51, 50], [0, 0, 0, 0], 0⟩]) 0 []]
    checkSum := ⟨[49, 48], [0, 0, 0], 0⟩ }

/-- The rows `heads` of an array after they have parsed, one each, the encodings of
`rows`. -/
def receivedRows : List (List TvpStatic) → List (List TvpStatic) → List Tvp
  | r :: rows, p :: heads => receivedRow p r :: receivedRows rows heads
  | _, _ => []

/-- A repeating container `cont` that holds the rows `rows` and a freshly constructed
container `cont0` of the same type: either a `TvpVector` (`cont0` is empty) or a
`TvpArray` (the first `usedLen` entries of `cont` are `rows`; the entries of `cont0`
are rows of the same types, in any state). -/
inductive FreshContainer : Tvp → Tvp → List (List TvpStatic) → Prop
  | vector (proto : List TvpStatic) (rows : List (List TvpStatic)) (Size Size0 : Nat)
      (hsame : ∀ r ∈ rows, List.Forall₂ TvpStatic.SameType r proto) :
      FreshContainer (.vector (rowOf proto) Size (rows.map rowOf))
        (.vector (rowOf proto) Size0 []) rows
  | array (rows heads : List (List TvpStatic)) (tail tail0 : List Tvp) (usedLen0 : Nat)
      (hsame : List.Forall₂ (List.Forall₂ TvpStatic.SameType) rows heads)
      (hlen : tail0.length = tail.length) :
      FreshContainer (.array rows.length (rows.map rowOf ++ tail))
        (.array usedLen0 (heads.map rowOf ++ tail0)) rows

/-! ## `sum` with the signedness of `char` made explicit -/

/-- The value of a `char` that holds the byte `b`, promoted to `int`: where `char` is
signed the bytes from 128 on are negative. -/
def charToInt (signed : Bool) (b : Nat) : Int :=
  if signed = true ∧ 128 ≤ b % 256 then (b % 256 : Int) - 256 else (b % 256 : Int)

/-- The statement `w += c` on a `uint8_t w` and a `char c` that holds the byte `b`. -/
def addChar (signed : Bool) (w b : Nat) : Nat :=
  (((w : Int) + charToInt signed b) % 256).toNat

/-- The loop `while (i < n) w += a[i++];` on a `uint8_t w`, with `char` signed or not. -/
def sumLoopChar (signed : Bool) (a : List Nat) : Nat → Nat → Nat → Nat
  | 0, _, w => w
  | k + 1, i, w => sumLoopChar signed a k (i + 1) (addChar signed w (a.getD i 0))

/-- Embeds `TvpStatic::sum()`, with `char` signed or not. -/
def TvpStatic.sumChar (signed : Bool) (f : TvpStatic) : Nat :=
  if f.usedLen = 0 then 0
  else
    let w := 0
    let w := sumLoopChar signed f.tag f.TagSize 0 w
    let w := addChar signed w ASSIGN
    let w := sumLoopChar signed f.value f.usedLen 0 w
    let w := addChar signed w SEPARATOR
    w

/-- Embeds `TvpDynamic::sum()`, with `char` signed or not. -/
def TvpDynamic.sumChar (signed : Bool) (f : TvpDynamic) : Nat :=
  if f.ValueSize = 0 then 0
  else
    let w := 0
    let w := sumLoopChar signed f.tag f.TagSize 0 w
    let w := addChar signed w ASSIGN
    let w := sumLoopChar signed f.value f.ValueSize 0 w
    let w := addChar signed w SEPARATOR
    w

/-! ## The setters of the repeating containers -/

/-- Embeds `TvpArray::set(i, args...)` on an array with logical length `usedLen` and entries
`data`: `data[i].set(args...); usedLen = std::max(usedLen, i + 1);`, where `setElem`
is the `set` of the element. -/
def TvpArray.set (usedLen : Nat) (data : List Tvp) (i : Nat)
    (setElem : Tvp → Except Fault Tvp) : Except Fault Tvp :=
  match data[i]? with
  | none => .error .outOfBounds
  | some t =>
    match setElem t with
    | .error e => .error e
    | .ok t1 => .ok (.array (max usedLen (i + 1)) (data.set i t1))

/-- Embeds `TvpVector::resize(capacity)`: `data.resize(capacity); Size = capacity;`. -/
def TvpVector.resize (proto : Tvp) (data : List Tvp) (capacity : Nat) : Tvp :=
  .vector proto capacity (data.take capacity ++ List.replicate (capacity - data.length) proto)

/-- Embeds `TvpVector::set(i, args...)`: `data[i].set(args...); Size = std::max(Size, i + 1);`,
where `setElem` is the `set` of the element. -/
def TvpVector.set (proto : Tvp) (Size : Nat) (data : List Tvp) (i : Nat)
    (setElem : Tvp → Except Fault Tvp) : Except Fault Tvp :=
  match data[i]? with
  | none => .error .outOfBounds
  | some t =>
    match setElem t with
    | .error e => .error e
    | .ok t1 => .ok (.vector proto (max Size (i + 1)) (data.set i t1))

/-- The logical length of a repeating container: `usedLen` of a `TvpArray`, `Size` of a
`TvpVector`. -/
def Tvp.logicalLength : Tvp → Nat
  | .array usedLen _ => usedLen
  | .vector _ Size _ => Size
  | _ => 0

/-! ## Signed decimal text -/

/-- The canonical base-10 text of an integer: `'-'` in front of the digits of `|v|` when
`v` is negative, the digits most significant first without leading zero, `"0"` for
zero. -/
def signedDecimal (v : Int) : List Nat :=
  if v < 0 then MINUS :: decimal v.natAbs else decimal v.natAbs

/-- The number that a run of ASCII digits denotes, `acc` being the number denoted by
the digits read before. -/
def digitsValue (acc : Int) : List Nat → Int
  | [] => acc
  | c :: rest => digitsValue (10 * acc + ((c : Int) - 48)) rest

/-- Embeds `details::atoi(first, last, output)` with its output variable: the returned flag
and the variable afterwards (`output = sign * val` is the last statement before
`return true`). -/
def atoiOutput (w : Nat) (s : List Nat) (output : Int) : Bool × Int :=
  match atoi w s with
  | some v => (true, v)
  | none => (false, output)

/-! ## `dtoa` and `TvpFloat`

A floating-point value is carried exactly, as a fraction; the arithmetic of `dtoa`
(`val - inp`, `fr *= 10`, `fr -= tmp`) is carried out without rounding. -/

/-- The exact value `num / den` of a finite floating-point number (`0 < den`). A zero
of either sign is `0 / den`: the code treats both alike, since `-0.0 < 0.0` is false. -/
structure Frac where
  num : Int
  den : Nat
deriving DecidableEq

namespace Frac

/-- The test `val < 0.0`. -/
def isNeg (x : Frac) : Bool := decide (x.num < 0)

/-- The value `-val`. -/
def neg (x : Frac) : Frac := ⟨-x.num, x.den⟩

/-- The value `std::abs(val)`. -/
def abs (x : Frac) : Frac := ⟨(x.num.natAbs : Int), x.den⟩

/-- The conversion to an integer type, which truncates toward zero. -/
def trunc (x : Frac) : Int := Int.tdiv x.num (x.den : Int)

/-- The value `val - n` for an integer `n`. -/
def subInt (x : Frac) (n : Int) : Frac := ⟨x.num - n * (x.den : Int), x.den⟩

/-- The value `val * 10`. -/
def mul10 (x : Frac) : Frac := ⟨10 * x.num, x.den⟩

end Frac

/-- The loop `while (accuracy--) { fr *= 10; int tmp = (int)fr; fr -= tmp;
dest[++s] = '0' + tmp; }` for a non-negative `accuracy`. -/
def dtoaFrac : Nat → List Nat → Frac → Nat → Except Fault (List Nat)
  | 0, dest, _, _ => .ok dest
  | accuracy + 1, dest, fr, s =>
    let fr1 := fr.mul10
    let tmp := fr1.trunc
    let fr2 := fr1.subInt tmp
    match store dest (s + 1) (ZERO + tmp.toNat) with
    | .error e => .error e
    | .ok dest1 => dtoaFrac accuracy dest1 fr2 (s + 1)

/-- Embeds `details::dtoa(dest, val, accuracy)` for a non-negative `accuracy`: the array
after the writes and the returned `width`. The digit loops are those of `itoa`
(`itoaCount`, `itoaFill`); the pointer `d = dest + ints - 1` is the index `ints - 1`,
which is not used when `ints = 0`. The byte 46 is `'.'`. -/
def dtoa (dest : List Nat) (val : Frac) (accuracy : Nat) : Except Fault (List Nat × Nat) :=
  let valc : Int := val.abs.trunc
  let ints := itoaCount valc.toNat valc 0
  let width := (if val.isNeg then 1 else 0) + ints + 1 + accuracy
  match (if val.isNeg then store dest 0 MINUS else .ok dest) with
  | .error e => .error e
  | .ok dest1 =>
    let val1 := if val.isNeg then val.neg else val
    let inp := val1.trunc
    let fr := val1.subInt inp
    match itoaFill inp.toNat dest1 inp (ints - 1) with
    | .error e => .error e
    | .ok dest2 =>
      match store dest2 ints 46 with
      | .error e => .error e
      | .ok dest3 =>
        match dtoaFrac accuracy dest3 fr ints with
        | .error e => .error e
        | .ok dest4 => .ok (dest4, width)

/-- Embeds `TvpFloat<FloatType, VSize, Tag>::set(val, decimals)`; `decimals` is 4 when the
caller gives none. -/
def TvpFloat.set (f : TvpStatic) (val : Frac) (decimals : Nat) : Except Fault TvpStatic :=
  match dtoa f.value val decimals with
  | .error e => .error e
  | .ok (value, n) => .ok { f with value := value, usedLen := n }

/-! ## `fixdatetime.hpp`: timestamps

The broken-down time `std::tm` comes from the C library (`gmtime`, `localtime`) and
goes to it (`timegm`, `timelocal`); these conversions are parameters here. -/

/-- The enumeration `clock_precision`. -/
inductive clock_precision where
  | seconds
  | milliseconds
  | microseconds
  | nanoseconds
deriving DecidableEq

/-- The value of an enumerator of `clock_precision`. -/
def clock_precision.toNat : clock_precision → Nat
  | .seconds => 0
  | .milliseconds => 1
  | .microseconds => 2
  | .nanoseconds => 3

/-- The fields of `std::tm` that the library reads and writes. -/
structure tm where
  tm_sec : Int
  tm_min : Int
  tm_hour : Int
  tm_mday : Int
  tm_mon : Int
  tm_year : Int
deriving DecidableEq

/-- The `char` that `'0' + x` stores for an `int x`: the low eight bits of `48 + x`. -/
def digitChar (x : Int) : Nat := ((48 + x) % 256).toNat

/-- Embeds `details::strfepoch<Prec>(dest, t, ts)`: the memory after the writes and the
returned `size`. `/` and `%` on `int` truncate toward zero. -/
def strfepoch (Prec : clock_precision) (m : Mem) (dest : Nat) (t : tm) (ts : Int) :
    Mem × Nat :=
  let year := t.tm_year + 1900
  let m := poke m (dest + 3) (digitChar (Int.tmod year 10))
  let year := Int.tdiv year 10
  let m := poke m (dest + 2) (digitChar (Int.tmod year 10))
  let year := Int.tdiv year 10
  let m := poke m (dest + 1) (digitChar (Int.tmod year 10))
  let year := Int.tdiv year 10
  let m := poke m (dest + 0) (digitChar (Int.tmod year 10))
  let month := t.tm_mon + 1
  let m := poke m (dest + 5) (digitChar (Int.tmod month 10))
  let month := Int.tdiv month 10
  let m := poke m (dest + 4) (digitChar (Int.tmod month 10))
  let day := t.tm_mday
  let m := poke m (dest + 7) (digitChar (Int.tmod day 10))
  let day := Int.tdiv day 10
  let m := poke m (dest + 6) (digitChar (Int.tmod day 10))
  let m := poke m (dest + 8) 45
  let hour := t.tm_hour
  let m := poke m (dest + 10) (digitChar (Int.tmod hour 10))
  let hour := Int.tdiv hour 10
  let m := poke m (dest + 9) (digitChar (Int.tmod hour 10))
  let m := poke m (dest + 11) 58
  let min := t.tm_min
  let m := poke m (dest + 13) (digitChar (Int.tmod min 10))
  let min := Int.tdiv min 10
  let m := poke m (dest + 12) (digitChar (Int.tmod min 10))
  let m := poke m (dest + 14) 58
  let sec := t.tm_sec
  let m := poke m (dest + 16) (digitChar (Int.tmod sec 10))
  let sec := Int.tdiv sec 10
  let size := 17
  let m := poke m (dest + 15) (digitChar (Int.tmod sec 10))
  let nsec : Int := max (Int.tmod ts 1000000000) 0
  let m := if Prec.toNat > clock_precision.seconds.toNat then poke m (dest + 17) 46 else m
  let r : Mem × Int × Nat :=
    if Prec.toNat ≥ clock_precision.milliseconds.toNat then
      let m := poke m (dest + 20) (digitChar (Int.tmod nsec 10))
      let nsec := Int.tdiv nsec 10
      let m := poke m (dest + 19) (digitChar (Int.tmod nsec 10))
      let nsec := Int.tdiv nsec 10
      let m := poke m (dest + 18) (digitChar (Int.tmod nsec 10))
      let nsec := Int.tdiv nsec 10
      (m, nsec, 21)
    else (m, nsec, size)
  let r : Mem × Int × Nat :=
    if Prec.toNat ≥ clock_precision.microseconds.toNat then
      let m := poke r.1 (dest + 23) (digitChar (Int.tmod r.2.1 10))
      let nsec := Int.tdiv r.2.1 10
      let m := poke m (dest + 22) (digitChar (Int.tmod nsec 10))
      let nsec := Int.tdiv nsec 10
      let m := poke m (dest + 21) (digitChar (Int.tmod nsec 10))
      let nsec := Int.tdiv nsec 10
      (m, nsec, 24)
    else r
  let r : Mem × Int × Nat :=
    if Prec.toNat ≥ clock_precision.nanoseconds.toNat then
      let m := poke r.1 (dest + 26) (digitChar (Int.tmod r.2.1 10))
      let nsec := Int.tdiv r.2.1 10
      let m := poke m (dest + 25) (digitChar (Int.tmod nsec 10))
      let nsec := Int.tdiv nsec 10
      let m := poke m (dest + 24) (digitChar (Int.tmod nsec 10))
      let nsec := Int.tdiv nsec 10
      (m, nsec, 27)
    else r
  (r.1, r.2.2)

/-- The `k` decimal digits of `n`, most significant first and padded with zeros on the
left (the digits of `n mod 10^k`), as ASCII. -/
def padded : Nat → Nat → List Nat
  | 0, _ => []
  | k + 1, n => padded k (n / 10) ++ [ZERO + n % 10]

/-- The number of bytes of a timestamp at a precision: 17, 21, 24 or 27. -/
def stampSize : clock_precision → Nat
  | .seconds => 17
  | .milliseconds => 21
  | .microseconds => 24
  | .nanoseconds => 27

/-- The text `YYYYMMDD-HH:MM:SS` of a broken-down time. -/
def stampText (t : tm) : List Nat :=
  padded 4 (t.tm_year + 1900).toNat ++ padded 2 (t.tm_mon + 1).toNat ++
    padded 2 t.tm_mday.toNat ++ [45] ++ padded 2 t.tm_hour.toNat ++ [58] ++
    padded 2 t.tm_min.toNat ++ [58] ++ padded 2 t.tm_sec.toNat

/-- A broken-down time as the C library produces it, with the year 0 to 9999. -/
def tm.IsBrokenDown (t : tm) : Prop :=
  (0 ≤ t.tm_year + 1900 ∧ t.tm_year + 1900 ≤ 9999) ∧ (0 ≤ t.tm_mon ∧ t.tm_mon ≤ 11) ∧
  (1 ≤ t.tm_mday ∧ t.tm_mday ≤ 31) ∧ (0 ≤ t.tm_hour ∧ t.tm_hour ≤ 23) ∧
  (0 ≤ t.tm_min ∧ t.tm_min ≤ 59) ∧ (0 ≤ t.tm_sec ∧ t.tm_sec ≤ 60)

instance (t : tm) : Decidable t.IsBrokenDown := by
  unfold tm.IsBrokenDown
  infer_instance

/-- The read `src[i]`, promoted to `int`; `src` holds the bytes readable from the pointer. -/
def readChar (signed : Bool) (src : List Nat) (i : Nat) : Except Fault Int :=
  if i < src.length then .ok (charToInt signed (src.getD i 0)) else .error .outOfBounds

/-- The statement `x = 10 * x + src[i] - '0'` on an `int x`. -/
def readDigit (signed : Bool) (src : List Nat) (x : Int) (i : Nat) : Except Fault Int :=
  match readChar signed src i with
  | .error e => .error e
  | .ok c => .ok (wrap INT_BITS (10 * x + c - 48))

/-- Embeds `details::strtepoch(src, size, f)`: `f` is `timegm` or `timelocal`, and the
result is an `int64_t`. -/
def strtepoch (signed : Bool) (src : List Nat) (size : Int) (f : tm → Int) :
    Except Fault Int := do
  let year : Int := 0
  let year ← readDigit signed src year 0
  let year ← readDigit signed src year 1
  let year ← readDigit signed src year 2
  let year ← readDigit signed src year 3
  let month : Int := 0
  let month ← readDigit signed src month 4
  let month ← readDigit signed src month 5
  let day : Int := 0
  let day ← readDigit signed src day 6
  let day ← readDigit signed src day 7
  let hour : Int := 0
  let hour ← readDigit signed src hour 9
  let hour ← readDigit signed src hour 10
  let minute : Int := 0
  let minute ← readDigit signed src minute 12
  let minute ← readDigit signed src minute 13
  let second : Int := 0
  let second ← readDigit signed src second 15
  let second ← readDigit signed src second 16
  let dt : tm :=
    { tm_year := year - 1900, tm_mon := month - 1, tm_mday := day, tm_hour := hour,
      tm_min := minute, tm_sec := second }
  if size < 20 then
    pure (wrap 64 (f dt))
  else
    let ms : Int := 0
    let p : Int := 1000
    let ms ← readDigit signed src ms 18
    let ms ← readDigit signed src ms 19
    let ms ← readDigit signed src ms 20
    let r : Int × Int ←
      if size > 23 then do
        let p := p * 1000
        let ms ← readDigit signed src ms 21
        let ms ← readDigit signed src ms 22
        let ms ← readDigit signed src ms 23
        pure (ms, p)
      else pure (ms, p)
    let r : Int × Int ←
      if size > 26 then do
        let p := r.2 * 1000
        let ms ← readDigit signed src r.1 24
        let ms ← readDigit signed src ms 25
        let ms ← readDigit signed src ms 26
        pure (ms, p)
      else pure r
    pure (wrap 64 (wrap 64 (f dt) * r.2 + r.1))

/-- The number that the bytes `src[i], …, src[i + k - 1]` denote when read as decimal
digits after the digits of `x`, in `int` arithmetic. -/
def digitsAt (signed : Bool) (src : List Nat) : Int → Nat → Nat → Int
  | x, _, 0 => x
  | x, i, k + 1 =>
    digitsAt signed src (wrap INT_BITS (10 * x + charToInt signed (src.getD i 0) - 48)) (i + 1) k

/-- The broken-down time that the first 17 bytes `YYYYMMDD-HH:MM:SS` denote. -/
def stampTm (signed : Bool) (src : List Nat) : tm :=
  { tm_year := digitsAt signed src 0 0 4 - 1900, tm_mon := digitsAt signed src 0 4 2 - 1,
    tm_mday := digitsAt signed src 0 6 2, tm_hour := digitsAt signed src 0 9 2,
    tm_min := digitsAt signed src 0 12 2, tm_sec := digitsAt signed src 0 15 2 }

/-! ## `fixate.hpp`: `FixEngine`

`FixEngine<DataSourceType, MessageVisitor>` is a template: the transport's member
functions are parameters here. They are taken to return; an exception thrown by one of
them leaves the engine's function with it. The order of the calls that a function makes
is kept in a list of `Call`s. -/

/-- The state of `MsgInitials = TvpGroup<BeginString<16>, BodyLength, MessageType>`. The
three member types are declared in `fixate/fixtags.hpp`, which is not among the sources;
each is a fixed-width field. -/
structure MsgInitials where
  beginString : TvpStatic
  bodyLength : TvpStatic
  messageType : TvpStatic
deriving DecidableEq

/-- Embeds `PeekMessage::operator()(buffer, g)`: the group after `g.parse(buffer)` and the
returned `int`. A group's `parse` keeps the number and the kinds of its members, so the
catch-all branch is never taken. -/
def PeekMessage (buffer : List Nat) (g : MsgInitials) : Except Fault (MsgInitials × Int) :=
  match TvpGroup.parse [.static g.beginString, .static g.bodyLength, .static g.messageType]
      buffer with
  | .ok ([.static beginString, .static bodyLength, .static messageType], _) =>
    .ok (⟨beginString, bodyLength, messageType⟩,
      wrap INT_BITS ((beginString.width : Int) + (bodyLength.width : Int)
        + TvpInteger.get INT_BITS bodyLength + 7))
  | .ok _ => .error .outOfBounds
  | .error e => .error e

/-- The members of `DataSourceType` that `FixEngine::perform` calls, on a transport
state `σ`: `readable` is the list of the bytes readable from `read_ptr()`. -/
structure DataSource (σ : Type) where
  size : σ → Int
  read_ptr : σ → Nat
  readable : σ → List Nat
  move_head : σ → Int → σ
  poll : σ → σ

/-- A call that the engine makes on its transport or on its visitor; `μ` is
`MessageTypeEnum`. -/
inductive Call (μ : Type) where
  | poll
  | visitor (msgType : μ) (buffer : Nat) (n : Int)
  | move_head (size : Int)
  | send_message (buffer : List Nat) (size : Int)
deriving DecidableEq

namespace FixEngine

/-- Embeds `FixEngine::connect()`. -/
def connect {σ : Type} (active : σ → Bool) (connect : σ → σ × Int) (s : σ) : Bool × σ :=
  if active s then (true, s) else (decide ((connect s).2 ≥ 0), (connect s).1)

/-- Embeds `FixEngine::disconnect()`. -/
def disconnect {σ : Type} (disconnect : σ → σ × Int) (s : σ) : Bool × σ :=
  (decide ((disconnect s).2 = 0), (disconnect s).1)

/-- Embeds `FixEngine::perform()`: the returned flag, the transport afterwards and the
calls made. `MsgTypeStringToEnum` is declared in `fixate/fixmsgtype.hpp`, which is not
among the sources; `hdr` is the default-constructed `MsgInitials`. -/
def perform {σ μ : Type} (dataSource : DataSource σ) (MsgTypeStringToEnum : List Nat → μ)
    (hdr : MsgInitials) (s : σ) : Except Fault (Bool × σ × List (Call μ)) :=
  let readFromSource := true
  if dataSource.size s ≥ 32 then
    match PeekMessage (dataSource.readable s) hdr with
    | .error e => .error e
    | .ok (hdr, msgLen) =>
      if dataSource.size s > msgLen then
        let msgType := MsgTypeStringToEnum (TvpStringFixed.get hdr.messageType)
        .ok (decide (msgLen > 0), dataSource.move_head s msgLen,
          [.visitor msgType (dataSource.read_ptr s) msgLen, .move_head msgLen])
      else if readFromSource then .ok (false, dataSource.poll s, [.poll])
      else .ok (false, s, [])
  else if readFromSource then .ok (false, dataSource.poll s, [.poll])
  else .ok (false, s, [])

/-- The size of `char requestBuf[8192]`. -/
def requestBufSize : Nat := 8192

/-- Embeds `FixEngine::sendmsg(msg, updateBodyLen, updateCheckSum)`: the returned
`size_t`, the message, the memory and the transport afterwards, and the calls made.
`requestBuf` is the address of the engine's buffer of 8192 bytes; a `dump` that writes
more than that stores outside the array. -/
def sendmsg {σ μ : Type} (send_message : σ → List Nat → Int → σ × Int) (fuel : Nat)
    (msg : FixMessage) (m : Mem) (requestBuf : Nat) (s : σ)
    (updateBodyLen updateCheckSum : Bool) :
    Except Fault (Nat × FixMessage × Mem × σ × List (Call μ)) :=
  match msg.dump fuel m requestBuf updateBodyLen updateCheckSum with
  | .error e => .error e
  | .ok (msg1, m1, bytes) =>
    if bytes > requestBufSize then .error .outOfBounds
    else if bytes > 0 then
      let r := send_message s (peek m1 requestBuf bytes) bytes
      .ok ((r.2 % 2 ^ 64).toNat, msg1, m1, r.1,
        [.send_message (peek m1 requestBuf bytes) bytes])
    else .ok (0, msg1, m1, s, [])

end FixEngine

/-- A transport over the ring buffer of bytes `memory`, of which those from `head` to
`tail` are buffered, and whose `poll` delivers no further bytes. The ring buffer itself
is an external library (`ringbuffer/ringbuffer.h`). -/
structure Ring where
  memory : List Nat
  head : Nat
  tail : Nat
deriving DecidableEq

/-- The members that `perform` calls, on a `Ring`. -/
def Ring.dataSource : DataSource Ring where
  size r := (r.tail : Int) - (r.head : Int)
  read_ptr r := r.head
  readable r := r.memory.drop r.head
  move_head r n := { r with head := ((r.head : Int) + n).toNat }
  poll r := r

/-- The state of a `tcp_client` or `file_client` that `disconnect()` uses. -/
structure client where
  is_active : Bool
deriving DecidableEq

/-- Embeds `file_client::disconnect()` when the two files close without error
(`fclose_or_die` throws otherwise): `return !this->is_active;` is 1, as is `return 1;`. -/
def file_client.disconnect (c : client) : client × Int :=
  if !c.is_active then (c, if !c.is_active then 1 else 0)
  else ({ c with is_active := false }, 1)

/-- Embeds `tcp_client::disconnect()` when `close` succeeds (`close_file_descriptor`
throws otherwise, and returns `ec = 0` then). -/
def tcp_client.disconnect (c : client) : client × Int :=
  if !c.is_active then (c, if !c.is_active then 1 else 0)
  else ({ c with is_active := false }, 0)

/-- The default-constructed `MsgInitials` for the sample messages: tags `8`, `9` and `35`,
with value arrays of 16, 4 and 1 bytes. -/
def sampleInitials : MsgInitials :=
  { beginString := ⟨[56], [0, 0, 0, 0, 0, 0, 0, 0, 0, 0, 0, 0, 0, 0, 0, 0], 0⟩
    bodyLength := ⟨[57], [0, 0, 0, 0], 0⟩
    messageType := ⟨[51, 53], [0], 0⟩ }

/-- The 50 bytes of the sample refresh as `dump(dest, true, true)` writes it:
`8=FIX.4.4|9=28|35=X|268=2|132=1.5|132=22.0|10=014|`. -/
def sampleWire : List Nat :=
  [56, 61, 70, 73, 88, 46, 52, 46, 52, 1, 57, 61, 50, 56, 1, 51, 53, 61, 88, 1,
   50, 54, 56, 61, 50, 1, 49, 51, 50, 61, 49, 46, 53, 1,
   49, 51, 50, 61, 50, 50, 46, 48, 1, 49, 48, 61, 48, 49, 52, 1]

/-- The sample `MsgInitials` after it has parsed the start of `sampleWire`:
`8=FIX.4.4`, `9=28`, `35=X`. -/
def samplePeeked : MsgInitials :=
  { beginString := ⟨[56], [70, 73, 88, 46, 52, 46, 52, 0, 0, 0, 0, 0, 0, 0, 0, 0], 7⟩
    bodyLength := ⟨[57], [50, 56, 0, 0], 2⟩
    messageType := ⟨[51, 53], [88], 1⟩ }

/-- The 40 bytes `8=FIX.4.4|9=-100|35=0|58=abcdefghijklmn|`: a negative `BodyLength`. -/
def negativeLengthWire : List Nat :=
  [56, 61, 70, 73, 88, 46, 52, 46, 52, 1, 57, 61, 45, 49, 48, 48, 1,
   51, 53, 61, 48, 1, 53, 56, 61, 97, 98, 99, 100, 101, 102, 103, 104, 105, 106, 107,
   108, 109, 110, 1]

/-- The sample refresh after `updateBodyLength` and `updateCheckSum`: `9=28`, `10=014`. -/
def sampleSent : FixMessage :=
  { sampleRefresh with
    bodyLength := ⟨[57], [50, 56, 0, 0], 2⟩
    checkSum := ⟨[49, 48], [48, 49, 52], 3⟩
    mBodyLen := 28 }

/-- A message of the sample schema with no field set. -/
def sampleEmpty : FixMessage :=
  { beginString := ⟨[56], [0, 0, 0, 0, 0, 0, 0, 0], 0⟩
    bodyLength := ⟨[57], [0, 0, 0, 0], 0⟩
    body := [.static ⟨[51, 53], [0], 0⟩]
    checkSum := ⟨[49, 48], [0, 0, 0], 0⟩ }

/-! ## `details::atod` -/

/-- The value `10 * val + digit`. -/
def Frac.mul10Add (x : Frac) (digit : Int) : Frac := ⟨10 * x.num + digit * (x.den : Int), x.den⟩

/-- The value `val + digit / divisor`, `divisor` being a power of ten. -/
def Frac.addQuot (x : Frac) (digit : Int) (divisor : Nat) : Frac :=
  ⟨x.num * (divisor : Int) + digit * (x.den : Int), x.den * divisor⟩

/-- The value `sign * val`. -/
def Frac.scale (x : Frac) (sign : Int) : Frac := ⟨sign * x.num, x.den⟩

/-- The first loop of `details::atod`, over the integer digits: `none` is `return false`,
otherwise `val` and the range left for the second loop (after `++itr; break;` at a
`'.'`, or empty). The byte 46 is `'.'`. -/
def atodInt : List Nat → Frac → Option (Frac × List Nat)
  | [], val => some (val, [])
  | c :: rest, val =>
    let digit : Int := (c : Int) - 48
    if 0 ≤ digit ∧ digit ≤ 9 then atodInt rest (val.mul10Add digit)
    else if c = 46 then some (val, rest)
    else none

/-- The second loop of `details::atod`, over the fractional digits. -/
def atodFrac : List Nat → Frac → Nat → Option Frac
  | [], val, _ => some val
  | c :: rest, val, divisor =>
    let digit : Int := (c : Int) - 48
    if 0 ≤ digit ∧ digit ≤ 9 then atodFrac rest (val.addQuot digit divisor) (divisor * 10)
    else none

/-- Embeds `details::atod(first, last, output)` on the bytes of `[first, last)`, the
arithmetic carried out exactly: `some v` is `return true` with `output = v`, `none` is
`return false`. For an empty range the byte that `*first` reads is taken not to
be `'-'`. -/
def atod (s : List Nat) : Option Frac :=
  let sign : Int := if s.head? = some MINUS then -1 else 1
  let itr := if sign = 1 then s else s.drop 1
  match atodInt itr ⟨0, 1⟩ with
  | none => none
  | some (val, itr) =>
    match atodFrac itr val 10 with
    | none => none
    | some val => some (val.scale sign)

/-- Embeds `details::atod` with its output variable: the returned flag and the variable
afterwards. -/
def atodOutput (s : List Nat) (output : Frac) : Bool × Frac :=
  match atod s with
  | some v => (true, v)
  | none => (false, output)

/-- An ASCII digit. -/
def isDigit (c : Nat) : Bool := decide (48 ≤ c ∧ c ≤ 57)

/-- The text of a decimal number, in the spec's words: an optional leading `'-'`, then
zero or more digits, then optionally a single `'.'` followed by zero or more digits. -/
def isFloatText (s : List Nat) : Bool :=
  let body := if s.head? = some MINUS then s.drop 1 else s
  match body.dropWhile isDigit with
  | [] => true
  | c :: rest => decide (c = 46) && rest.all isDigit

/-! ## The shared TLS context -/

/-- The statics `FIXATE_SSL_CTX_COUNT` and `FIXATE_SSL_CTX_RAW` of `connection_impl.hpp`
(`none` is `nullptr`), and the number of calls of `SSL_CTX_free` made so far. -/
structure SslCtx where
  FIXATE_SSL_CTX_COUNT : Int := 0
  FIXATE_SSL_CTX_RAW : Option Nat := none
  freed : Nat := 0
deriving DecidableEq

/-- Embeds `details::ssl_ctx_create()`; `SSL_CTX_new` is what the OpenSSL call of that
name returns. -/
def ssl_ctx_create (SSL_CTX_new : Option Nat) (s : SslCtx) : SslCtx × Option Nat :=
  let s := if s.FIXATE_SSL_CTX_RAW = none then { s with FIXATE_SSL_CTX_RAW := SSL_CTX_new }
    else s
  let s := { s with FIXATE_SSL_CTX_COUNT := wrap INT_BITS (s.FIXATE_SSL_CTX_COUNT + 1) }
  (s, s.FIXATE_SSL_CTX_RAW)

/-- Embeds `details::ssl_ctx_destroy()`: `if (FIXATE_SSL_CTX_COUNT-- == 0)
SSL_CTX_free(FIXATE_SSL_CTX_RAW);`. -/
def ssl_ctx_destroy (s : SslCtx) : SslCtx :=
  let old := s.FIXATE_SSL_CTX_COUNT
  let s := { s with FIXATE_SSL_CTX_COUNT := wrap INT_BITS (old - 1) }
  if old = 0 then { s with freed := s.freed + 1 } else s

/-- The state after `n` constructions of a `tcp_ssl_client`, each of which calls
`ssl_ctx_create`. -/
def createMany (SSL_CTX_new : Option Nat) : Nat → SslCtx → SslCtx
  | 0, s => s
  | n + 1, s => createMany SSL_CTX_new n (ssl_ctx_create SSL_CTX_new s).1

/-- The state after `n` destructions of a `tcp_ssl_client`, each of which calls
`ssl_ctx_destroy`. -/
def destroyMany : Nat → SslCtx → SslCtx
  | 0, s => s
  | n + 1, s => destroyMany n (ssl_ctx_destroy s)

/-- The 40 bytes `8=FIX.4.4|9=-23|35=0|58=abcdefghijklmno|`: the peeked length is 0. -/
def zeroLengthWire : List Nat :=
  [56, 61, 70, 73, 88, 46, 52, 46, 52, 1, 57, 61, 45, 50, 51, 1,
   51, 53, 61, 48, 1, 53, 56, 61, 97, 98, 99, 100, 101, 102, 103, 104, 105, 106, 107,
   108, 109, 110, 111, 1]

/-- The fresh sample message after it has parsed `sampleWire`: the header holds `9=28`,
the cached body length is still 0, and the vector holds two rows with `Size` 0. -/
def sampleParsed : FixMessage :=
  { beginString := ⟨[56], [70, 73, 88, 46, 52, 46, 52, 0], 7⟩
    bodyLength := ⟨[57], [50, 56, 0, 0], 2⟩
    body := [.static ⟨[51, 53], [88], 1⟩, .count ⟨[50, 54, 56], [50, 0], 1⟩,
      .vector (rowOf [⟨[49, 51, 50], [0, 0, 0, 0], 0⟩]) 0
        [rowOf [⟨[49, 51, 50], [49, 46, 53, 0], 3⟩], rowOf [⟨[49, 51, 50], [50, 50, 46, 48], 4⟩]]]
    checkSum := ⟨[49, 48], [48, 49, 52], 3⟩
    mBodyLen := 0 }

/-- A member that is a field (fixed-width, dynamic or count) whose tag is not at the
head of `buffer`. -/
def Tvp.unmatchedAt (buffer : List Nat) : Tvp → Bool
  | .static f => decide (buffer.take f.TagSize ≠ f.tag)
  | .dynamic g => decide (buffer.take g.TagSize ≠ g.tag)
  | .count f => decide (buffer.take f.TagSize ≠ f.tag)
  | _ => false

/-- A message whose body is made of the fields `35`, `49` and `56`, the last two holding
`A` and `B`. -/
def sampleFields : FixMessage :=
  { beginString := ⟨[56], [0, 0, 0, 0, 0, 0, 0, 0], 0⟩
    bodyLength := ⟨[57], [0, 0, 0, 0], 0⟩
    body := [.static ⟨[51, 53], [0], 0⟩, .static ⟨[52, 57], [65], 1⟩,
      .static ⟨[53, 54], [66], 1⟩]
    checkSum := ⟨[49, 48], [0, 0, 0], 0⟩ }

/-- The bytes `8=FIX.4.4|9=12|35=X|999=1|56=T|10=000|`: the field `999` is in no schema. -/
def unknownFieldWire : List Nat :=
  [56, 61, 70, 73, 88, 46, 52, 46, 52, 1, 57, 61, 49, 50, 1, 51, 53, 61, 88, 1,
   57, 57, 57, 61, 49, 1, 53, 54, 61, 84, 1, 49, 48, 61, 48, 48, 48, 1]

/-- The bytes `8=FIX.4.4|9=28|35=X|999=1|268=2|132=1.5|132=22.0|10=014|`: the sample
refresh with the unknown field `999` before the count field. -/
def unknownBeforeCount : List Nat :=
  [56, 61, 70, 73, 88, 46, 52, 46, 52, 1, 57, 61, 50, 56, 1, 51, 53, 61, 88, 1,
   57, 57, 57, 61, 49, 1, 50, 54, 56, 61, 50, 1, 49, 51, 50, 61, 49, 46, 53, 1,
   49, 51, 50, 61, 50, 50, 46, 48, 1, 49, 48, 61, 48, 49, 52, 1]

/-- The bytes `8=FIX.4.4|9=28|35=X|268=2|999=1|132=1.5|132=22.0|10=014|`: the unknown
field `999` after the count field. -/
def unknownAfterCount : List Nat :=
  [56, 61, 70, 73, 88, 46, 52, 46, 52, 1, 57, 61, 50, 56, 1, 51, 53, 61, 88, 1,
   50, 54, 56, 61, 50, 1, 57, 57, 57, 61, 49, 1, 49, 51, 50, 61, 49, 46, 53, 1,
   49, 51, 50, 61, 50, 50, 46, 48, 1, 49, 48, 61, 48, 49, 52, 1]

/-! # Theorems -/



theorem firstN_length (a : List Nat) (n : Nat) : (firstN a n).length = n := by
  simp [firstN]

theorem firstN_getD (a : List Nat) (n i : Nat) (h : i < n) :
    (firstN a n).getD i 0 = a.getD i 0 := by
  simp [firstN, List.getElem?_range, h]

theorem firstN_eq_take (a : List Nat) (n : Nat) (h : n ≤ a.length) :
    firstN a n = a.take n := by
  apply List.ext_getElem
  · simp [firstN, h]
  · intro i h1 h2
    simp [firstN] at h1 ⊢
    have : i < a.length := by omega
    simp [List.getElem?_eq_getElem, this]

theorem memcpy_eq_blit (m : Mem) (d : Nat) (src : List Nat) (n : Nat) :
    memcpy m d src n = blit m d (firstN src n) := by
  funext a
  unfold blit memcpy
  rw [firstN_length]
  by_cases h : d ≤ a ∧ a < d + n
  · rw [if_pos h, if_pos h, firstN_getD _ _ _ (by omega)]
  · rw [if_neg h, if_neg h]

theorem poke_eq_blit (m : Mem) (a : Nat) (b : Nat) : poke m a b = blit m a [b] := by
  funext x
  unfold blit memcpy poke
  by_cases h : x = a
  · subst h; simp
  · have : ¬ (a ≤ x ∧ x < a + [b].length) := by simp; omega
    rw [if_neg h, if_neg this]

theorem blit_blit (m : Mem) (d : Nat) (l1 l2 : List Nat) :
    blit (blit m d l1) (d + l1.length) l2 = blit m d (l1 ++ l2) := by
  funext a
  unfold blit memcpy
  by_cases h2 : d + l1.length ≤ a ∧ a < d + l1.length + l2.length
  · have h : d ≤ a ∧ a < d + (l1 ++ l2).length := by simp; omega
    rw [if_pos h2, if_pos h, List.getD_append_right _ _ _ _ (by omega)]
    congr 1; omega
  · rw [if_neg h2]
    by_cases h1 : d ≤ a ∧ a < d + l1.length
    · have h : d ≤ a ∧ a < d + (l1 ++ l2).length := by simp; omega
      rw [if_pos h1, if_pos h, List.getD_append _ _ _ _ (by omega)]
    · have h : ¬ (d ≤ a ∧ a < d + (l1 ++ l2).length) := by simp; omega
      rw [if_neg h1, if_neg h]

theorem blit_nil (m : Mem) (d : Nat) : blit m d [] = m := by
  funext a; simp [blit, memcpy]

theorem blit_outside (m : Mem) (d : Nat) (l : List Nat) (a : Nat)
    (h : a < d ∨ d + l.length ≤ a) : blit m d l a = m a := by
  unfold blit memcpy
  have : ¬ (d ≤ a ∧ a < d + l.length) := by omega
  rw [if_neg this]

theorem peek_blit (m : Mem) (d : Nat) (l : List Nat) : peek (blit m d l) d l.length = l := by
  apply List.ext_getElem
  · simp [peek]
  · intro i h1 h2
    simp [peek, blit, memcpy, h2, List.getElem?_eq_getElem]

theorem peek_length (m : Mem) (a n : Nat) : (peek m a n).length = n := by simp [peek]


theorem fieldWire_length (tag value : List Nat) (len : Nat) :
    (fieldWire tag value len).length = if len ≠ 0 then tag.length + 1 + len + 1 else 0 := by
  unfold fieldWire
  by_cases h : len = 0
  · simp [h]
  · simp [h, firstN_length]; omega

theorem firstN_self (a : List Nat) : firstN a a.length = a := by
  rw [firstN_eq_take _ _ (Nat.le_refl _), List.take_length]

theorem TvpStatic.static_dump_eq (f : TvpStatic) (m : Mem) (dest : Nat) :
    f.dump m dest = (blit m dest f.wire, f.wire.length) := by
  unfold TvpStatic.dump TvpStatic.wire
  by_cases h : f.usedLen = 0
  · simp [h, fieldWire, blit_nil]
  · rw [if_neg h, fieldWire_length, if_pos h]
    simp only [fieldWire, if_neg h, memcpy_eq_blit, poke_eq_blit, TvpStatic.TagSize, Nat.zero_add,
      Nat.add_zero]
    have e2 : dest + (f.tag.length + 1 + f.usedLen)
        = dest + (f.tag ++ [ASSIGN] ++ firstN f.value f.usedLen).length := by
      simp [firstN_length]; omega
    have e0 : dest + (f.tag.length + 1) = dest + (f.tag ++ [ASSIGN]).length := by simp
    rw [e0, e2, firstN_self, blit_blit, blit_blit, blit_blit]

theorem TvpDynamic.dynamic_dump_eq (f : TvpDynamic) (m : Mem) (dest : Nat) :
    f.dump m dest = (blit m dest f.wire, f.wire.length) := by
  unfold TvpDynamic.dump TvpDynamic.wire
  by_cases h : f.ValueSize = 0
  · simp [h, fieldWire, blit_nil]
  · rw [if_neg h, fieldWire_length, if_pos h]
    simp only [fieldWire, if_neg h, memcpy_eq_blit, poke_eq_blit, TvpDynamic.TagSize, Nat.zero_add,
      Nat.add_zero]
    have e2 : dest + (f.tag.length + 1 + f.ValueSize)
        = dest + (f.tag ++ [ASSIGN] ++ firstN f.value f.ValueSize).length := by
      simp [firstN_length]; omega
    have e0 : dest + (f.tag.length + 1) = dest + (f.tag ++ [ASSIGN]).length := by simp
    rw [e0, e2, firstN_self, blit_blit, blit_blit, blit_blit]

theorem TvpStatic.static_width_eq (f : TvpStatic) : f.width = f.wire.length := by
  unfold TvpStatic.width TvpStatic.wire TvpStatic.TagSize
  rw [fieldWire_length]

theorem TvpDynamic.dynamic_width_eq (f : TvpDynamic) : f.width = f.wire.length := by
  unfold TvpDynamic.width TvpDynamic.wire TvpDynamic.TagSize
  rw [fieldWire_length]

mutual
theorem Tvp.dump_eq : ∀ (t : Tvp) (m : Mem) (dest : Nat),
    t.dump m dest = (blit m dest t.wire, t.wire.length)
  | .static f, m, dest => by rw [Tvp.dump, Tvp.wire, TvpStatic.static_dump_eq]
  | .dynamic f, m, dest => by rw [Tvp.dump, Tvp.wire, TvpDynamic.dynamic_dump_eq]
  | .count f, m, dest => by rw [Tvp.dump, Tvp.wire, TvpStatic.static_dump_eq]
  | .array usedLen data, m, dest => by
    rw [Tvp.dump, Tvp.wire, dumpFor_eq]; simp
  | .vector _ _ data, m, dest => by
    rw [Tvp.dump, Tvp.wire, dumpEach_eq]; simp
  | .group members, m, dest => by
    rw [Tvp.dump, Tvp.wire, dump_impl_eq]
theorem dumpFor_eq : ∀ (k : Nat) (data : List Tvp) (m : Mem) (dest w : Nat),
    dumpFor k data m dest w
      = (blit m (dest + w) (wireFor k data), w + (wireFor k data).length)
  | 0, _, m, dest, w => by simp [dumpFor, wireFor, blit_nil]
  | _ + 1, [], m, dest, w => by simp [dumpFor, wireFor, blit_nil]
  | k + 1, t :: ts, m, dest, w => by
    rw [dumpFor, wireFor, Tvp.dump_eq t, dumpFor_eq k ts]
    simp only [List.length_append]
    rw [← Nat.add_assoc, blit_blit, Nat.add_assoc]
theorem dumpEach_eq : ∀ (data : List Tvp) (m : Mem) (dest w : Nat),
    dumpEach data m dest w
      = (blit m (dest + w) (wireEach data), w + (wireEach data).length)
  | [], m, dest, w => by simp [dumpEach, wireEach, blit_nil]
  | t :: ts, m, dest, w => by
    rw [dumpEach, wireEach, Tvp.dump_eq t, dumpEach_eq ts]
    simp only [List.length_append]
    rw [← Nat.add_assoc, blit_blit, Nat.add_assoc]
theorem dump_impl_eq : ∀ (members : List Tvp) (m : Mem) (buffer : Nat),
    dump_impl members m buffer
      = (blit m buffer (wireEach members), (wireEach members).length)
  | [], m, buffer => by simp [dump_impl, wireEach, blit_nil]
  | t :: ts, m, buffer => by
    rw [dump_impl, wireEach, Tvp.dump_eq t, dump_impl_eq ts]
    simp only [List.length_append]
    rw [blit_blit]
end

mutual
theorem Tvp.width_eq : ∀ (t : Tvp), t.width = t.wire.length
  | .static f => by rw [Tvp.width, Tvp.wire, TvpStatic.static_width_eq]
  | .dynamic f => by rw [Tvp.width, Tvp.wire, TvpDynamic.dynamic_width_eq]
  | .count f => by rw [Tvp.width, Tvp.wire, TvpStatic.static_width_eq]
  | .array usedLen data => by rw [Tvp.width, Tvp.wire, widthFor_eq]; simp
  | .vector _ _ data => by rw [Tvp.width, Tvp.wire, widthEach_eq]; simp
  | .group members => by rw [Tvp.width, Tvp.wire, width_impl_eq]
theorem widthFor_eq : ∀ (k : Nat) (data : List Tvp) (w : Nat),
    widthFor k data w = w + (wireFor k data).length
  | 0, _, w => by simp [widthFor, wireFor]
  | _ + 1, [], w => by simp [widthFor, wireFor]
  | k + 1, t :: ts, w => by
    rw [widthFor, wireFor, Tvp.width_eq t, widthFor_eq k ts]
    simp only [List.length_append]; omega
theorem widthEach_eq : ∀ (data : List Tvp) (w : Nat),
    widthEach data w = w + (wireEach data).length
  | [], w => by simp [widthEach, wireEach]
  | t :: ts, w => by
    rw [widthEach, wireEach, Tvp.width_eq t, widthEach_eq ts]
    simp only [List.length_append]; omega
theorem width_impl_eq : ∀ (members : List Tvp),
    width_impl members = (wireEach members).length
  | [] => by simp [width_impl, wireEach]
  | t :: ts => by
    rw [width_impl, wireEach, Tvp.width_eq t, width_impl_eq ts]
    simp only [List.length_append]
end

theorem sumLoop_eq (a : List Nat) : ∀ (k i w : Nat), w < 256 →
    TvpStatic.sumLoop a k i w
      = (w + ((List.range k).map fun j => a.getD (i + j) 0).sum) % 256
  | 0, i, w, h => by simp [TvpStatic.sumLoop, Nat.mod_eq_of_lt h]
  | k + 1, i, w, h => by
    rw [TvpStatic.sumLoop, sumLoop_eq a k (i + 1) _ (Nat.mod_lt _ (by decide)),
      List.range_succ_eq_map]
    simp only [List.map_cons, List.map_map, List.sum_cons, Nat.add_zero]
    have e : ((fun j => a.getD (i + j) 0) ∘ Nat.succ) = fun j => a.getD (i + 1 + j) 0 := by
      funext j
      show a.getD (i + (j + 1)) 0 = a.getD (i + 1 + j) 0
      rw [show i + (j + 1) = i + 1 + j by omega]
    rw [e]
    omega

theorem sumLoop_firstN (a : List Nat) (k w : Nat) (h : w < 256) :
    TvpStatic.sumLoop a k 0 w = (w + (firstN a k).sum) % 256 := by
  rw [sumLoop_eq a k 0 w h]
  simp [firstN]

theorem fieldSum_eq (tag value : List Nat) (len : Nat) :
    (TvpStatic.sumLoop value len 0
        ((TvpStatic.sumLoop tag tag.length 0 0 + ASSIGN) % 256) + SEPARATOR) % 256
      = (tag ++ [ASSIGN] ++ firstN value len ++ [SEPARATOR]).sum % 256 := by
  rw [sumLoop_firstN _ _ _ (Nat.mod_lt _ (by decide)), sumLoop_firstN _ _ _ (by decide),
    firstN_self]
  simp only [List.sum_append, List.sum_cons, List.sum_nil]
  omega

theorem TvpStatic.static_sum_eq (f : TvpStatic) : f.sum = f.wire.sum % 256 := by
  unfold TvpStatic.sum TvpStatic.wire fieldWire TvpStatic.TagSize
  by_cases h : f.usedLen = 0
  · simp [h]
  · simp only [if_neg h]
    exact fieldSum_eq _ _ _

theorem TvpDynamic.dynamic_sum_eq (f : TvpDynamic) : f.sum = f.wire.sum % 256 := by
  unfold TvpDynamic.sum TvpDynamic.wire fieldWire TvpDynamic.TagSize
  by_cases h : f.ValueSize = 0
  · simp [h]
  · simp only [if_neg h]
    exact fieldSum_eq _ _ _

mutual
theorem Tvp.sum_eq : ∀ (t : Tvp), t.sum = t.wire.sum % 256
  | .static f => by rw [Tvp.sum, Tvp.wire, TvpStatic.static_sum_eq]
  | .dynamic f => by rw [Tvp.sum, Tvp.wire, TvpDynamic.dynamic_sum_eq]
  | .count f => by rw [Tvp.sum, Tvp.wire, TvpStatic.static_sum_eq]
  | .array usedLen data => by rw [Tvp.sum, Tvp.wire, sumFor_eq _ _ _ (by decide)]; simp
  | .vector _ _ data => by rw [Tvp.sum, Tvp.wire, sumEach_eq _ _ (by decide)]; simp
  | .group members => by rw [Tvp.sum, Tvp.wire, sum_impl_eq]
theorem sumFor_eq : ∀ (k : Nat) (data : List Tvp) (w : Nat), w < 256 →
    sumFor k data w = (w + (wireFor k data).sum) % 256
  | 0, _, w, h => by simp [sumFor, wireFor, Nat.mod_eq_of_lt h]
  | _ + 1, [], w, h => by simp [sumFor, wireFor, Nat.mod_eq_of_lt h]
  | k + 1, t :: ts, w, _ => by
    rw [sumFor, wireFor, Tvp.sum_eq t, sumFor_eq k ts _ (Nat.mod_lt _ (by decide))]
    simp only [List.sum_append]; omega
theorem sumEach_eq : ∀ (data : List Tvp) (w : Nat), w < 256 →
    sumEach data w = (w + (wireEach data).sum) % 256
  | [], w, h => by simp [sumEach, wireEach, Nat.mod_eq_of_lt h]
  | t :: ts, w, _ => by
    rw [sumEach, wireEach, Tvp.sum_eq t, sumEach_eq ts _ (Nat.mod_lt _ (by decide))]
    simp only [List.sum_append]; omega
theorem sum_impl_eq : ∀ (members : List Tvp),
    sum_impl members = (wireEach members).sum % 256
  | [] => by simp [sum_impl, wireEach]
  | t :: ts => by
    rw [sum_impl, wireEach, Tvp.sum_eq t, sum_impl_eq ts]
    simp only [List.sum_append]; omega
end

/-! ## `itoa` and `atoi` on natural numbers -/

theorem decimalDigitsAux_eq : ∀ (fuel n : Nat) (acc : List Nat), n ≤ fuel →
    decimalDigitsAux fuel n acc
      = ((Nat.digits 10 n).reverse.map fun d => ZERO + d) ++ acc
  | 0, n, acc, h => by
    have : n = 0 := by omega
    subst this; simp [decimalDigitsAux]
  | fuel + 1, n, acc, h => by
    rw [decimalDigitsAux]
    by_cases hn : n = 0
    · subst hn; simp
    · rw [if_neg hn, decimalDigitsAux_eq fuel (n / 10) _ (by omega),
        Nat.digits_def' (by decide) (Nat.pos_of_ne_zero hn)]
      simp

theorem decimalDigits_eq_digits (n : Nat) :
    decimalDigits n = (Nat.digits 10 n).reverse.map fun d => ZERO + d := by
  unfold decimalDigits
  rw [decimalDigitsAux_eq n n [] (Nat.le_refl _), List.append_nil]

theorem decimalDigits_zero : decimalDigits 0 = [] := by simp [decimalDigits_eq_digits]

theorem decimalDigits_pos (n : Nat) (h : 0 < n) :
    decimalDigits n = decimalDigits (n / 10) ++ [ZERO + n % 10] := by
  rw [decimalDigits_eq_digits, decimalDigits_eq_digits, Nat.digits_def' (by decide) h]
  simp

theorem decimalDigits_length_pos (n : Nat) (h : 0 < n) : 0 < (decimalDigits n).length := by
  rw [decimalDigits_pos n h]; simp

theorem decimal_length_pos (n : Nat) : 0 < (decimal n).length := by
  unfold decimal
  by_cases h : n = 0
  · simp [h]
  · rw [if_neg h]; exact decimalDigits_length_pos n (Nat.pos_of_ne_zero h)

theorem itoaCount_eq : ∀ (fuel n acc : Nat), n ≤ fuel →
    itoaCount fuel (n : Int) acc = acc + (decimalDigits n).length
  | 0, n, acc, h => by
    have : n = 0 := by omega
    subst this; simp [itoaCount, decimalDigits_zero]
  | fuel + 1, n, acc, h => by
    rw [itoaCount]
    by_cases hn : 0 < n
    · have hi : (n : Int) > 0 := by exact_mod_cast hn
      rw [if_pos hi, show ((n : Int) / 10) = ((n / 10 : Nat) : Int) by norm_cast,
        itoaCount_eq fuel (n / 10) (acc + 1) (by omega), decimalDigits_pos n hn]
      simp; omega
    · have : n = 0 := by omega
      subst this; simp [decimalDigits_zero]

theorem itoaFill_eq : ∀ (fuel n : Nat) (pre junk post : List Nat), n ≤ fuel →
    junk.length = (decimalDigits n).length →
    itoaFill fuel (pre ++ junk ++ post) (n : Int) (pre.length + junk.length - 1)
      = .ok (pre ++ decimalDigits n ++ post)
  | 0, n, pre, junk, post, h, hj => by
    have : n = 0 := by omega
    subst this
    rw [decimalDigits_zero] at hj ⊢
    have : junk = [] := List.length_eq_zero.mp hj
    subst this; simp [itoaFill]
  | fuel + 1, n, pre, junk, post, h, hj => by
    rw [itoaFill]
    by_cases hn : 0 < n
    · have hi : (n : Int) > 0 := by exact_mod_cast hn
      rw [if_pos hi]
      rw [decimalDigits_pos n hn] at hj ⊢
      rcases List.eq_nil_or_concat junk with hnil | ⟨junk1, x, rfl⟩
      · subst hnil; simp at hj
      · simp only [List.concat_eq_append] at hj ⊢
        have hj1 : junk1.length = (decimalDigits (n / 10)).length := by
          simp at hj; exact hj
        have hd : pre.length + (junk1 ++ [x]).length - 1 = (pre ++ junk1).length := by
          simp
        have hs : store (pre ++ (junk1 ++ [x]) ++ post) (pre.length + (junk1 ++ [x]).length - 1)
            (ZERO + ((n : Int) % 10).toNat)
            = .ok (pre ++ junk1 ++ ((ZERO + n % 10) :: post)) := by
          unfold store
          rw [hd, if_pos (by simp)]
          have e : pre ++ (junk1 ++ [x]) ++ post = (pre ++ junk1) ++ (x :: post) := by simp
          rw [e, List.set_append_right _ _ (Nat.le_refl _)]
          simp
          norm_cast
        rw [hs]
        simp only []
        rw [show ((n : Int) / 10) = ((n / 10 : Nat) : Int) by norm_cast]
        have hd2 : pre.length + (junk1 ++ [x]).length - 1 - 1 = pre.length + junk1.length - 1 := by
          simp
        rw [hd2, itoaFill_eq fuel (n / 10) pre junk1 _ (by omega) hj1]
        simp
    · have : n = 0 := by omega
      subst this
      rw [decimalDigits_zero] at hj ⊢
      have : junk = [] := List.length_eq_zero.mp hj
      subst this; simp

theorem itoa_natCast (w fuel : Nat) (dest : List Nat) (n : Nat)
    (h : (decimal n).length ≤ dest.length) :
    itoa w (fuel + 1) dest 0 (n : Int)
      = .ok (decimal n ++ dest.drop (decimal n).length, (decimal n).length) := by
  rw [itoa]
  have hneg : ¬ ((n : Int) < 0) := by omega
  rw [if_neg hneg]
  by_cases hn : n = 0
  · subst hn
    simp only [decimal] at h ⊢
    simp at h
    cases dest with
    | nil => simp at h
    | cons a rest => simp [store]
  · have hne : ¬ ((n : Int) = 0) := by exact_mod_cast hn
    rw [if_neg hne]
    simp only [decimal, if_neg hn] at h ⊢
    simp only [Int.toNat_ofNat]
    rw [itoaCount_eq n n 0 (Nat.le_refl _), Nat.zero_add]
    have hsplit : dest = [] ++ dest.take (decimalDigits n).length
        ++ dest.drop (decimalDigits n).length := by simp
    have hlen : (dest.take (decimalDigits n).length).length = (decimalDigits n).length := by
      simp [h]
    have hfill := itoaFill_eq n n [] (dest.take (decimalDigits n).length)
      (dest.drop (decimalDigits n).length) (Nat.le_refl _) hlen
    rw [← hsplit, hlen] at hfill
    simp only [List.length_nil, Nat.zero_add] at hfill ⊢
    rw [hfill]
    simp

theorem TvpInteger.set_natCast (fuel : Nat) (f : TvpStatic) (n : Nat)
    (h : (decimal n).length ≤ f.value.length) :
    TvpInteger.set INT_BITS (fuel + 1) f (n : Int)
      = .ok { f with value := decimal n ++ f.value.drop (decimal n).length,
                     usedLen := (decimal n).length } := by
  unfold TvpInteger.set
  rw [itoa_natCast _ _ _ _ h]

theorem wrap_INT_BITS (x : Int) (h0 : -2147483648 ≤ x) (h1 : x < 2147483648) :
    wrap INT_BITS x = x := by
  unfold wrap INT_BITS
  norm_num
  omega

theorem atoiLoop_append (w : Nat) : ∀ (l1 l2 : List Nat) (v : Int),
    atoiLoop w (l1 ++ l2) v = (atoiLoop w l1 v).bind fun v1 => atoiLoop w l2 v1
  | [], l2, v => by simp [atoiLoop]
  | c :: l1, l2, v => by
    simp only [List.cons_append, atoiLoop]
    by_cases h : 0 ≤ (c : Int) - 48 ∧ (c : Int) - 48 ≤ 9
    · rw [if_pos h, if_pos h]; exact atoiLoop_append w l1 l2 _
    · rw [if_neg h, if_neg h]; rfl

theorem atoiLoop_decimalDigits (n : Nat) (h : n < 2147483648) :
    atoiLoop INT_BITS (decimalDigits n) 0 = some (n : Int) := by
  induction n using Nat.strong_induction_on with
  | _ n ih =>
    by_cases hn : 0 < n
    · rw [decimalDigits_pos n hn, atoiLoop_append, ih (n / 10) (by omega) (by omega)]
      simp only [Option.bind, atoiLoop, ZERO]
      have hd : 0 ≤ ((48 + n % 10 : Nat) : Int) - 48 ∧ ((48 + n % 10 : Nat) : Int) - 48 ≤ 9 := by
        omega
      rw [if_pos hd, wrap_INT_BITS _ (by omega) (by omega)]
      congr 1; omega
    · have : n = 0 := by omega
      subst this; simp [decimalDigits_zero, atoiLoop]

theorem decimal_head_ne_minus (n : Nat) : (decimal n).head? ≠ some MINUS := by
  unfold decimal
  by_cases hn : n = 0
  · simp [hn, ZERO, MINUS]
  · rw [if_neg hn]
    have hpos : 0 < n := Nat.pos_of_ne_zero hn
    intro hh
    have hmem : MINUS ∈ decimalDigits n := List.mem_of_mem_head? hh
    rw [decimalDigits_eq_digits] at hmem
    simp [ZERO, MINUS] at hmem
    obtain ⟨d, _, hd⟩ := hmem
    omega

theorem atoi_decimal (n : Nat) (h : n < 2147483648) :
    atoi INT_BITS (decimal n) = some (n : Int) := by
  unfold atoi
  rw [if_neg (decimal_head_ne_minus n)]
  simp only [if_true]
  have hl : atoiLoop INT_BITS (decimal n) 0 = some (n : Int) := by
    unfold decimal
    by_cases hn : n = 0
    · subst hn
      simp only [if_true, atoiLoop, ZERO]
      norm_num
      exact wrap_INT_BITS 0 (by omega) (by omega)
    · rw [if_neg hn]; exact atoiLoop_decimalDigits n h
  rw [hl]
  simp only [one_mul]
  rw [wrap_INT_BITS _ (by omega) (by omega)]

/-! ## Fields: the format of `dump` -/

theorem fieldWire_of_le (tag value : List Nat) (len : Nat) (h0 : len ≠ 0)
    (h : len ≤ value.length) :
    fieldWire tag value len = tag ++ [ASSIGN] ++ value.take len ++ [SEPARATOR] := by
  unfold fieldWire
  rw [if_neg h0, firstN_eq_take _ _ h]

/-- C5: a field (`TvpStatic f` or `TvpDynamic g`) whose logical length is 0 dumps
nothing and returns 0; otherwise `dump` writes, from `dest` on, exactly the tag bytes,
then `'='`, then the first `usedLen` value bytes, then `SOH`, and returns
`TagSize + 1 + usedLen + 1`. -/
theorem field_dump_format (f : TvpStatic) (g : TvpDynamic) (m : Mem) (dest : Nat)
    (hf : f.usedLen ≤ f.value.length) (hg : g.ValueSize ≤ g.value.length) :
    (f.usedLen = 0 → f.dump m dest = (m, 0)) ∧
    (f.usedLen ≠ 0 →
      f.dump m dest
        = (blit m dest (f.tag ++ [ASSIGN] ++ f.value.take f.usedLen ++ [SEPARATOR]),
           f.TagSize + 1 + f.usedLen + 1) ∧
      peek (f.dump m dest).1 dest (f.dump m dest).2
        = f.tag ++ [ASSIGN] ++ f.value.take f.usedLen ++ [SEPARATOR]) ∧
    (g.ValueSize = 0 → g.dump m dest = (m, 0)) ∧
    (g.ValueSize ≠ 0 →
      g.dump m dest
        = (blit m dest (g.tag ++ [ASSIGN] ++ g.value.take g.ValueSize ++ [SEPARATOR]),
           g.TagSize + 1 + g.ValueSize + 1) ∧
      peek (g.dump m dest).1 dest (g.dump m dest).2
        = g.tag ++ [ASSIGN] ++ g.value.take g.ValueSize ++ [SEPARATOR]) := by
  refine ⟨?_, ?_, ?_, ?_⟩
  · intro h; simp [TvpStatic.dump, h]
  · intro h
    have e : f.dump m dest
        = (blit m dest (f.tag ++ [ASSIGN] ++ f.value.take f.usedLen ++ [SEPARATOR]),
           f.TagSize + 1 + f.usedLen + 1) := by
      rw [TvpStatic.static_dump_eq, TvpStatic.wire, fieldWire_of_le _ _ _ h hf]
      congr 1
      simp [TvpStatic.TagSize, Nat.min_eq_left hf]; omega
    refine ⟨e, ?_⟩
    rw [e]
    have hl : (f.tag ++ [ASSIGN] ++ f.value.take f.usedLen ++ [SEPARATOR]).length
        = f.TagSize + 1 + f.usedLen + 1 := by
      simp [TvpStatic.TagSize, Nat.min_eq_left hf]; omega
    show peek (blit m dest _) dest (f.TagSize + 1 + f.usedLen + 1) = _
    rw [← hl, peek_blit]
  · intro h; simp [TvpDynamic.dump, h]
  · intro h
    have e : g.dump m dest
        = (blit m dest (g.tag ++ [ASSIGN] ++ g.value.take g.ValueSize ++ [SEPARATOR]),
           g.TagSize + 1 + g.ValueSize + 1) := by
      rw [TvpDynamic.dynamic_dump_eq, TvpDynamic.wire, fieldWire_of_le _ _ _ h hg]
      congr 1
      simp [TvpDynamic.TagSize, Nat.min_eq_left hg]; omega
    refine ⟨e, ?_⟩
    rw [e]
    have hl : (g.tag ++ [ASSIGN] ++ g.value.take g.ValueSize ++ [SEPARATOR]).length
        = g.TagSize + 1 + g.ValueSize + 1 := by
      simp [TvpDynamic.TagSize, Nat.min_eq_left hg]; omega
    show peek (blit m dest _) dest (g.TagSize + 1 + g.ValueSize + 1) = _
    rw [← hl, peek_blit]

/-- The field `35=A` and the field `58=Hi` at address 0 of a zeroed memory. -/
theorem field_dump_format_witness :
    (1 ≤ [65].length ∧ 2 ≤ [72, 105].length) ∧
    peek ((⟨[51, 53], [65], 1⟩ : TvpStatic).dump (fun _ => 0) 0).1 0
        ((⟨[51, 53], [65], 1⟩ : TvpStatic).dump (fun _ => 0) 0).2 = [51, 53, 61, 65, 1] ∧
    peek ((⟨[53, 56], [72, 105], 2⟩ : TvpDynamic).dump (fun _ => 0) 0).1 0
        ((⟨[53, 56], [72, 105], 2⟩ : TvpDynamic).dump (fun _ => 0) 0).2
      = [53, 56, 61, 72, 105, 1] :=
  have h := field_dump_format ⟨[51, 53], [65], 1⟩ ⟨[53, 56], [72, 105], 2⟩ (fun _ => 0) 0
    (by decide) (by decide)
  ⟨⟨by decide, by decide⟩, (h.2.1 (by decide)).2, (h.2.2.2 (by decide)).2⟩

/-! ## `width` and `dump` -/

/-- C10: for every member `t` (a field, a `TvpGroup`, a `TvpArray` or a `TvpVector`) in
any state, `dump` returns `width()`, overwrites each of the `width()` bytes from `dest`
on (their content does not depend on what memory held before) and touches no other
byte; a field that is default-constructed (`usedLen = 0`, `ValueSize = 0`) or was set
to the empty string has width 0 and dumps nothing. -/
theorem width_agrees_with_dump (t : Tvp) (f : TvpStatic) (g : TvpDynamic) (m : Mem)
    (dest : Nat) :
    (t.dump m dest).2 = t.width ∧
    (∀ a, a < dest ∨ dest + t.width ≤ a → (t.dump m dest).1 a = m a) ∧
    (∀ m2 : Mem, peek (t.dump m dest).1 dest t.width = peek (t.dump m2 dest).1 dest t.width) ∧
    (({ f with usedLen := 0 } : TvpStatic).width = 0 ∧
      ({ f with usedLen := 0 } : TvpStatic).dump m dest = (m, 0)) ∧
    (({ g with ValueSize := 0 } : TvpDynamic).width = 0 ∧
      ({ g with ValueSize := 0 } : TvpDynamic).dump m dest = (m, 0)) ∧
    (∃ f1, TvpStringFixed.set f [] = .ok f1 ∧ f1.width = 0 ∧ f1.dump m dest = (m, 0)) ∧
    ((TvpStringDynamic.set g []).width = 0 ∧
      (TvpStringDynamic.set g []).dump m dest = (m, 0)) := by
  refine ⟨?_, ?_, ?_, ?_, ?_, ?_, ?_⟩
  · rw [Tvp.dump_eq, Tvp.width_eq]
  · intro a ha
    rw [Tvp.dump_eq]
    rw [Tvp.width_eq] at ha
    exact blit_outside m dest t.wire a ha
  · intro m2
    rw [Tvp.dump_eq, Tvp.dump_eq, Tvp.width_eq, peek_blit, peek_blit]
  · simp [TvpStatic.width, TvpStatic.dump]
  · simp [TvpDynamic.width, TvpDynamic.dump]
  · refine ⟨{ f with value := [] ++ f.value.drop 0, usedLen := 0 }, ?_, ?_, ?_⟩
    · simp [TvpStringFixed.set]
    · simp [TvpStatic.width]
    · simp [TvpStatic.dump]
  · simp [TvpStringDynamic.set, TvpDynamic.width, TvpDynamic.dump]

/-! ## `FixMessage::dump` -/

theorem FixMessage.dumpGroups_eq (msg : FixMessage) (m : Mem) (dest : Nat) :
    msg.dumpGroups m dest
      = (blit m dest (msg.mMsgHeader.wire ++ msg.mMsgBody.wire ++ msg.mMsgTrailer.wire),
         msg.mMsgHeader.width + msg.mMsgBody.width + msg.mMsgTrailer.width) := by
  unfold FixMessage.dumpGroups
  simp only [Tvp.dump_eq, Tvp.width_eq]
  rw [blit_blit, ← List.length_append, blit_blit]

theorem CheckSum.set_eq (f : TvpStatic) (c : Nat) (h : 3 ≤ f.value.length) :
    CheckSum.set f c
      = .ok { f with value := [ZERO + c / 100, ZERO + c / 10 % 10, ZERO + c % 10]
                       ++ f.value.drop 3,
                     usedLen := 3 } := by
  obtain ⟨tag, value, usedLen⟩ := f
  match value, h with
  | a :: b :: c1 :: rest, _ => simp [CheckSum.set, store]

theorem FixMessage.updateBodyLength_eq (fuel : Nat) (msg : FixMessage) (h0 : 0 < fuel)
    (h : (decimal msg.mMsgBody.width).length ≤ msg.bodyLength.value.length) :
    msg.updateBodyLength fuel
      = .ok ({ msg with
                mBodyLen := msg.mMsgBody.width,
                bodyLength :=
                  { msg.bodyLength with
                    value := decimal msg.mMsgBody.width
                      ++ msg.bodyLength.value.drop (decimal msg.mMsgBody.width).length,
                    usedLen := (decimal msg.mMsgBody.width).length } },
             msg.mMsgBody.width) := by
  obtain ⟨k, rfl⟩ : ∃ k, fuel = k + 1 := ⟨fuel - 1, by omega⟩
  unfold FixMessage.updateBodyLength BodyLength.set
  simp only []
  rw [TvpInteger.set_natCast k _ _ h]

/-- The message after the optional updates of `dump` terminates normally whenever the
two setters have room for their digits. -/
theorem FixMessage.dump_ok (fuel : Nat) (msg : FixMessage) (m : Mem) (dest : Nat)
    (setBodyLength setCheckSum : Bool)
    (hfuel : setBodyLength = true → 0 < fuel)
    (hlen : setBodyLength = true →
      (decimal msg.mMsgBody.width).length ≤ msg.bodyLength.value.length)
    (hsum : setCheckSum = true → 3 ≤ msg.checkSum.value.length) :
    ∃ msg1, msg.dump fuel m dest setBodyLength setCheckSum
        = .ok (msg1, (msg1.dumpGroups m dest).1, (msg1.dumpGroups m dest).2) ∧
      msg1.body = msg.body ∧ msg1.beginString = msg.beginString ∧
      (setBodyLength = false → msg1.bodyLength = msg.bodyLength ∧ msg1.mBodyLen = msg.mBodyLen) ∧
      (setBodyLength = true → msg1.mBodyLen = msg.mMsgBody.width ∧
        msg1.bodyLength = { msg.bodyLength with
            value := decimal msg.mMsgBody.width
              ++ msg.bodyLength.value.drop (decimal msg.mMsgBody.width).length,
            usedLen := (decimal msg.mMsgBody.width).length }) ∧
      (setCheckSum = false → msg1.checkSum = msg.checkSum) ∧
      (setCheckSum = true → CheckSum.set msg.checkSum
          ({ msg1 with checkSum := msg.checkSum } : FixMessage).checksumOf = .ok msg1.checkSum) := by
  unfold FixMessage.dump
  cases setBodyLength <;> cases setCheckSum
  · exact ⟨msg, by simp⟩
  · have hs := hsum rfl
    simp only [Bool.false_eq_true, if_false, if_true, FixMessage.updateCheckSum]
    rw [CheckSum.set_eq _ _ hs]
    refine ⟨_, rfl, rfl, rfl, ?_, ?_, ?_, ?_⟩
    · intro _; exact ⟨rfl, rfl⟩
    · intro h; cases h
    · intro h; cases h
    · intro _
      simp only []
      rw [CheckSum.set_eq _ _ hs]
  · simp only [if_true, Bool.false_eq_true, if_false]
    rw [FixMessage.updateBodyLength_eq fuel msg (hfuel rfl) (hlen rfl)]
    refine ⟨_, rfl, rfl, rfl, ?_, ?_, ?_, ?_⟩
    · intro h; cases h
    · intro _; exact ⟨rfl, rfl⟩
    · intro _; rfl
    · intro h; cases h
  · have hs := hsum rfl
    simp only [if_true]
    rw [FixMessage.updateBodyLength_eq fuel msg (hfuel rfl) (hlen rfl)]
    simp only [Except.map, FixMessage.updateCheckSum]
    rw [CheckSum.set_eq _ _ hs]
    refine ⟨_, rfl, rfl, rfl, ?_, ?_, ?_, ?_⟩
    · intro h; cases h
    · intro _; exact ⟨rfl, rfl⟩
    · intro h; cases h
    · intro _
      simp only []
      rw [CheckSum.set_eq _ _ hs]

theorem Tvp.dumped_eq (t : Tvp) : t.dumped = t.wire := by
  unfold Tvp.dumped
  rw [Tvp.dump_eq, peek_blit]

theorem Tvp.dumped_length (t : Tvp) : t.dumped.length = t.width := by
  rw [Tvp.dumped_eq, Tvp.width_eq]

theorem peek_blit_prefix (m : Mem) (d : Nat) (l1 l2 : List Nat) :
    peek (blit m d (l1 ++ l2)) d l1.length = l1 := by
  rw [← blit_blit]
  apply List.ext_getElem
  · simp [peek]
  · intro i h1 h2
    have hout : d + i < d + l1.length ∨ d + l1.length + l2.length ≤ d + i := by omega
    simp only [peek, List.getElem_map, List.getElem_range]
    rw [blit_outside _ _ _ _ hout]
    simp [blit, memcpy, h2, List.getElem?_eq_getElem]

theorem peek_blit_suffix (m : Mem) (d : Nat) (l1 l2 : List Nat) :
    peek (blit m d (l1 ++ l2)) (d + l1.length) l2.length = l2 := by
  rw [← blit_blit, peek_blit]

/-- C4: for every message and every choice of the two flags, `FixMessage::dump` writes
from `dest` on the bytes of the header group, immediately followed by the bytes of the
body group, immediately followed by the bytes of the trailer group (the groups as they
are after the optional updates), touches nothing else, and returns
header width + body width + trailer width. The call returns normally when the setters
it runs have room for their digits. -/
theorem message_layout (fuel : Nat) (msg : FixMessage) (m : Mem) (dest : Nat)
    (setBodyLength setCheckSum : Bool)
    (hfuel : setBodyLength = true → 0 < fuel)
    (hlen : setBodyLength = true →
      (decimal msg.mMsgBody.width).length ≤ msg.bodyLength.value.length)
    (hsum : setCheckSum = true → 3 ≤ msg.checkSum.value.length) :
    ∃ msg1, msg.dump fuel m dest setBodyLength setCheckSum
        = .ok (msg1,
            blit m dest (msg1.mMsgHeader.dumped ++ msg1.mMsgBody.dumped ++ msg1.mMsgTrailer.dumped),
            msg1.mMsgHeader.width + msg1.mMsgBody.width + msg1.mMsgTrailer.width) ∧
      msg1.mMsgHeader.dumped.length = msg1.mMsgHeader.width ∧
      msg1.mMsgBody.dumped.length = msg1.mMsgBody.width ∧
      msg1.mMsgTrailer.dumped.length = msg1.mMsgTrailer.width := by
  obtain ⟨msg1, h, _⟩ := FixMessage.dump_ok fuel msg m dest setBodyLength setCheckSum hfuel hlen hsum
  refine ⟨msg1, ?_, Tvp.dumped_length _, Tvp.dumped_length _, Tvp.dumped_length _⟩
  rw [h, FixMessage.dumpGroups_eq, Tvp.dumped_eq, Tvp.dumped_eq, Tvp.dumped_eq]

/-- The message `8=FIX.4.4|9=..|35=X|10=...|` with both flags set. -/
theorem message_layout_witness :
    ((true = true → 0 < 1) ∧
     (true = true → (decimal (FixMessage.mMsgBody
        ⟨⟨[56], [70, 73, 88, 46, 52, 46, 52, 0], 7⟩, ⟨[57], [0, 0, 0, 0], 0⟩,
         [.static ⟨[51, 53], [88], 1⟩], ⟨[49, 48], [0, 0, 0], 0⟩, 0⟩).width).length
        ≤ [0, 0, 0, 0].length) ∧
     (true = true → 3 ≤ [0, 0, 0].length)) ∧
    ∃ msg1, FixMessage.dump 1
        ⟨⟨[56], [70, 73, 88, 46, 52, 46, 52, 0], 7⟩, ⟨[57], [0, 0, 0, 0], 0⟩,
         [.static ⟨[51, 53], [88], 1⟩], ⟨[49, 48], [0, 0, 0], 0⟩, 0⟩
        (fun _ => 0) 0 true true
        = .ok (msg1,
            blit (fun _ => 0) 0
              (msg1.mMsgHeader.dumped ++ msg1.mMsgBody.dumped ++ msg1.mMsgTrailer.dumped),
            msg1.mMsgHeader.width + msg1.mMsgBody.width + msg1.mMsgTrailer.width) ∧
      msg1.mMsgHeader.dumped.length = msg1.mMsgHeader.width ∧
      msg1.mMsgBody.dumped.length = msg1.mMsgBody.width ∧
      msg1.mMsgTrailer.dumped.length = msg1.mMsgTrailer.width :=
  ⟨⟨fun _ => by decide, fun _ => by decide, fun _ => by decide⟩,
   message_layout 1
     ⟨⟨[56], [70, 73, 88, 46, 52, 46, 52, 0], 7⟩, ⟨[57], [0, 0, 0, 0], 0⟩,
      [.static ⟨[51, 53], [88], 1⟩], ⟨[49, 48], [0, 0, 0], 0⟩, 0⟩
     (fun _ => 0) 0 true true (fun _ => by decide) (fun _ => by decide) (fun _ => by decide)⟩

theorem FixMessage.checksumOf_eq (msg : FixMessage) :
    msg.checksumOf = (msg.mMsgHeader.dumped ++ msg.mMsgBody.dumped).sum % 256 := by
  unfold FixMessage.checksumOf
  rw [Tvp.sum_eq, Tvp.sum_eq, Tvp.dumped_eq, Tvp.dumped_eq, List.sum_append]
  omega

theorem FixMessage.updateBodyLength_spec (fuel : Nat) (msg : FixMessage) (h0 : 0 < fuel)
    (h : (decimal msg.mMsgBody.width).length ≤ msg.bodyLength.value.length) :
    ∃ msgL, msg.updateBodyLength fuel = .ok (msgL, msg.mMsgBody.width) ∧
      msgL.beginString = msg.beginString ∧ msgL.body = msg.body ∧
      msgL.checkSum = msg.checkSum ∧ msgL.mBodyLen = msg.mMsgBody.width ∧
      msgL.bodyLength.tag = msg.bodyLength.tag ∧
      msgL.bodyLength.usedLen = (decimal msg.mMsgBody.width).length ∧
      msgL.bodyLength.value
        = decimal msg.mMsgBody.width
          ++ msg.bodyLength.value.drop (decimal msg.mMsgBody.width).length :=
  ⟨_, FixMessage.updateBodyLength_eq fuel msg h0 h, rfl, rfl, rfl, rfl, rfl, rfl, rfl⟩

theorem FixMessage.updateCheckSum_spec (msg : FixMessage) (h : 3 ≤ msg.checkSum.value.length) :
    ∃ msg1, msg.updateCheckSum = .ok msg1 ∧
      CheckSum.set msg.checkSum msg.checksumOf = .ok msg1.checkSum ∧
      msg1.beginString = msg.beginString ∧ msg1.bodyLength = msg.bodyLength ∧
      msg1.body = msg.body ∧ msg1.mBodyLen = msg.mBodyLen ∧
      msg1.checkSum.tag = msg.checkSum.tag ∧ msg1.checkSum.usedLen = 3 ∧
      msg1.checkSum.value
        = [ZERO + msg.checksumOf / 100, ZERO + msg.checksumOf / 10 % 10,
            ZERO + msg.checksumOf % 10] ++ msg.checkSum.value.drop 3 := by
  refine ⟨{ msg with checkSum := { msg.checkSum with
      value := [ZERO + msg.checksumOf / 100, ZERO + msg.checksumOf / 10 % 10,
        ZERO + msg.checksumOf % 10] ++ msg.checkSum.value.drop 3, usedLen := 3 } },
    ?_, ?_, rfl, rfl, rfl, rfl, rfl, rfl, rfl⟩
  · unfold FixMessage.updateCheckSum
    simp only []
    rw [CheckSum.set_eq _ _ h]
  · simp only []
    rw [CheckSum.set_eq _ _ h]

theorem FixMessage.dump_both (fuel : Nat) (msg msgL msg1 : FixMessage) (m : Mem) (dest w : Nat)
    (hL : msg.updateBodyLength fuel = .ok (msgL, w)) (h1 : msgL.updateCheckSum = .ok msg1) :
    msg.dump fuel m dest true true
      = .ok (msg1,
          blit m dest (msg1.mMsgHeader.dumped ++ msg1.mMsgBody.dumped ++ msg1.mMsgTrailer.dumped),
          msg1.mMsgHeader.width + msg1.mMsgBody.width + msg1.mMsgTrailer.width) := by
  unfold FixMessage.dump
  simp only [if_true]
  rw [hL]
  simp only [Except.map]
  rw [h1]
  simp only []
  rw [FixMessage.dumpGroups_eq, Tvp.dumped_eq, Tvp.dumped_eq, Tvp.dumped_eq]

theorem FixMessage.header_congr (a b : FixMessage) (h1 : a.beginString = b.beginString)
    (h2 : a.bodyLength = b.bodyLength) : a.mMsgHeader = b.mMsgHeader := by
  unfold FixMessage.mMsgHeader; rw [h1, h2]

theorem FixMessage.body_congr (a b : FixMessage) (h : a.body = b.body) :
    a.mMsgBody = b.mMsgBody := by
  unfold FixMessage.mMsgBody; rw [h]

/-- C3: `dump(dest, true, true)` first runs `updateBodyLength`, giving `msgL`, then
`updateCheckSum`, giving `msg1`; the value `msgL.checksumOf` that `updateCheckSum`
passes to the `CheckSum` field is the sum, modulo 256, of the bytes that this `dump`
writes for header and body, which are the bytes it leaves before the trailer; the
header among them carries the `BodyLength` recomputed in this call. -/
theorem checksum_value (fuel : Nat) (msg : FixMessage) (m : Mem) (dest : Nat)
    (hfuel : 0 < fuel)
    (hlen : (decimal msg.mMsgBody.width).length ≤ msg.bodyLength.value.length)
    (hsum : 3 ≤ msg.checkSum.value.length) :
    ∃ msgL msg1 m1 n,
      msg.updateBodyLength fuel = .ok (msgL, msg.mMsgBody.width) ∧
      msgL.updateCheckSum = .ok msg1 ∧
      CheckSum.set msgL.checkSum msgL.checksumOf = .ok msg1.checkSum ∧
      msg.dump fuel m dest true true = .ok (msg1, m1, n) ∧
      msgL.checksumOf = (peek m1 dest (n - msg1.mMsgTrailer.width)).sum % 256 ∧
      peek m1 dest (n - msg1.mMsgTrailer.width)
        = msg1.mMsgHeader.dumped ++ msg1.mMsgBody.dumped ∧
      msg1.bodyLength.value.take msg1.bodyLength.usedLen = decimal msg.mMsgBody.width := by
  obtain ⟨msgL, hL, _, _, hLc, _, _, hLu, hLv⟩ :=
    FixMessage.updateBodyLength_spec fuel msg hfuel hlen
  obtain ⟨msg1, h1, hset, h1b, h1l, h1body, _⟩ :=
    FixMessage.updateCheckSum_spec msgL (by rw [hLc]; exact hsum)
  have hpeek : peek (blit m dest
        (msg1.mMsgHeader.dumped ++ msg1.mMsgBody.dumped ++ msg1.mMsgTrailer.dumped)) dest
        (msg1.mMsgHeader.width + msg1.mMsgBody.width + msg1.mMsgTrailer.width
          - msg1.mMsgTrailer.width)
      = msg1.mMsgHeader.dumped ++ msg1.mMsgBody.dumped := by
    rw [Nat.add_sub_cancel, ← Tvp.dumped_length, ← Tvp.dumped_length, ← List.length_append,
      peek_blit_prefix]
  refine ⟨msgL, msg1, _, _, hL, h1, hset, FixMessage.dump_both fuel msg msgL msg1 m dest _ hL h1,
    ?_, hpeek, ?_⟩
  · rw [hpeek, FixMessage.checksumOf_eq,
      FixMessage.header_congr msg1 msgL h1b h1l, FixMessage.body_congr msg1 msgL h1body]
  · rw [h1l, hLu, hLv, List.take_left]

/-- The message `8=FIX.4.4|9=5|35=X|` at address 0 of a zeroed memory. -/
theorem checksum_value_witness :
    (0 < 1 ∧
     (decimal (FixMessage.mMsgBody
        ⟨⟨[56], [70, 73, 88, 46, 52, 46, 52, 0], 7⟩, ⟨[57], [0, 0, 0, 0], 0⟩,
         [.static ⟨[51, 53], [88], 1⟩], ⟨[49, 48], [0, 0, 0], 0⟩, 0⟩).width).length
        ≤ [0, 0, 0, 0].length ∧
     3 ≤ [0, 0, 0].length) ∧
    ∃ msgL msg1 m1 n,
      FixMessage.updateBodyLength 1
        ⟨⟨[56], [70, 73, 88, 46, 52, 46, 52, 0], 7⟩, ⟨[57], [0, 0, 0, 0], 0⟩,
         [.static ⟨[51, 53], [88], 1⟩], ⟨[49, 48], [0, 0, 0], 0⟩, 0⟩
        = .ok (msgL, (FixMessage.mMsgBody
            ⟨⟨[56], [70, 73, 88, 46, 52, 46, 52, 0], 7⟩, ⟨[57], [0, 0, 0, 0], 0⟩,
             [.static ⟨[51, 53], [88], 1⟩], ⟨[49, 48], [0, 0, 0], 0⟩, 0⟩).width) ∧
      msgL.updateCheckSum = .ok msg1 ∧
      CheckSum.set msgL.checkSum msgL.checksumOf = .ok msg1.checkSum ∧
      FixMessage.dump 1
        ⟨⟨[56], [70, 73, 88, 46, 52, 46, 52, 0], 7⟩, ⟨[57], [0, 0, 0, 0], 0⟩,
         [.static ⟨[51, 53], [88], 1⟩], ⟨[49, 48], [0, 0, 0], 0⟩, 0⟩
        (fun _ => 0) 0 true true = .ok (msg1, m1, n) ∧
      msgL.checksumOf = (peek m1 0 (n - msg1.mMsgTrailer.width)).sum % 256 ∧
      peek m1 0 (n - msg1.mMsgTrailer.width)
        = msg1.mMsgHeader.dumped ++ msg1.mMsgBody.dumped ∧
      msg1.bodyLength.value.take msg1.bodyLength.usedLen
        = decimal (FixMessage.mMsgBody
            ⟨⟨[56], [70, 73, 88, 46, 52, 46, 52, 0], 7⟩, ⟨[57], [0, 0, 0, 0], 0⟩,
             [.static ⟨[51, 53], [88], 1⟩], ⟨[49, 48], [0, 0, 0], 0⟩, 0⟩).width :=
  ⟨⟨by decide, by decide, by decide⟩,
   checksum_value 1
     ⟨⟨[56], [70, 73, 88, 46, 52, 46, 52, 0], 7⟩, ⟨[57], [0, 0, 0, 0], 0⟩,
      [.static ⟨[51, 53], [88], 1⟩], ⟨[49, 48], [0, 0, 0], 0⟩, 0⟩
     (fun _ => 0) 0 (by decide) (by decide) (by decide)⟩

/-- The checksum of `8=FIX.4.4|9=5|35=X|` on the model: the bytes sum to 971 = 3·256 + 203. -/
theorem checksum_value_example :
    (FixMessage.checksumOf
      ⟨⟨[56], [70, 73, 88, 46, 52, 46, 52, 0], 7⟩, ⟨[57], [53, 0, 0, 0], 1⟩,
       [.static ⟨[51, 53], [88], 1⟩], ⟨[49, 48], [0, 0, 0], 0⟩, 5⟩) = 203 := by
  decide


theorem peek_blit_middle (m : Mem) (d : Nat) (l1 l2 l3 : List Nat) :
    peek (blit m d (l1 ++ (l2 ++ l3))) (d + l1.length) l2.length = l2 := by
  rw [← blit_blit, peek_blit_prefix]

/-- C2: after `dump(dest, true, true)` the `BodyLength` field that was written is
`tag=digits SOH` where the digits are the decimal text of the number of bytes written
for the body group alone (they lie right after the header, before the trailer), the
field's integer value `get()` is that number, and `getBodyLength()` returns it too. -/
theorem body_length (fuel : Nat) (msg : FixMessage) (m : Mem) (dest : Nat)
    (hfuel : 0 < fuel)
    (hlen : (decimal msg.mMsgBody.width).length ≤ msg.bodyLength.value.length)
    (hsum : 3 ≤ msg.checkSum.value.length)
    (hint : msg.mMsgBody.width < 2 ^ 31) :
    ∃ msg1 m1 n,
      msg.dump fuel m dest true true = .ok (msg1, m1, n) ∧
      peek m1 (dest + msg1.mMsgHeader.width) msg1.mMsgBody.dumped.length
        = msg1.mMsgBody.dumped ∧
      n = msg1.mMsgHeader.width + msg1.mMsgBody.dumped.length + msg1.mMsgTrailer.width ∧
      peek m1 (dest + (Tvp.static msg1.beginString).width) (Tvp.static msg1.bodyLength).width
        = msg.bodyLength.tag ++ [ASSIGN] ++ decimal msg1.mMsgBody.dumped.length ++ [SEPARATOR] ∧
      TvpInteger.get INT_BITS msg1.bodyLength = (msg1.mMsgBody.dumped.length : Int) ∧
      msg1.getBodyLength = msg1.mMsgBody.dumped.length := by
  obtain ⟨msgL, hL, hLb, hLbody, hLc, hLm, hLt, hLu, hLv⟩ :=
    FixMessage.updateBodyLength_spec fuel msg hfuel hlen
  obtain ⟨msg1, h1, _, h1b, h1l, h1body, h1m, _⟩ :=
    FixMessage.updateCheckSum_spec msgL (by rw [hLc]; exact hsum)
  have hbody : msg1.mMsgBody = msg.mMsgBody :=
    (FixMessage.body_congr msg1 msgL h1body).trans (FixMessage.body_congr msgL msg hLbody)
  have hw : msg1.mMsgBody.dumped.length = msg.mMsgBody.width := by
    rw [Tvp.dumped_length, hbody]
  have htake : msg1.bodyLength.value.take msg1.bodyLength.usedLen
      = decimal msg.mMsgBody.width := by
    rw [h1l, hLu, hLv, List.take_left]
  have hhdr : msg1.mMsgHeader.dumped
      = (Tvp.static msg1.beginString).dumped ++ (Tvp.static msg1.bodyLength).dumped := by
    simp [Tvp.dumped_eq, FixMessage.mMsgHeader, Tvp.wire, wireEach]
  have hbl : (Tvp.static msg1.bodyLength).dumped
      = msg.bodyLength.tag ++ [ASSIGN] ++ decimal msg.mMsgBody.width ++ [SEPARATOR] := by
    rw [Tvp.dumped_eq, Tvp.wire, TvpStatic.wire, h1l]
    have hne : msgL.bodyLength.usedLen ≠ 0 := by
      rw [hLu]; exact Nat.pos_iff_ne_zero.mp (decimal_length_pos _)
    have hle : msgL.bodyLength.usedLen ≤ msgL.bodyLength.value.length := by
      rw [hLu, hLv]; simp
    rw [fieldWire_of_le _ _ _ hne hle, hLt, hLu, hLv, List.take_left]
  refine ⟨msg1, _, _, FixMessage.dump_both fuel msg msgL msg1 m dest _ hL h1, ?_, ?_, ?_, ?_, ?_⟩
  · rw [← Tvp.dumped_length msg1.mMsgHeader, List.append_assoc, peek_blit_middle]
  · rw [Tvp.dumped_length]
  · rw [hhdr, List.append_assoc, List.append_assoc, ← Tvp.dumped_length (Tvp.static msg1.beginString),
      ← Tvp.dumped_length (Tvp.static msg1.bodyLength)]
    rw [peek_blit_middle, hbl, hw]
  · unfold TvpInteger.get
    rw [htake, hw, atoi_decimal _ (by simpa using hint)]
  · unfold FixMessage.getBodyLength
    rw [h1m, hLm, hw]

/-- The message `8=FIX.4.4|9=5|35=X|10=203|`: its body `35=X|` has 5 bytes. -/
theorem body_length_witness :
    (0 < 1 ∧
     (decimal (FixMessage.mMsgBody
        ⟨⟨[56], [70, 73, 88, 46, 52, 46, 52, 0], 7⟩, ⟨[57], [0, 0, 0, 0], 0⟩,
         [.static ⟨[51, 53], [88], 1⟩], ⟨[49, 48], [0, 0, 0], 0⟩, 0⟩).width).length
        ≤ [0, 0, 0, 0].length ∧
     3 ≤ [0, 0, 0].length ∧
     (FixMessage.mMsgBody
        ⟨⟨[56], [70, 73, 88, 46, 52, 46, 52, 0], 7⟩, ⟨[57], [0, 0, 0, 0], 0⟩,
         [.static ⟨[51, 53], [88], 1⟩], ⟨[49, 48], [0, 0, 0], 0⟩, 0⟩).width < 2 ^ 31) ∧
    ∃ msg1 m1 n,
      FixMessage.dump 1
        ⟨⟨[56], [70, 73, 88, 46, 52, 46, 52, 0], 7⟩, ⟨[57], [0, 0, 0, 0], 0⟩,
         [.static ⟨[51, 53], [88], 1⟩], ⟨[49, 48], [0, 0, 0], 0⟩, 0⟩
        (fun _ => 0) 0 true true = .ok (msg1, m1, n) ∧
      peek m1 (0 + msg1.mMsgHeader.width) msg1.mMsgBody.dumped.length
        = msg1.mMsgBody.dumped ∧
      n = msg1.mMsgHeader.width + msg1.mMsgBody.dumped.length + msg1.mMsgTrailer.width ∧
      peek m1 (0 + (Tvp.static msg1.beginString).width) (Tvp.static msg1.bodyLength).width
        = [57] ++ [ASSIGN] ++ decimal msg1.mMsgBody.dumped.length ++ [SEPARATOR] ∧
      TvpInteger.get INT_BITS msg1.bodyLength = (msg1.mMsgBody.dumped.length : Int) ∧
      msg1.getBodyLength = msg1.mMsgBody.dumped.length :=
  ⟨⟨by decide, by decide, by decide, by decide⟩,
   body_length 1
     ⟨⟨[56], [70, 73, 88, 46, 52, 46, 52, 0], 7⟩, ⟨[57], [0, 0, 0, 0], 0⟩,
      [.static ⟨[51, 53], [88], 1⟩], ⟨[49, 48], [0, 0, 0], 0⟩, 0⟩
     (fun _ => 0) 0 (by decide) (by decide) (by decide) (by decide)⟩

/-! ## `TvpStatic::parse` on an encoded field -/

theorem TvpStatic.parseLoop_eq : ∀ (v pre junk post rest : List Nat) (bR : Nat),
    SEPARATOR ∉ v → junk.length = v.length →
    TvpStatic.parseLoop (v ++ SEPARATOR :: rest) (pre ++ junk ++ post) pre.length bR
      = .ok (pre ++ v ++ post, pre.length + v.length, bR + v.length)
  | [], pre, junk, post, rest, bR, _, hj => by
    have : junk = [] := List.length_eq_zero.mp hj
    subst this
    simp [TvpStatic.parseLoop]
  | c :: v, pre, junk, post, rest, bR, hv, hj => by
    match junk, hj with
    | j :: junk1, hj =>
      have hc : c ≠ SEPARATOR := fun h => hv (by simp [h])
      have hv1 : SEPARATOR ∉ v := fun h => hv (by simp [h])
      have hj1 : junk1.length = v.length := by simpa using hj
      have hs : store (pre ++ j :: junk1 ++ post) pre.length c
          = .ok ((pre ++ [c]) ++ junk1 ++ post) := by
        unfold store
        rw [if_pos (by simp)]
        have e : pre ++ j :: junk1 ++ post = pre ++ (j :: (junk1 ++ post)) := by simp
        rw [e, List.set_append_right _ _ (Nat.le_refl _)]
        simp
      have ih := TvpStatic.parseLoop_eq v (pre ++ [c]) junk1 post rest (bR + 1) hv1 hj1
      simp only [List.length_append, List.length_singleton] at ih
      simp only [List.cons_append, TvpStatic.parseLoop, if_neg hc]
      rw [hs]
      simp only []
      show TvpStatic.parseLoop (v ++ SEPARATOR :: rest) _ _ _ = _
      rw [ih]
      simp
      omega

theorem TvpStatic.parse_encoded (g : TvpStatic) (v rest : List Nat) (meta : Int)
    (hv : SEPARATOR ∉ v) (hcap : v.length ≤ g.value.length) :
    g.parse ⟨g.tag ++ [ASSIGN] ++ v ++ [SEPARATOR] ++ rest, meta⟩
      = .ok ({ g with value := v ++ g.value.drop v.length, usedLen := v.length },
             ⟨rest, meta⟩, g.tag.length + 1 + v.length + 1) := by
  unfold TvpStatic.parse TvpStatic.TagSize
  have htake : (g.tag ++ [ASSIGN] ++ v ++ [SEPARATOR] ++ rest).take g.tag.length = g.tag := by
    simp [List.append_assoc, List.take_left']
  have hdrop : (g.tag ++ [ASSIGN] ++ v ++ [SEPARATOR] ++ rest).drop (0 + (g.tag.length + 1))
      = v ++ SEPARATOR :: rest := by
    have : g.tag ++ [ASSIGN] ++ v ++ [SEPARATOR] ++ rest
        = (g.tag ++ [ASSIGN]) ++ (v ++ SEPARATOR :: rest) := by simp
    rw [this, Nat.zero_add, List.drop_left' (by simp)]
  have hloop := TvpStatic.parseLoop_eq v [] (g.value.take v.length) (g.value.drop v.length)
    rest (0 + (g.tag.length + 1)) hv (by simp [hcap])
  simp only [List.nil_append, List.take_append_drop, List.length_nil, Nat.zero_add] at hloop
  simp only [htake, ne_eq, not_true_eq_false, if_false, hdrop]
  rw [Nat.zero_add, hloop]
  simp only []
  have hdrop2 : (g.tag ++ [ASSIGN] ++ v ++ [SEPARATOR] ++ rest).drop
      (g.tag.length + 1 + v.length + 1) = rest := by
    rw [List.drop_left' (by simp; omega)]
  rw [hdrop2]

theorem TvpStatic.dumped_of_set (f : TvpStatic) (m : Mem) (dest : Nat) (h0 : f.usedLen ≠ 0)
    (hle : f.usedLen ≤ f.value.length) :
    (f.dump m dest).2 = f.tag.length + 1 + f.usedLen + 1 ∧
    peek (f.dump m dest).1 dest (f.dump m dest).2
      = f.tag ++ [ASSIGN] ++ f.value.take f.usedLen ++ [SEPARATOR] := by
  have hw : f.wire = f.tag ++ [ASSIGN] ++ f.value.take f.usedLen ++ [SEPARATOR] := by
    rw [TvpStatic.wire, fieldWire_of_le _ _ _ h0 hle]
  have hl : f.wire.length = f.tag.length + 1 + f.usedLen + 1 := by
    rw [hw]; simp [Nat.min_eq_left hle]; omega
  rw [TvpStatic.static_dump_eq]
  exact ⟨hl, by rw [peek_blit, hw]⟩

/-- C7: a `TvpChar` set to a character `c` other than `SOH`, and a `TvpStringFixed<N>`
set to a string `v` of length 1..N without `SOH`, round-trip: parsing the dumped bytes
(followed by any `rest`) into a field `g` of the same type (same tag, same capacity;
a fresh field is one such) returns the number of bytes dumped, leaves the cursor that
many bytes further, at `rest`, and makes `get()` return the original value. -/
theorem fixed_width_round_trip (f g : TvpStatic) (m : Mem) (dest : Nat) (rest : List Nat)
    (meta : Int) (htag : g.tag = f.tag) (hcap : g.value.length = f.value.length) :
    (∀ c, c ≠ SEPARATOR → f.value.length = 1 →
      ∃ f1 g1 n, TvpChar.set f c = .ok f1 ∧ (f1.dump m dest).2 = n ∧
        g.parse ⟨peek (f1.dump m dest).1 dest n ++ rest, meta⟩ = .ok (g1, ⟨rest, meta⟩, n) ∧
        (peek (f1.dump m dest).1 dest n ++ rest).drop n = rest ∧
        TvpChar.get g1 = c) ∧
    (∀ v, 1 ≤ v.length → v.length ≤ f.value.length → SEPARATOR ∉ v →
      ∃ f1 g1 n, TvpStringFixed.set f v = .ok f1 ∧ (f1.dump m dest).2 = n ∧
        g.parse ⟨peek (f1.dump m dest).1 dest n ++ rest, meta⟩ = .ok (g1, ⟨rest, meta⟩, n) ∧
        (peek (f1.dump m dest).1 dest n ++ rest).drop n = rest ∧
        TvpStringFixed.get g1 = v) := by
  constructor
  · intro c hc h1
    obtain ⟨x, hx⟩ : ∃ x, f.value = [x] := List.length_eq_one.mp h1
    have hset : TvpChar.set f c = .ok { f with value := [c], usedLen := 1 } := by
      simp [TvpChar.set, store, hx]
    obtain ⟨hn, hp⟩ := TvpStatic.dumped_of_set { f with value := [c], usedLen := 1 } m dest
      (by simp) (by simp)
    rw [hn] at hp
    dsimp only at hn hp
    have hparse := TvpStatic.parse_encoded g [c] rest meta (by simpa using hc.symm)
      (by rw [hcap, h1]; simp)
    refine ⟨{ f with value := [c], usedLen := 1 },
      { g with value := [c] ++ g.value.drop [c].length, usedLen := [c].length },
      f.tag.length + 1 + 1 + 1, hset, hn, ?_, ?_, ?_⟩
    · rw [hp, ← htag]
      exact hparse
    · rw [hp, List.drop_left' (by simp)]
    · simp [TvpChar.get]
  · intro v hv1 hvN hsep
    have hset : TvpStringFixed.set f v
        = .ok { f with value := v ++ f.value.drop v.length, usedLen := v.length } := by
      simp [TvpStringFixed.set, TvpStatic.ValueSize, hvN]
    obtain ⟨hn, hp⟩ := TvpStatic.dumped_of_set
      { f with value := v ++ f.value.drop v.length, usedLen := v.length } m dest
      (by simp; intro h; subst h; simp at hv1) (by simp)
    rw [hn] at hp
    dsimp only at hn hp
    have hparse := TvpStatic.parse_encoded g v rest meta hsep (by rw [hcap]; exact hvN)
    have htk : (v ++ f.value.drop v.length).take v.length = v := List.take_left _ _
    refine ⟨{ f with value := v ++ f.value.drop v.length, usedLen := v.length },
      { g with value := v ++ g.value.drop v.length, usedLen := v.length },
      f.tag.length + 1 + v.length + 1, hset, hn, ?_, ?_, ?_⟩
    · rw [hp]
      show g.parse ⟨f.tag ++ [ASSIGN] ++ (v ++ f.value.drop v.length).take v.length
        ++ [SEPARATOR] ++ rest, meta⟩ = _
      rw [htk, ← htag]
      exact hparse
    · rw [hp]
      show (f.tag ++ [ASSIGN] ++ (v ++ f.value.drop v.length).take v.length
        ++ [SEPARATOR] ++ rest).drop _ = rest
      rw [htk, List.drop_left' (by simp; omega)]
    · simp [TvpStringFixed.get]

/-- A `TvpChar` `54=1` and a `TvpStringFixed<8>` `49=ABC`, parsed into fresh fields. -/
theorem fixed_width_round_trip_witness :
    (([53, 52] : List Nat) = [53, 52] ∧ [0].length = [0].length) ∧
    (∃ f1 g1 n, TvpChar.set ⟨[53, 52], [0], 0⟩ 49 = .ok f1 ∧
        (f1.dump (fun _ => 0) 0).2 = n ∧
        TvpStatic.parse ⟨[53, 52], [0], 0⟩ ⟨peek (f1.dump (fun _ => 0) 0).1 0 n ++ [], -1⟩
          = .ok (g1, ⟨[], -1⟩, n) ∧
        (peek (f1.dump (fun _ => 0) 0).1 0 n ++ []).drop n = [] ∧
        TvpChar.get g1 = 49) ∧
    (([52, 57] : List Nat) = [52, 57] ∧
      [0, 0, 0, 0, 0, 0, 0, 0].length = [0, 0, 0, 0, 0, 0, 0, 0].length) ∧
    (∃ f1 g1 n, TvpStringFixed.set ⟨[52, 57], [0, 0, 0, 0, 0, 0, 0, 0], 0⟩ [65, 66, 67] = .ok f1 ∧
        (f1.dump (fun _ => 0) 0).2 = n ∧
        TvpStatic.parse ⟨[52, 57], [0, 0, 0, 0, 0, 0, 0, 0], 0⟩
            ⟨peek (f1.dump (fun _ => 0) 0).1 0 n ++ [], -1⟩
          = .ok (g1, ⟨[], -1⟩, n) ∧
        (peek (f1.dump (fun _ => 0) 0).1 0 n ++ []).drop n = [] ∧
        TvpStringFixed.get g1 = [65, 66, 67]) :=
  ⟨⟨rfl, rfl⟩,
   (fixed_width_round_trip ⟨[53, 52], [0], 0⟩ ⟨[53, 52], [0], 0⟩ (fun _ => 0) 0 [] (-1)
      rfl rfl).1 49 (by decide) (by decide),
   ⟨rfl, rfl⟩,
   (fixed_width_round_trip ⟨[52, 57], [0, 0, 0, 0, 0, 0, 0, 0], 0⟩
      ⟨[52, 57], [0, 0, 0, 0, 0, 0, 0, 0], 0⟩ (fun _ => 0) 0 [] (-1)
      rfl rfl).2 [65, 66, 67] (by decide) (by decide) (by decide)⟩

/-! ## Defects of the code at concrete inputs -/

/-- C6 at the input of the claim: the field with tag `1` parses the buffer `10=090 SOH`,
which carries the tag `10`. Only the first `TagSize` bytes are compared, so the field
matches: `parse` returns 7, moves the cursor to the end and stores `=090` with
logical length 4 (as a `TvpStatic`; as a `TvpDynamic` it appends `=090`). -/
theorem parse_accepts_tag_prefix :
    TvpStatic.parse ⟨[49], [0, 0, 0, 0, 0, 0, 0, 0], 0⟩ ⟨[49, 48, 61, 48, 57, 48, 1], -1⟩
      = .ok (⟨[49], [61, 48, 57, 48, 0, 0, 0, 0], 4⟩, ⟨[], -1⟩, 7) ∧
    TvpDynamic.parse ⟨[49], [], 0⟩ ⟨[49, 48, 61, 48, 57, 48, 1], -1⟩
      = .ok (⟨[49], [61, 48, 57, 48], 0⟩, ⟨[], -1⟩, 7) := by
  decide

/-- C8 at `58=Hi`: parsing the dumped bytes into a fresh `TvpStringDynamic` consumes
all 6 bytes and stores `Hi`, but `ValueSize` stays 0: `get()` is empty, `width()` is 0
and a second `dump` writes nothing. -/
theorem dynamic_parse_keeps_ValueSize :
    peek ((TvpStringDynamic.set ⟨[53, 56], [], 0⟩ [72, 105]).dump (fun _ => 0) 0).1 0
        ((TvpStringDynamic.set ⟨[53, 56], [], 0⟩ [72, 105]).dump (fun _ => 0) 0).2
      = [53, 56, 61, 72, 105, 1] ∧
    TvpDynamic.parse ⟨[53, 56], [], 0⟩ ⟨[53, 56, 61, 72, 105, 1], -1⟩
      = .ok (⟨[53, 56], [72, 105], 0⟩, ⟨[], -1⟩, 6) ∧
    TvpStringDynamic.get ⟨[53, 56], [72, 105], 0⟩ = [] ∧
    TvpDynamic.width ⟨[53, 56], [72, 105], 0⟩ = 0 ∧
    (TvpDynamic.dump ⟨[53, 56], [72, 105], 0⟩ (fun _ => 0) 0).2 = 0 := by
  decide

theorem wrap_neg_INT_MIN : wrap INT_BITS (-(-2147483648)) = -2147483648 := by decide

theorem itoa_INT_MIN : ∀ (fuel : Nat) (dest : List Nat) (off : Nat),
    ∃ e, itoa INT_BITS fuel dest off (-2147483648) = .error e
  | 0, _, _ => ⟨_, rfl⟩
  | fuel + 1, dest, off => by
    rw [itoa, if_pos (by decide)]
    cases hs : store dest off MINUS with
    | error e => exact ⟨e, rfl⟩
    | ok dest1 =>
      obtain ⟨e, he⟩ := itoa_INT_MIN fuel dest1 (off + 1)
      simp only []
      rw [wrap_neg_INT_MIN, he]
      exact ⟨e, rfl⟩

/-- C9 at `INT_MIN`: `-val` overflows back to `INT_MIN`, so `itoa` recurses on the same
value, writing one more `'-'` each time: whatever the fuel and the capacity,
`TvpInteger::set(INT_MIN)` does not return normally. -/
theorem integer_set_INT_MIN_never_returns (fuel : Nat) (f : TvpStatic) :
    ∃ e, TvpInteger.set INT_BITS fuel f (-2147483648) = .error e := by
  unfold TvpInteger.set
  obtain ⟨e, he⟩ := itoa_INT_MIN fuel f.value 0
  rw [he]
  exact ⟨e, rfl⟩

/-! ## Parsing what `dump` wrote -/

theorem TvpStatic.wire_of_isSet (f : TvpStatic) (h : f.IsSet) :
    f.wire = f.tag ++ [ASSIGN] ++ f.value.take f.usedLen ++ [SEPARATOR] := by
  rw [TvpStatic.wire, fieldWire_of_le _ _ _ (Nat.pos_iff_ne_zero.mp h.1) h.2.1]

theorem TvpStatic.received_wire (g f : TvpStatic) (h : f.IsSet) (hs : f.SameType g) :
    (g.received f).wire = f.wire := by
  have hl : (f.value.take f.usedLen).length = f.usedLen := by
    simp [Nat.min_eq_left h.2.1]
  have ht := List.take_left (f.value.take f.usedLen) (g.value.drop f.usedLen)
  rw [hl] at ht
  rw [TvpStatic.wire_of_isSet f h, TvpStatic.wire]
  show fieldWire g.tag (f.value.take f.usedLen ++ g.value.drop f.usedLen) f.usedLen = _
  rw [fieldWire_of_le _ _ _ (Nat.pos_iff_ne_zero.mp h.1)
      (by simp [Nat.min_eq_left h.2.1, hs.2]), ht, hs.1]

theorem TvpStatic.received_isSet (g f : TvpStatic) (h : f.IsSet) (hs : f.SameType g) :
    (g.received f).IsSet := by
  have hl : (f.value.take f.usedLen).length = f.usedLen := by
    simp [Nat.min_eq_left h.2.1]
  have ht := List.take_left (f.value.take f.usedLen) (g.value.drop f.usedLen)
  rw [hl] at ht
  refine ⟨h.1, ?_, ?_⟩
  · simp [TvpStatic.received, Nat.min_eq_left h.2.1, hs.2]
  · simp only [TvpStatic.received]
    rw [ht]; exact h.2.2

theorem TvpStatic.parse_field_wire (g f : TvpStatic) (rest : List Nat) (meta : Int)
    (h : f.IsSet) (hs : f.SameType g) :
    g.parse ⟨f.wire ++ rest, meta⟩ = .ok (g.received f, ⟨rest, meta⟩, f.wire.length) := by
  have hl : (f.value.take f.usedLen).length = f.usedLen := by
    simp [Nat.min_eq_left h.2.1]
  have hp := TvpStatic.parse_encoded g (f.value.take f.usedLen) rest meta h.2.2
    (by rw [hl, hs.2]; exact h.2.1)
  rw [hl] at hp
  rw [TvpStatic.wire_of_isSet f h, ← hs.1]
  rw [hp]
  simp [TvpStatic.received, hl, hs.1]
  omega

theorem wireEach_append : ∀ (l1 l2 : List Tvp), wireEach (l1 ++ l2) = wireEach l1 ++ wireEach l2
  | [], l2 => by simp [wireEach]
  | t :: l1, l2 => by
    rw [List.cons_append, wireEach, wireEach, wireEach_append l1 l2, List.append_assoc]

theorem parse_impl_append : ∀ (l1 l2 : List Tvp) (pd : TvpParseData),
    parse_impl (l1 ++ l2) pd
      = match parse_impl l1 pd with
        | .error e => .error e
        | .ok (k1, pd1, r1) =>
          match parse_impl l2 pd1 with
          | .error e => .error e
          | .ok (k2, pd2, r2) => .ok (k1 ++ k2, pd2, r1 + r2)
  | [], l2, pd => by
    simp only [List.nil_append, parse_impl]
    cases parse_impl l2 pd with
    | error e => rfl
    | ok r => obtain ⟨k2, pd2, r2⟩ := r; simp
  | t :: l1, l2, pd => by
    rw [List.cons_append, parse_impl, parse_impl]
    cases t.parse pd with
    | error e => rfl
    | ok r =>
      obtain ⟨t1, pd1, ret⟩ := r
      simp only []
      rw [parse_impl_append l1 l2 pd1]
      cases parse_impl l1 pd1 with
      | error e => rfl
      | ok r1 =>
        obtain ⟨k1, pd2, r1⟩ := r1
        simp only []
        cases parse_impl l2 pd2 with
        | error e => rfl
        | ok r2 =>
          obtain ⟨k2, pd3, r2⟩ := r2
          simp [Nat.add_assoc]

/-- The fields `gs` after they have parsed the encodings of the fields `fs`. -/
theorem parse_impl_statics : ∀ (fs gs : List TvpStatic) (rest : List Nat) (meta : Int),
    (∀ f ∈ fs, f.IsSet) → List.Forall₂ TvpStatic.SameType fs gs →
    parse_impl (gs.map .static) ⟨wireEach (fs.map .static) ++ rest, meta⟩
      = .ok ((List.zipWith TvpStatic.received gs fs).map .static, ⟨rest, meta⟩,
          (wireEach (fs.map .static)).length)
  | [], [], rest, meta, _, _ => by simp [parse_impl, wireEach]
  | f :: fs, g :: gs, rest, meta, hset, hsame => by
    have hf : f.IsSet := hset f (by simp)
    have hfs : ∀ x ∈ fs, x.IsSet := fun x hx => hset x (by simp [hx])
    have hfg : f.SameType g := by cases hsame; assumption
    have hrest : List.Forall₂ TvpStatic.SameType fs gs := by cases hsame; assumption
    simp only [List.map_cons, wireEach, parse_impl, Tvp.parse, Tvp.wire, List.append_assoc]
    rw [TvpStatic.parse_field_wire g f _ meta hf hfg]
    simp only []
    rw [parse_impl_statics fs gs rest meta hfs hrest]
    simp
  | [], _ :: _, _, _, _, hsame => by cases hsame
  | _ :: _, [], _, _, _, hsame => by cases hsame

theorem wireEach_received : ∀ (fs gs : List TvpStatic),
    (∀ f ∈ fs, f.IsSet) → List.Forall₂ TvpStatic.SameType fs gs →
    wireEach ((List.zipWith TvpStatic.received gs fs).map .static) = wireEach (fs.map .static)
  | [], [], _, _ => by simp [wireEach]
  | f :: fs, g :: gs, hset, hsame => by
    have hf : f.IsSet := hset f (by simp)
    have hfs : ∀ x ∈ fs, x.IsSet := fun x hx => hset x (by simp [hx])
    have hfg : f.SameType g := by cases hsame; assumption
    have hrest : List.Forall₂ TvpStatic.SameType fs gs := by cases hsame; assumption
    simp only [List.zipWith_cons_cons, List.map_cons, wireEach, Tvp.wire]
    rw [TvpStatic.received_wire g f hf hfg, wireEach_received fs gs hfs hrest]
  | [], _ :: _, _, hsame => by cases hsame
  | _ :: _, [], _, hsame => by cases hsame

theorem rowOf_parse (proto r : List TvpStatic) (rest : List Nat) (meta : Int)
    (hset : ∀ f ∈ r, f.IsSet) (hsame : List.Forall₂ TvpStatic.SameType r proto) :
    (rowOf proto).parse ⟨(rowOf r).wire ++ rest, meta⟩
      = .ok (receivedRow proto r, ⟨rest, meta⟩, (rowOf r).wire.length) := by
  unfold rowOf receivedRow
  rw [Tvp.parse, Tvp.wire, parse_impl_statics r proto rest meta hset hsame]

theorem receivedRow_wire (proto r : List TvpStatic)
    (hset : ∀ f ∈ r, f.IsSet) (hsame : List.Forall₂ TvpStatic.SameType r proto) :
    (receivedRow proto r).wire = (rowOf r).wire := by
  unfold rowOf receivedRow
  rw [Tvp.wire, Tvp.wire, wireEach_received r proto hset hsame]

theorem parseAppended_rows (proto : List TvpStatic) :
    ∀ (rows : List (List TvpStatic)) (rest : List Nat) (meta : Int) (w : Nat),
    (∀ r ∈ rows, ∀ f ∈ r, f.IsSet) →
    (∀ r ∈ rows, List.Forall₂ TvpStatic.SameType r proto) →
    parseAppended (fun q => (rowOf proto).parse q) rows.length
        ⟨wireEach (rows.map rowOf) ++ rest, meta⟩ w
      = .ok (rows.map (receivedRow proto), ⟨rest, meta⟩,
          w + (wireEach (rows.map rowOf)).length)
  | [], rest, meta, w, _, _ => by simp [parseAppended, wireEach]
  | r :: rows, rest, meta, w, hset, hsame => by
    have hr : ∀ f ∈ r, f.IsSet := hset r (by simp)
    have hrs : ∀ x ∈ rows, ∀ f ∈ x, f.IsSet := fun x hx => hset x (by simp [hx])
    have hp : List.Forall₂ TvpStatic.SameType r proto := hsame r (by simp)
    have hps : ∀ x ∈ rows, List.Forall₂ TvpStatic.SameType x proto :=
      fun x hx => hsame x (by simp [hx])
    simp only [List.map_cons, List.length_cons, parseAppended, wireEach, List.append_assoc]
    rw [rowOf_parse proto r _ meta hr hp]
    simp only []
    rw [parseAppended_rows proto rows rest meta _ hrs hps]
    simp [Nat.add_assoc]

theorem wireEach_receivedRows (proto : List TvpStatic) :
    ∀ (rows : List (List TvpStatic)),
    (∀ r ∈ rows, ∀ f ∈ r, f.IsSet) →
    (∀ r ∈ rows, List.Forall₂ TvpStatic.SameType r proto) →
    wireEach (rows.map (receivedRow proto)) = wireEach (rows.map rowOf)
  | [], _, _ => by simp [wireEach]
  | r :: rows, hset, hsame => by
    simp only [List.map_cons, wireEach]
    rw [receivedRow_wire proto r (hset r (by simp)) (hsame r (by simp)),
      wireEach_receivedRows proto rows (fun x hx => hset x (by simp [hx]))
        (fun x hx => hsame x (by simp [hx]))]

theorem TvpInteger.get_received (g f : TvpStatic) (h : f.IsSet) :
    TvpInteger.get INT_BITS (g.received f) = TvpInteger.get INT_BITS f := by
  have hl : (f.value.take f.usedLen).length = f.usedLen := by
    simp [Nat.min_eq_left h.2.1]
  have ht := List.take_left (f.value.take f.usedLen) (g.value.drop f.usedLen)
  rw [hl] at ht
  have e : (g.received f).value.take (g.received f).usedLen = f.value.take f.usedLen := ht
  unfold TvpInteger.get
  rw [e]

theorem TvpStatic.wire_length_pos (f : TvpStatic) (h : f.IsSet) : 0 < f.wire.length := by
  rw [TvpStatic.wire_of_isSet f h]; simp

theorem countParse_wire (c0 c : TvpStatic) (rest : List Nat) (meta : Int)
    (h : c.IsSet) (hs : c.SameType c0) :
    countParse c0 ⟨c.wire ++ rest, meta⟩
      = .ok (c0.received c, ⟨rest, TvpInteger.get INT_BITS c⟩, c.wire.length) := by
  unfold countParse
  rw [TvpStatic.parse_field_wire c0 c rest meta h hs]
  simp only []
  rw [if_neg (Nat.pos_iff_ne_zero.mp (TvpStatic.wire_length_pos c h)),
    TvpInteger.get_received c0 c h]

theorem vector_parse_rows (proto : List TvpStatic) (rows : List (List TvpStatic))
    (Size0 : Nat) (rest : List Nat)
    (hset : ∀ r ∈ rows, ∀ f ∈ r, f.IsSet)
    (hsame : ∀ r ∈ rows, List.Forall₂ TvpStatic.SameType r proto) :
    (Tvp.vector (rowOf proto) Size0 []).parse
        ⟨wireEach (rows.map rowOf) ++ rest, (rows.length : Int)⟩
      = .ok (.vector (rowOf proto) Size0 (rows.map (receivedRow proto)),
          ⟨rest, (rows.length : Int)⟩, (wireEach (rows.map rowOf)).length) := by
  rw [Tvp.parse]
  have h1 : ((rows.length : Int) ≠ -1) := by omega
  have h2 : ¬ ((rows.length : Int) < 0) := by omega
  simp only [h1, ne_eq, not_false_eq_true, if_true, h2, if_false, List.length_nil,
    Nat.min_zero, Int.toNat_ofNat, Nat.sub_zero, parseFor]
  rw [parseAppended_rows proto rows rest _ 0 hset hsame]
  simp

theorem parse_impl_cons (t : Tvp) (ts : List Tvp) (pd : TvpParseData) :
    parse_impl (t :: ts) pd
      = match t.parse pd with
        | .error e => .error e
        | .ok (first1, pd1, ret) =>
          match parse_impl ts pd1 with
          | .error e => .error e
          | .ok (args1, pd2, r) => .ok (first1 :: args1, pd2, ret + r) := by
  rw [parse_impl]

theorem Tvp.parse_count (f : TvpStatic) (pd : TvpParseData) :
    (Tvp.count f).parse pd
      = match countParse f pd with
        | .error e => .error e
        | .ok (f1, pd1, bR) => .ok (.count f1, pd1, bR) := by
  rw [Tvp.parse]

theorem decimal_digit_range (n : Nat) : ∀ x ∈ decimal n, 48 ≤ x ∧ x ≤ 57 := by
  intro x hx
  unfold decimal at hx
  by_cases hn : n = 0
  · simp [hn, ZERO] at hx; omega
  · rw [if_neg hn, decimalDigits_eq_digits] at hx
    simp only [List.mem_map, List.mem_reverse, ZERO] at hx
    obtain ⟨d, hd, rfl⟩ := hx
    have := Nat.digits_lt_base (by decide : 1 < 10) hd
    omega

theorem separator_not_mem_decimal (n : Nat) : SEPARATOR ∉ decimal n := by
  intro h
  have := decimal_digit_range n _ h
  simp [SEPARATOR] at this

theorem header_wire (msg : FixMessage) :
    msg.mMsgHeader.wire = msg.beginString.wire ++ msg.bodyLength.wire := by
  simp [FixMessage.mMsgHeader, Tvp.wire, wireEach]

theorem trailer_wire (msg : FixMessage) : msg.mMsgTrailer.wire = msg.checkSum.wire := by
  simp [FixMessage.mMsgTrailer, Tvp.wire, wireEach]

theorem FixMessage.wire_eq (msg : FixMessage) :
    msg.wire = msg.beginString.wire ++ msg.bodyLength.wire ++ wireEach msg.body
      ++ msg.checkSum.wire := by
  rw [FixMessage.wire, header_wire, trailer_wire, FixMessage.mMsgBody, Tvp.wire]

theorem FixMessage.wire_length (msg : FixMessage) :
    msg.wire.length
      = msg.mMsgHeader.width + msg.mMsgBody.width + msg.mMsgTrailer.width := by
  simp [FixMessage.wire, Tvp.width_eq, Nat.add_assoc]

theorem FixMessage.dump_plain (fuel : Nat) (msg : FixMessage) (m : Mem) (dest : Nat) :
    msg.dump fuel m dest false false = .ok (msg, blit m dest msg.wire, msg.wire.length) := by
  unfold FixMessage.dump
  simp only [Bool.false_eq_true, if_false]
  rw [FixMessage.dumpGroups_eq, FixMessage.wire_length]
  rfl

/-- The result of `FixMessage::parse` on the encoding of a message whose header and trailer fields
are set, given what the body group does on its part of the bytes. -/
theorem FixMessage.parse_message_wire (msg msg0 : FixMessage) (body2 : List Tvp) (rest : List Nat)
    (hb : msg.beginString.IsSet) (hbs : msg.beginString.SameType msg0.beginString)
    (hl : msg.bodyLength.IsSet) (hls : msg.bodyLength.SameType msg0.bodyLength)
    (hc : msg.checkSum.IsSet) (hcs : msg.checkSum.SameType msg0.checkSum)
    (hbody : TvpGroup.parse msg0.body (wireEach msg.body ++ (msg.checkSum.wire ++ rest))
      = .ok (body2, (wireEach msg.body).length)) :
    msg0.parse (msg.wire ++ rest)
      = .ok ({ msg0 with
                beginString := msg0.beginString.received msg.beginString,
                bodyLength := msg0.bodyLength.received msg.bodyLength,
                body := body2,
                checkSum := msg0.checkSum.received msg.checkSum },
             msg.wire.length) := by
  have hH := parse_impl_statics [msg.beginString, msg.bodyLength]
    [msg0.beginString, msg0.bodyLength] (wireEach msg.body ++ (msg.checkSum.wire ++ rest)) (-1)
    (by intro f hf; simp at hf; rcases hf with rfl | rfl <;> assumption)
    (.cons hbs (.cons hls .nil))
  have hT := parse_impl_statics [msg.checkSum] [msg0.checkSum] rest (-1)
    (by intro f hf; simp at hf; subst hf; assumption) (.cons hcs .nil)
  simp only [List.map_cons, List.map_nil, wireEach, Tvp.wire, List.append_nil,
    List.zipWith_cons_cons, List.zipWith_nil_right] at hH hT
  have hsrc : msg.wire ++ rest
      = (msg.beginString.wire ++ msg.bodyLength.wire)
        ++ (wireEach msg.body ++ (msg.checkSum.wire ++ rest)) := by
    rw [FixMessage.wire_eq]; simp
  have hd1 : (msg.wire ++ rest).drop (msg.beginString.wire ++ msg.bodyLength.wire).length
      = wireEach msg.body ++ (msg.checkSum.wire ++ rest) := by
    rw [hsrc, List.drop_left]
  have hd2 : (msg.wire ++ rest).drop
      ((msg.beginString.wire ++ msg.bodyLength.wire).length + (wireEach msg.body).length)
      = msg.checkSum.wire ++ rest := by
    rw [hsrc, ← List.append_assoc, ← List.length_append, List.drop_left]
  unfold FixMessage.parse TvpGroup.parse
  rw [hsrc, hH]
  simp only []
  rw [← hsrc, hd1]
  unfold TvpGroup.parse at hbody
  cases hpb : parse_impl msg0.body
      ⟨wireEach msg.body ++ (msg.checkSum.wire ++ rest), -1⟩ with
  | error e => rw [hpb] at hbody; cases hbody
  | ok r =>
    obtain ⟨b2, pd2, r2⟩ := r
    rw [hpb] at hbody
    simp only [Except.ok.injEq, Prod.mk.injEq] at hbody
    obtain ⟨rfl, rfl⟩ := hbody
    simp only []
    rw [hd2, hT]
    simp only []
    rw [FixMessage.wire_eq]
    simp [Nat.add_assoc]

theorem FixMessage.dump_finalised (fuel : Nat) (msg : FixMessage) (m : Mem) (dest : Nat)
    (hfuel : 0 < fuel)
    (hlen : (decimal msg.mMsgBody.width).length ≤ msg.bodyLength.value.length)
    (hsum : 3 ≤ msg.checkSum.value.length) :
    ∃ msg1, msg.dump fuel m dest true true
        = .ok (msg1, blit m dest msg1.wire, msg1.wire.length) ∧
      msg1.beginString = msg.beginString ∧ msg1.body = msg.body ∧
      msg1.bodyLength.IsSet ∧ msg.bodyLength.SameType msg1.bodyLength ∧
      msg1.checkSum.IsSet ∧ msg.checkSum.SameType msg1.checkSum := by
  obtain ⟨msgL, hL, hLb, hLbody, hLc, _, hLt, hLu, hLv⟩ :=
    FixMessage.updateBodyLength_spec fuel msg hfuel hlen
  obtain ⟨msg1, h1, _, h1b, h1l, h1body, _, h1t, h1u, h1v⟩ :=
    FixMessage.updateCheckSum_spec msgL (by rw [hLc]; exact hsum)
  refine ⟨msg1, ?_, h1b.trans hLb, h1body.trans hLbody, ?_, ?_, ?_, ?_⟩
  · rw [FixMessage.dump_both fuel msg msgL msg1 m dest _ hL h1, FixMessage.wire_length,
      FixMessage.wire, Tvp.dumped_eq, Tvp.dumped_eq, Tvp.dumped_eq]
  · rw [h1l]
    refine ⟨?_, ?_, ?_⟩
    · rw [hLu]; exact decimal_length_pos _
    · rw [hLu, hLv]; simp
    · rw [hLu, hLv, List.take_left]; exact separator_not_mem_decimal _
  · rw [h1l]
    refine ⟨hLt, ?_⟩
    rw [hLv]; simp; omega
  · refine ⟨?_, ?_, ?_⟩
    · rw [h1u]; decide
    · rw [h1u, h1v]; simp
    · rw [h1u, h1v]
      simp [SEPARATOR, ZERO]
      omega
  · refine ⟨by rw [h1t, hLc], ?_⟩
    rw [h1v, hLc]; simp; omega

/-! ## Repeating containers: parsing what `dump` wrote -/

theorem wireFor_append_left : ∀ (l1 l2 : List Tvp),
    wireFor l1.length (l1 ++ l2) = wireEach l1
  | [], l2 => by
    cases l2 <;> simp [wireFor, wireEach]
  | t :: l1, l2 => by
    simp only [List.length_cons, List.cons_append, wireFor, wireEach, List.append_eq]
    rw [wireFor_append_left l1 l2]

theorem receivedRows_length : ∀ (rows heads : List (List TvpStatic)),
    List.Forall₂ (List.Forall₂ TvpStatic.SameType) rows heads →
    (receivedRows rows heads).length = rows.length
  | [], [], _ => by simp [receivedRows]
  | r :: rows, p :: heads, h => by
    have hrest : List.Forall₂ (List.Forall₂ TvpStatic.SameType) rows heads := by
      cases h; assumption
    simp [receivedRows, receivedRows_length rows heads hrest]
  | [], _ :: _, h => by cases h
  | _ :: _, [], h => by cases h

theorem wireEach_receivedRows_array : ∀ (rows heads : List (List TvpStatic)),
    (∀ r ∈ rows, ∀ f ∈ r, f.IsSet) →
    List.Forall₂ (List.Forall₂ TvpStatic.SameType) rows heads →
    wireEach (receivedRows rows heads) = wireEach (rows.map rowOf)
  | [], [], _, _ => by simp [receivedRows, wireEach]
  | r :: rows, p :: heads, hset, h => by
    have hrp : List.Forall₂ TvpStatic.SameType r p := by cases h; assumption
    have hrest : List.Forall₂ (List.Forall₂ TvpStatic.SameType) rows heads := by
      cases h; assumption
    simp only [receivedRows, List.map_cons, wireEach]
    rw [receivedRow_wire p r (hset r (by simp)) hrp,
      wireEach_receivedRows_array rows heads (fun x hx => hset x (by simp [hx])) hrest]
  | [], _ :: _, _, h => by cases h
  | _ :: _, [], _, h => by cases h

theorem parseFor_rows : ∀ (rows heads : List (List TvpStatic)) (tail0 : List Tvp)
    (rest : List Nat) (meta : Int) (w : Nat),
    (∀ r ∈ rows, ∀ f ∈ r, f.IsSet) →
    List.Forall₂ (List.Forall₂ TvpStatic.SameType) rows heads →
    parseFor rows.length (heads.map rowOf ++ tail0)
        ⟨wireEach (rows.map rowOf) ++ rest, meta⟩ w
      = .ok (receivedRows rows heads ++ tail0, ⟨rest, meta⟩,
          w + (wireEach (rows.map rowOf)).length)
  | [], [], tail0, rest, meta, w, _, _ => by
    simp [parseFor, receivedRows, wireEach]
  | r :: rows, p :: heads, tail0, rest, meta, w, hset, h => by
    have hrp : List.Forall₂ TvpStatic.SameType r p := by cases h; assumption
    have hrest : List.Forall₂ (List.Forall₂ TvpStatic.SameType) rows heads := by
      cases h; assumption
    simp only [List.length_cons, List.map_cons, List.cons_append, parseFor, wireEach,
      List.append_assoc]
    rw [rowOf_parse p r _ meta (hset r (by simp)) hrp]
    simp only [List.append_eq]
    rw [parseFor_rows rows heads tail0 rest meta _ (fun x hx => hset x (by simp [hx])) hrest]
    simp [receivedRows, Nat.add_assoc]
  | [], _ :: _, _, _, _, _, _, h => by cases h
  | _ :: _, [], _, _, _, _, _, h => by cases h

theorem array_parse_rows (rows heads : List (List TvpStatic)) (tail tail0 : List Tvp)
    (usedLen0 : Nat) (rest : List Nat)
    (hset : ∀ r ∈ rows, ∀ f ∈ r, f.IsSet)
    (hsame : List.Forall₂ (List.Forall₂ TvpStatic.SameType) rows heads)
    (hk : rows.length < 2 ^ 64) :
    (Tvp.array usedLen0 (heads.map rowOf ++ tail0)).parse
        ⟨(Tvp.array rows.length (rows.map rowOf ++ tail)).wire ++ rest, (rows.length : Int)⟩
      = .ok (.array rows.length (receivedRows rows heads ++ tail0),
          ⟨rest, (rows.length : Int)⟩,
          (Tvp.array rows.length (rows.map rowOf ++ tail)).wire.length) := by
  have hlen : heads.length = rows.length := (List.Forall₂.length_eq hsame).symm
  have hw : (Tvp.array rows.length (rows.map rowOf ++ tail)).wire
      = wireEach (rows.map rowOf) := by
    rw [Tvp.wire]
    have := wireFor_append_left (rows.map rowOf) tail
    rw [List.length_map] at this
    exact this
  rw [hw, Tvp.parse]
  have h1 : (rows.length : Int) ≠ -1 ∧
      (rows.length : Int) ≤ ((heads.map rowOf ++ tail0).length : Int) := by
    constructor
    · omega
    · simp [hlen]
  have h2 : ((rows.length : Int) % 2 ^ 64).toNat = rows.length := by
    have : ((rows.length : Int) % 2 ^ 64) = (rows.length : Int) :=
      Int.emod_eq_of_lt (by omega) (by exact_mod_cast hk)
    rw [this]; simp
  rw [if_pos h1]
  simp only [h2]
  rw [parseFor_rows rows heads tail0 rest _ 0 hset hsame]
  simp

theorem array_received_wire (rows heads : List (List TvpStatic)) (tail tail0 : List Tvp)
    (hset : ∀ r ∈ rows, ∀ f ∈ r, f.IsSet)
    (hsame : List.Forall₂ (List.Forall₂ TvpStatic.SameType) rows heads) :
    (Tvp.array rows.length (receivedRows rows heads ++ tail0)).wire
      = (Tvp.array rows.length (rows.map rowOf ++ tail)).wire := by
  rw [Tvp.wire, Tvp.wire]
  have h1 := wireFor_append_left (receivedRows rows heads) tail0
  rw [receivedRows_length rows heads hsame] at h1
  have h2 := wireFor_append_left (rows.map rowOf) tail
  rw [List.length_map] at h2
  rw [h1, h2, wireEach_receivedRows_array rows heads hset hsame]

/-- A fresh container parses the encoding of a container whose rows are set, given
their number in `meta`, and then encodes to the same bytes. -/
theorem container_parse (cont cont0 : Tvp) (rows : List (List TvpStatic)) (rest : List Nat)
    (h : FreshContainer cont cont0 rows) (hset : ∀ r ∈ rows, ∀ f ∈ r, f.IsSet)
    (hk : rows.length < 2 ^ 64) :
    ∃ cont2, cont0.parse ⟨cont.wire ++ rest, (rows.length : Int)⟩
        = .ok (cont2, ⟨rest, (rows.length : Int)⟩, cont.wire.length) ∧
      cont2.wire = cont.wire := by
  cases h with
  | vector proto rows Size Size0 hsame =>
    refine ⟨.vector (rowOf proto) Size0 (rows.map (receivedRow proto)), ?_, ?_⟩
    · rw [Tvp.wire]
      exact vector_parse_rows proto rows Size0 rest hset hsame
    · rw [Tvp.wire, Tvp.wire, wireEach_receivedRows proto rows hset hsame]
  | array rows heads tail tail0 usedLen0 hsame hlen =>
    exact ⟨_, array_parse_rows rows heads tail tail0 usedLen0 rest hset hsame hk,
      array_received_wire rows heads tail tail0 hset hsame⟩

theorem wrap_lt (x : Int) : wrap INT_BITS x < 2 ^ 31 := by
  unfold wrap INT_BITS
  norm_num
  omega

theorem atoi_lt (s : List Nat) (v : Int) (h : atoi INT_BITS s = some v) : v < 2 ^ 31 := by
  unfold atoi at h
  simp only [] at h
  split at h
  · cases h
  · simp only [Option.some.injEq] at h
    rw [← h]
    exact wrap_lt _

theorem TvpInteger.get_lt (f : TvpStatic) : TvpInteger.get INT_BITS f < 2 ^ 31 := by
  unfold TvpInteger.get
  cases h : atoi INT_BITS (f.value.take f.usedLen) with
  | none => simp
  | some v => exact atoi_lt _ _ h

/-! ## The message round trip -/

theorem body_wire (fs : List TvpStatic) (c : TvpStatic) (cont : Tvp) :
    wireEach (fs.map .static ++ [.count c, cont])
      = wireEach (fs.map .static) ++ (c.wire ++ cont.wire) := by
  rw [wireEach_append]
  simp [wireEach, Tvp.wire]

theorem body_parse (fs gs : List TvpStatic) (c c0 : TvpStatic) (cont cont0 cont2 : Tvp)
    (k : Int) (rest : List Nat)
    (hfs : ∀ f ∈ fs, f.IsSet) (hsame : List.Forall₂ TvpStatic.SameType fs gs)
    (hc : c.IsSet) (hcs : c.SameType c0) (hcount : TvpInteger.get INT_BITS c = k)
    (hcont : cont0.parse ⟨cont.wire ++ rest, k⟩ = .ok (cont2, ⟨rest, k⟩, cont.wire.length)) :
    TvpGroup.parse (gs.map .static ++ [.count c0, cont0])
        (wireEach (fs.map .static ++ [.count c, cont]) ++ rest)
      = .ok ((List.zipWith TvpStatic.received gs fs).map .static
              ++ [.count (c0.received c), cont2],
          (wireEach (fs.map .static ++ [.count c, cont])).length) := by
  unfold TvpGroup.parse
  rw [body_wire, parse_impl_append, List.append_assoc,
    parse_impl_statics fs gs _ (-1) hfs hsame]
  simp only []
  rw [parse_impl_cons, Tvp.parse_count, List.append_assoc,
    countParse_wire c0 c _ (-1) hc hcs]
  simp only []
  rw [parse_impl_cons, hcount, hcont]
  simp [parse_impl, Nat.add_assoc]

theorem body_received_wire (fs gs : List TvpStatic) (c c0 : TvpStatic) (cont cont2 : Tvp)
    (hfs : ∀ f ∈ fs, f.IsSet) (hsame : List.Forall₂ TvpStatic.SameType fs gs)
    (hc : c.IsSet) (hcs : c.SameType c0) (hcont : cont2.wire = cont.wire) :
    wireEach ((List.zipWith TvpStatic.received gs fs).map .static
        ++ [.count (c0.received c), cont2])
      = wireEach (fs.map .static ++ [.count c, cont]) := by
  rw [body_wire, body_wire, wireEach_received fs gs hfs hsame,
    TvpStatic.received_wire c0 c hc hcs, hcont]

/-- C1: a message whose body is a list of fixed-width fields, a count field and a
repeating container of rows of fixed-width fields (the schema of the test's
`MarketDataIncrementalRefresh`, with a `TvpVector` or a `TvpArray`), with every field
set to a non-empty value without `SOH` and the count field holding the number of rows,
is serialised by `dump(dest, true, true)`; `FixMessage::parse` of those bytes (followed
by any `rest`) into a freshly constructed message `msg0` of the same schema returns
exactly the byte count `dump` returned, and dumping the parsed message without
recomputing length or checksum writes the same bytes and returns the same count. -/
theorem message_round_trip (fuel : Nat) (msg msg0 : FixMessage)
    (fs gs : List TvpStatic) (c c0 : TvpStatic) (cont cont0 : Tvp)
    (rows : List (List TvpStatic))
    (m : Mem) (dest : Nat) (m0 : Mem) (dest0 : Nat) (rest : List Nat)
    (hfuel : 0 < fuel)
    (hbody : msg.body = fs.map .static ++ [.count c, cont])
    (hbody0 : msg0.body = gs.map .static ++ [.count c0, cont0])
    (hcont : FreshContainer cont cont0 rows)
    (hsame : msg.beginString.SameType msg0.beginString ∧
      msg.bodyLength.SameType msg0.bodyLength ∧ msg.checkSum.SameType msg0.checkSum ∧
      List.Forall₂ TvpStatic.SameType fs gs ∧ c.SameType c0)
    (hset : msg.beginString.IsSet ∧ (∀ f ∈ fs, f.IsSet) ∧ c.IsSet ∧
      ∀ r ∈ rows, ∀ f ∈ r, f.IsSet)
    (hcount : TvpInteger.get INT_BITS c = (rows.length : Int))
    (hlen : (decimal msg.mMsgBody.width).length ≤ msg.bodyLength.value.length)
    (hsum : 3 ≤ msg.checkSum.value.length) :
    ∃ msg1 m1 n msg2 m2,
      msg.dump fuel m dest true true = .ok (msg1, m1, n) ∧
      msg0.parse (peek m1 dest n ++ rest) = .ok (msg2, n) ∧
      msg2.dump fuel m0 dest0 false false = .ok (msg2, m2, n) ∧
      peek m2 dest0 n = peek m1 dest n := by
  obtain ⟨hsb, hsl, hsc, hsf, hscnt⟩ := hsame
  obtain ⟨hb, hf, hc, hr⟩ := hset
  obtain ⟨msg1, hdump, h1b, h1body, h1l, h1ls, h1c, h1cs⟩ :=
    FixMessage.dump_finalised fuel msg m dest hfuel hlen hsum
  have hls : msg1.bodyLength.SameType msg0.bodyLength :=
    ⟨hsl.1.trans h1ls.1.symm, hsl.2.trans h1ls.2.symm⟩
  have hcs : msg1.checkSum.SameType msg0.checkSum :=
    ⟨hsc.1.trans h1cs.1.symm, hsc.2.trans h1cs.2.symm⟩
  have hk : rows.length < 2 ^ 64 := by
    have h31 := TvpInteger.get_lt c
    rw [hcount] at h31
    have : (rows.length : Int) < 2 ^ 64 := lt_trans h31 (by norm_num)
    exact_mod_cast this
  obtain ⟨cont2, hcp, hcw⟩ :=
    container_parse cont cont0 rows (msg1.checkSum.wire ++ rest) hcont hr hk
  have hbp := body_parse fs gs c c0 cont cont0 cont2 _ (msg1.checkSum.wire ++ rest)
    hf hsf hc hscnt hcount hcp
  rw [← hbody, ← hbody0, ← h1body] at hbp
  have hparse := FixMessage.parse_message_wire msg1 msg0 _ rest (by rw [h1b]; exact hb)
    (by rw [h1b]; exact hsb) h1l hls h1c hcs hbp
  obtain ⟨msg2, hmsg2⟩ : ∃ msg2 : FixMessage, msg2 = { msg0 with
        beginString := msg0.beginString.received msg1.beginString,
        bodyLength := msg0.bodyLength.received msg1.bodyLength,
        body := (List.zipWith TvpStatic.received gs fs).map .static
          ++ [.count (c0.received c), cont2],
        checkSum := msg0.checkSum.received msg1.checkSum } := ⟨_, rfl⟩
  rw [← hmsg2] at hparse
  have hw2 : msg2.wire = msg1.wire := by
    rw [FixMessage.wire_eq, FixMessage.wire_eq, hmsg2]
    simp only []
    rw [TvpStatic.received_wire _ _ (by rw [h1b]; exact hb) (by rw [h1b]; exact hsb),
      TvpStatic.received_wire _ _ h1l hls, TvpStatic.received_wire _ _ h1c hcs,
      body_received_wire fs gs c c0 cont cont2 hf hsf hc hscnt hcw,
      h1body, hbody]
  refine ⟨msg1, blit m dest msg1.wire, msg1.wire.length, msg2, blit m0 dest0 msg2.wire,
    hdump, ?_, ?_, ?_⟩
  · rw [peek_blit]; exact hparse
  · rw [FixMessage.dump_plain, hw2]
  · rw [hw2, peek_blit, peek_blit]

/-- The sample refresh `8=FIX.4.4|9=28|35=X|268=2|132=1.5|132=22.0|10=014|` parsed into
the fresh sample message. -/
theorem message_round_trip_witness :
    (0 < 1 ∧
     sampleRefresh.body
       = [(⟨[51, 53], [88], 1⟩ : TvpStatic)].map .static
         ++ [.count ⟨[50, 54, 56], [50, 0], 1⟩,
             .vector (rowOf [⟨[49, 51, 50], [0, 0, 0, 0], 0⟩]) 2
               ([[(⟨[49, 51, 50], [49, 46, 53, 0], 3⟩ : TvpStatic)],
                 [⟨[49, 51, 50], [50, 50, 46, 48], 4⟩]].map rowOf)] ∧
     sampleFresh.body
       = [(⟨[51, 53], [0], 0⟩ : TvpStatic)].map .static
         ++ [.count ⟨[50, 54, 56], [0, 0], 0⟩,
             .vector (rowOf [⟨[49, 51, 50], [0, 0, 0, 0], 0⟩]) 0 []] ∧
     TvpInteger.get INT_BITS ⟨[50, 54, 56], [50, 0], 1⟩ = (2 : Int) ∧
     (decimal sampleRefresh.mMsgBody.width).length ≤ sampleRefresh.bodyLength.value.length ∧
     3 ≤ sampleRefresh.checkSum.value.length) ∧
    ∃ msg1 m1 n msg2 m2,
      sampleRefresh.dump 1 (fun _ => 0) 0 true true = .ok (msg1, m1, n) ∧
      sampleFresh.parse (peek m1 0 n ++ []) = .ok (msg2, n) ∧
      msg2.dump 1 (fun _ => 0) 100 false false = .ok (msg2, m2, n) ∧
      peek m2 100 n = peek m1 0 n :=
  ⟨⟨by decide, rfl, rfl, by decide, by decide, by decide⟩,
   message_round_trip 1 sampleRefresh sampleFresh
     [⟨[51, 53], [88], 1⟩] [⟨[51, 53], [0], 0⟩]
     ⟨[50, 54, 56], [50, 0], 1⟩ ⟨[50, 54, 56], [0, 0], 0⟩ _ _
     [[⟨[49, 51, 50], [49, 46, 53, 0], 3⟩], [⟨[49, 51, 50], [50, 50, 46, 48], 4⟩]]
     (fun _ => 0) 0 (fun _ => 0) 100 [] (by decide) rfl rfl
     (FreshContainer.vector [⟨[49, 51, 50], [0, 0, 0, 0], 0⟩]
        [[⟨[49, 51, 50], [49, 46, 53, 0], 3⟩], [⟨[49, 51, 50], [50, 50, 46, 48], 4⟩]] 2 0
        (by
          intro r hr
          simp only [List.mem_cons, List.mem_singleton, List.not_mem_nil, or_false] at hr
          rcases hr with rfl | rfl <;> exact .cons ⟨rfl, rfl⟩ .nil))
     ⟨⟨rfl, rfl⟩, ⟨rfl, rfl⟩, ⟨rfl, rfl⟩, .cons ⟨rfl, rfl⟩ .nil, ⟨rfl, rfl⟩⟩
     ⟨by decide, by decide, by decide, by decide⟩ (by decide) (by decide) (by decide)⟩

/-! ## `sum` and `dump` -/

theorem addChar_eq (signed : Bool) (w b : Nat) : addChar signed w b = (w + b) % 256 := by
  unfold addChar charToInt
  split <;> omega

theorem sumLoopChar_eq (signed : Bool) (a : List Nat) : ∀ (k i w : Nat),
    sumLoopChar signed a k i w = TvpStatic.sumLoop a k i w
  | 0, _, _ => rfl
  | k + 1, i, w => by
    rw [sumLoopChar, TvpStatic.sumLoop, addChar_eq, sumLoopChar_eq signed a k]

theorem TvpStatic.sumChar_eq (signed : Bool) (f : TvpStatic) : f.sumChar signed = f.sum := by
  unfold TvpStatic.sumChar TvpStatic.sum
  simp only [sumLoopChar_eq, addChar_eq]

theorem TvpDynamic.dynamic_sumChar_eq (signed : Bool) (f : TvpDynamic) :
    f.sumChar signed = f.sum := by
  unfold TvpDynamic.sumChar TvpDynamic.sum
  simp only [sumLoopChar_eq, addChar_eq]

/-- C11: for every member `t` (a field, a `TvpGroup`, a `TvpArray` or a `TvpVector`) in
any state, `sum()` is the sum of the bytes that `dump` writes, reduced modulo 256, and
it is 0 when `dump` writes nothing; the loops of `TvpStatic::sum` and `TvpDynamic::sum`,
the only places where a `char` is added, give this value whether `char` is signed or
not. -/
theorem sum_agrees_with_dump (t : Tvp) (f : TvpStatic) (g : TvpDynamic) (signed : Bool) :
    t.sum = t.dumped.sum % 256 ∧
    (t.dumped = [] → t.sum = 0) ∧
    f.sumChar signed = (Tvp.static f).dumped.sum % 256 ∧
    g.sumChar signed = (Tvp.dynamic g).dumped.sum % 256 ∧
    f.sumChar signed = (Tvp.static f).sum ∧
    g.sumChar signed = (Tvp.dynamic g).sum := by
  refine ⟨?_, ?_, ?_, ?_, ?_, ?_⟩
  · rw [Tvp.sum_eq, Tvp.dumped_eq]
  · intro h
    rw [Tvp.sum_eq, ← Tvp.dumped_eq, h]
    rfl
  · rw [TvpStatic.sumChar_eq, Tvp.dumped_eq, Tvp.wire, TvpStatic.static_sum_eq]
  · rw [TvpDynamic.dynamic_sumChar_eq, Tvp.dumped_eq, Tvp.wire, TvpDynamic.dynamic_sum_eq]
  · rw [TvpStatic.sumChar_eq, Tvp.sum]
  · rw [TvpDynamic.dynamic_sumChar_eq, Tvp.sum]

/-- The field `1=` followed by the bytes 200 and 250: the bytes sum to 561 = 2·256 + 49,
with `char` signed or not. -/
theorem sum_example :
    TvpStatic.sumChar true ⟨[49], [200, 250], 2⟩ = 49 ∧
    TvpStatic.sumChar false ⟨[49], [200, 250], 2⟩ = 49 ∧
    (Tvp.static ⟨[49], [200, 250], 2⟩).dumped = [49, 61, 200, 250, 1] := by
  decide

/-! ## Defects of the repeating containers at concrete inputs -/

/-- C12 at `meta = -2`: an array of two rows `132=…` is asked to parse with the cursor's
`meta` at -2. The assertion `(meta != -1) & (meta <= Size)` holds, so there is no abort
by assertion; `usedLen = pd.meta` converts -2 to 2^64 - 2, the loop parses the two rows
and then indexes `data[2]`, outside the array. -/
theorem array_parse_negative_meta :
    ((-2 : Int) ≠ -1 ∧ (-2 : Int) ≤ (2 : Nat)) ∧
    ((-2 : Int) % 2 ^ 64).toNat = 18446744073709551614 ∧
    (Tvp.array 0 [rowOf [⟨[49, 51, 50], [0, 0, 0, 0], 0⟩],
        rowOf [⟨[49, 51, 50], [0, 0, 0, 0], 0⟩]]).parse
      ⟨[49, 51, 50, 61, 49, 1, 49, 51, 50, 61, 50, 1, 49, 48, 61, 48, 57, 48, 1], -2⟩
      = .error .outOfBounds :=
  ⟨by decide, by decide, rfl⟩


/-- Counts that are not negative: `TvpArray::parse` aborts by assertion when `meta` is -1
or exceeds the array size; for `0 ≤ meta ≤ N` (`meta` is an `int64_t`) it sets `usedLen`
to `meta` and runs the loop over the entries `0..meta-1`, returning the accumulated
count. -/
theorem array_parse_in_range (usedLen : Nat) (data : List Tvp) (pd : TvpParseData)
    (hmeta : pd.meta < 2 ^ 63) :
    (pd.meta = -1 ∨ pd.meta > (data.length : Int) →
      (Tvp.array usedLen data).parse pd = .error .assertion) ∧
    (0 ≤ pd.meta → pd.meta ≤ (data.length : Int) →
      (Tvp.array usedLen data).parse pd
        = match parseFor pd.meta.toNat data pd 0 with
          | .error e => .error e
          | .ok (data1, pd1, w) => .ok (.array pd.meta.toNat data1, pd1, w)) := by
  constructor
  · intro h
    rw [Tvp.parse, if_neg (by omega)]
  · intro h0 hN
    rw [Tvp.parse, if_pos ⟨by omega, hN⟩]
    have hmod : (pd.meta % 2 ^ 64).toNat = pd.meta.toNat := by
      have hlt : pd.meta < 2 ^ 64 := lt_trans hmeta (by norm_num)
      rw [Int.emod_eq_of_lt h0 hlt]
    simp only [hmod]

/-- C13 at concrete inputs. `set(2, …)` on an array of two rows stores through
`data[2]`, outside the array (and would then raise `usedLen` to 3); `parse` with `meta`
at -3 passes the assertion, converts -3 to 2^64 - 3 for `usedLen` and runs off the
array. In neither case does an assertion stop the call. -/
theorem array_length_defects :
    TvpArray.set 0 [rowOf [⟨[49, 51, 50], [0, 0, 0, 0], 0⟩],
        rowOf [⟨[49, 51, 50], [0, 0, 0, 0], 0⟩]] 2 (fun t => .ok t)
      = .error .outOfBounds ∧
    max 0 (2 + 1) = 3 ∧
    ((-3 : Int) ≠ -1 ∧ (-3 : Int) ≤ (2 : Nat)) ∧
    ((-3 : Int) % 2 ^ 64).toNat = 18446744073709551613 ∧
    (Tvp.array 0 [rowOf [⟨[49, 51, 50], [0, 0, 0, 0], 0⟩],
        rowOf [⟨[49, 51, 50], [0, 0, 0, 0], 0⟩]]).parse
      ⟨[49, 51, 50, 61, 49, 1, 49, 51, 50, 61, 50, 1, 49, 48, 61, 48, 57, 48, 1], -3⟩
      = .error .outOfBounds :=
  ⟨rfl, by decide, by decide, by decide, rfl⟩

/-- C14 at a fresh vector: `parse` with `meta` at 1 resizes `data` to one row and parses
`132=1.5 SOH` into it, but leaves `Size` at 0. The logical length is 0, yet `width()`
is the 8 bytes of the stored row; `resize(1)`, the sibling, sets `Size` to 1. -/
theorem vector_parse_keeps_Size :
    (Tvp.vector (rowOf [⟨[49, 51, 50], [0, 0, 0, 0], 0⟩]) 0 []).parse
        ⟨[49, 51, 50, 61, 49, 46, 53, 1], 1⟩
      = .ok (.vector (rowOf [⟨[49, 51, 50], [0, 0, 0, 0], 0⟩]) 0
              [rowOf [⟨[49, 51, 50], [49, 46, 53, 0], 3⟩]], ⟨[], 1⟩, 8) ∧
    (Tvp.vector (rowOf [⟨[49, 51, 50], [0, 0, 0, 0], 0⟩]) 0
        [rowOf [⟨[49, 51, 50], [49, 46, 53, 0], 3⟩]]).logicalLength = 0 ∧
    (Tvp.vector (rowOf [⟨[49, 51, 50], [0, 0, 0, 0], 0⟩]) 0
        [rowOf [⟨[49, 51, 50], [49, 46, 53, 0], 3⟩]]).width = 8 ∧
    (Tvp.vector (rowOf [⟨[49, 51, 50], [0, 0, 0, 0], 0⟩]) 0
        [rowOf [⟨[49, 51, 50], [50, 50, 46, 48], 4⟩]]).width = 9 ∧
    (TvpVector.resize (rowOf [⟨[49, 51, 50], [0, 0, 0, 0], 0⟩]) [] 1).logicalLength = 1 :=
  ⟨rfl, rfl, by decide, by decide, rfl⟩

/-! ## Capacity of the fixed-width fields -/

/-- C15: `TvpStringFixed<N>::set(s)` succeeds when `|s| ≤ N` (so also when `|s| = N`),
after which `get()` returns `s` and `usedLen = |s|`; when `|s| > N` (so also when
`|s| = N + 1`) it fails by assertion, without returning. -/
theorem fixed_string_capacity (f : TvpStatic) (s : List Nat) :
    (s.length ≤ f.ValueSize →
      ∃ f1, TvpStringFixed.set f s = .ok f1 ∧ TvpStringFixed.get f1 = s ∧
        f1.usedLen = s.length ∧ f1.ValueSize = f.ValueSize ∧ f1.tag = f.tag) ∧
    (f.ValueSize < s.length → TvpStringFixed.set f s = .error .assertion) ∧
    (s.length = f.ValueSize → ∃ f1, TvpStringFixed.set f s = .ok f1 ∧
        TvpStringFixed.get f1 = s) ∧
    (s.length = f.ValueSize + 1 → TvpStringFixed.set f s = .error .assertion) := by
  have hok : s.length ≤ f.ValueSize →
      ∃ f1, TvpStringFixed.set f s = .ok f1 ∧ TvpStringFixed.get f1 = s ∧
        f1.usedLen = s.length ∧ f1.ValueSize = f.ValueSize ∧ f1.tag = f.tag := by
    intro h
    refine ⟨{ f with value := s ++ f.value.drop s.length, usedLen := s.length }, ?_, ?_, rfl,
      ?_, rfl⟩
    · unfold TvpStringFixed.set
      rw [if_pos h]
    · simp [TvpStringFixed.get]
    · unfold TvpStatic.ValueSize at h ⊢
      simp
      omega
  have herr : f.ValueSize < s.length → TvpStringFixed.set f s = .error .assertion := by
    intro h
    unfold TvpStringFixed.set
    rw [if_neg (by omega)]
  refine ⟨hok, herr, ?_, ?_⟩
  · intro h
    obtain ⟨f1, h1, h2, _⟩ := hok (by omega)
    exact ⟨f1, h1, h2⟩
  · intro h
    exact herr (by omega)

/-- A `TvpStringFixed<3>`: `ABC` is stored, `ABCD` is refused. -/
theorem fixed_string_capacity_witness :
    ([65, 66, 67].length = TvpStatic.ValueSize ⟨[52, 57], [0, 0, 0], 0⟩ ∧
      ∃ f1, TvpStringFixed.set ⟨[52, 57], [0, 0, 0], 0⟩ [65, 66, 67] = .ok f1 ∧
        TvpStringFixed.get f1 = [65, 66, 67]) ∧
    ([65, 66, 67, 68].length = TvpStatic.ValueSize ⟨[52, 57], [0, 0, 0], 0⟩ + 1 ∧
      TvpStringFixed.set ⟨[52, 57], [0, 0, 0], 0⟩ [65, 66, 67, 68] = .error .assertion) :=
  ⟨⟨by decide,
    (fixed_string_capacity ⟨[52, 57], [0, 0, 0], 0⟩ [65, 66, 67]).2.2.1 (by decide)⟩,
   ⟨by decide,
    (fixed_string_capacity ⟨[52, 57], [0, 0, 0], 0⟩ [65, 66, 67, 68]).2.2.2 (by decide)⟩⟩

/-- C16 at concrete inputs. A `TvpStringFixed<4>` with tag 49 parses `49=ABCDEFGH SOH`:
the loop stores `value[0..3]` and goes on to store `value[4]`, outside the array, no
capacity check stopping it (on return `usedLen` would be 8). A `TvpChar` parses
`54=12 SOH` and stores `value[1]`. `TvpInteger<int, 2>::set(12345)` writes the digit
`5` at `value[4]`. -/
theorem field_stores_past_capacity :
    TvpStatic.parse ⟨[52, 57], [0, 0, 0, 0], 0⟩
        ⟨[52, 57, 61, 65, 66, 67, 68, 69, 70, 71, 72, 1], -1⟩ = .error .outOfBounds ∧
    TvpStatic.parseLoop [69, 70, 71, 72, 1] [65, 66, 67, 68] 4 7 = .error .outOfBounds ∧
    store [65, 66, 67, 68] 4 69 = .error .outOfBounds ∧
    TvpStatic.parse ⟨[53, 52], [0], 0⟩ ⟨[53, 52, 61, 49, 50, 1], -1⟩ = .error .outOfBounds ∧
    TvpInteger.set INT_BITS 2 ⟨[51, 52], [0, 0], 0⟩ 12345 = .error .outOfBounds := by
  decide

/-! ## `itoa` on signed values -/

theorem wrap_of_range (w : Nat) (x : Int) (hw : 0 < w)
    (h0 : -(2 : Int) ^ (w - 1) ≤ x) (h1 : x < (2 : Int) ^ (w - 1)) : wrap w x = x := by
  obtain ⟨k, rfl⟩ : ∃ k, w = k + 1 := ⟨w - 1, by omega⟩
  unfold wrap
  simp only [Nat.add_sub_cancel] at h0 h1 ⊢
  have hp : (2 : Int) ^ (k + 1) = 2 * 2 ^ k := by ring
  rw [Int.emod_eq_of_lt (by omega) (by rw [hp]; omega)]
  omega

theorem itoa_natCast_at (w fuel : Nat) (pre junk post : List Nat) (n : Nat)
    (hj : junk.length = (decimal n).length) :
    itoa w (fuel + 1) (pre ++ junk ++ post) pre.length (n : Int)
      = .ok (pre ++ decimal n ++ post, (decimal n).length) := by
  rw [itoa]
  have hneg : ¬ ((n : Int) < 0) := by omega
  rw [if_neg hneg]
  by_cases hn : n = 0
  · subst hn
    simp only [decimal, if_true, List.length_singleton] at hj ⊢
    obtain ⟨x, rfl⟩ := List.length_eq_one.mp hj
    have hs : store (pre ++ [x] ++ post) pre.length ZERO = .ok (pre ++ [ZERO] ++ post) := by
      unfold store
      rw [if_pos (by simp)]
      have e : pre ++ [x] ++ post = pre ++ (x :: post) := by simp
      rw [e, List.set_append_right _ _ (Nat.le_refl _)]
      simp
    simp only [Nat.cast_zero, if_true]
    rw [hs]
  · have hne : ¬ ((n : Int) = 0) := by exact_mod_cast hn
    rw [if_neg hne]
    simp only [decimal, if_neg hn] at hj ⊢
    simp only [Int.toNat_ofNat]
    rw [itoaCount_eq n n 0 (Nat.le_refl _), Nat.zero_add]
    have hfill := itoaFill_eq n n pre junk post (Nat.le_refl _) hj
    rw [hj] at hfill
    rw [hfill]

theorem itoa_neg_at (w fuel : Nat) (pre junk post : List Nat) (v : Int) (hw : 0 < w)
    (hneg : v < 0) (hmin : -(2 : Int) ^ (w - 1) < v)
    (hj : junk.length = (signedDecimal v).length) :
    itoa w (fuel + 2) (pre ++ junk ++ post) pre.length v
      = .ok (pre ++ signedDecimal v ++ post, (signedDecimal v).length) := by
  rw [itoa, if_pos hneg]
  simp only [signedDecimal, if_pos hneg, List.length_cons] at hj ⊢
  match junk, hj with
  | j :: junk1, hj =>
    have hj1 : junk1.length = (decimal v.natAbs).length := by simpa using hj
    have hs : store (pre ++ j :: junk1 ++ post) pre.length MINUS
        = .ok ((pre ++ [MINUS]) ++ junk1 ++ post) := by
      unfold store
      rw [if_pos (by simp)]
      have e : pre ++ j :: junk1 ++ post = pre ++ (j :: (junk1 ++ post)) := by simp
      rw [e, List.set_append_right _ _ (Nat.le_refl _)]
      simp
    rw [hs]
    simp only []
    have hwrap : wrap w (-v) = ((v.natAbs : Nat) : Int) := by
      rw [wrap_of_range w (-v) hw (by omega) (by omega)]
      omega
    have hlen : pre.length + 1 = (pre ++ [MINUS]).length := by simp
    rw [hwrap, hlen, itoa_natCast_at w fuel (pre ++ [MINUS]) junk1 post v.natAbs hj1]
    simp
    omega

/-- C17: for every `w`-bit signed integer `v` whose negation is representable
(`-2^(w-1) < v < 2^(w-1)`), `itoa(dest + off, v)` returns (given fuel for its one
recursive call), writes exactly the canonical base-10 text of `v` at `dest[off..]`,
leaving the bytes before and after as they were, and returns the number of bytes
written. -/
theorem integer_to_ascii (w fuel : Nat) (v : Int) (pre junk post : List Nat)
    (hw : 0 < w) (hfuel : 2 ≤ fuel)
    (hmin : -(2 : Int) ^ (w - 1) < v) (_hmax : v < (2 : Int) ^ (w - 1))
    (hj : junk.length = (signedDecimal v).length) :
    itoa w fuel (pre ++ junk ++ post) pre.length v
      = .ok (pre ++ signedDecimal v ++ post, (signedDecimal v).length) := by
  obtain ⟨k, rfl⟩ : ∃ k, fuel = k + 2 := ⟨fuel - 2, by omega⟩
  by_cases hneg : v < 0
  · exact itoa_neg_at w k pre junk post v hw hneg hmin hj
  · have hv : v = ((v.natAbs : Nat) : Int) := by omega
    simp only [signedDecimal, if_neg hneg] at hj ⊢
    have := itoa_natCast_at w (k + 1) pre junk post v.natAbs hj
    rw [← hv] at this
    exact this

/-- The values -1, 0, 2147483647 and -2147483647 as an `int`, at offset 1 of `#…#`. -/
theorem integer_to_ascii_witness :
    ((0 < 32 ∧ 2 ≤ 2 ∧ -(2 : Int) ^ (32 - 1) < -2147483647 ∧
        (-2147483647 : Int) < (2 : Int) ^ (32 - 1) ∧
        [0, 0, 0, 0, 0, 0, 0, 0, 0, 0, 0].length = (signedDecimal (-2147483647)).length) ∧
      itoa 32 2 ([35] ++ [0, 0, 0, 0, 0, 0, 0, 0, 0, 0, 0] ++ [35]) [35].length (-2147483647)
        = .ok ([35] ++ signedDecimal (-2147483647) ++ [35],
            (signedDecimal (-2147483647)).length)) ∧
    signedDecimal (-2147483647) = [45, 50, 49, 52, 55, 52, 56, 51, 54, 52, 55] ∧
    signedDecimal 0 = [48] ∧ signedDecimal (-1) = [45, 49] ∧
    signedDecimal 2147483647 = [50, 49, 52, 55, 52, 56, 51, 54, 52, 55] :=
  ⟨⟨⟨by decide, by decide, by decide, by decide, by decide⟩,
    integer_to_ascii 32 2 (-2147483647) [35] [0, 0, 0, 0, 0, 0, 0, 0, 0, 0, 0] [35]
      (by decide) (by decide) (by decide) (by decide) (by decide)⟩,
   by decide, by decide, by decide, by decide⟩

/-! ## `atoi` on arbitrary bytes -/

theorem wrap_modEq (w : Nat) (a : Int) : wrap w a ≡ a [ZMOD 2 ^ w] := by
  unfold wrap
  have h : (a + 2 ^ (w - 1)) % 2 ^ w ≡ a + 2 ^ (w - 1) [ZMOD 2 ^ w] := Int.mod_modEq _ _
  have := h.sub_right (2 ^ (w - 1))
  simpa using this

theorem wrap_congr (w : Nat) (a b : Int) (h : a ≡ b [ZMOD 2 ^ w]) : wrap w a = wrap w b := by
  unfold wrap
  have h1 : (a + 2 ^ (w - 1)) % 2 ^ w = (b + 2 ^ (w - 1)) % 2 ^ w := h.add_right _
  rw [h1]

theorem atoiLoop_digits (w : Nat) (s : List Nat) (acc acc0 : Int)
    (hacc : acc ≡ acc0 [ZMOD 2 ^ w]) (hs : ∀ c ∈ s, 48 ≤ c ∧ c ≤ 57) :
    ∃ v, atoiLoop w s acc = some v ∧ v ≡ digitsValue acc0 s [ZMOD 2 ^ w] := by
  induction s generalizing acc acc0 with
  | nil => exact ⟨acc, rfl, hacc⟩
  | cons c rest ih =>
    have hc := hs c (List.mem_cons_self _ _)
    have hd : 0 ≤ (c : Int) - 48 ∧ (c : Int) - 48 ≤ 9 := by omega
    simp only [atoiLoop, if_pos hd, digitsValue]
    apply ih
    · exact (wrap_modEq w _).trans ((hacc.mul_left 10).add_right _)
    · intro x hx
      exact hs x (List.mem_cons_of_mem _ hx)

theorem atoiLoop_non_digit (w : Nat) (s : List Nat) (acc : Int)
    (hs : ∃ c ∈ s, ¬ (48 ≤ c ∧ c ≤ 57)) : atoiLoop w s acc = none := by
  induction s generalizing acc with
  | nil => obtain ⟨c, hc, _⟩ := hs; simp at hc
  | cons c rest ih =>
    by_cases hd : 0 ≤ (c : Int) - 48 ∧ (c : Int) - 48 ≤ 9
    · simp only [atoiLoop, if_pos hd]
      apply ih
      obtain ⟨x, hx, hbad⟩ := hs
      rcases List.mem_cons.mp hx with rfl | hx
      · exact absurd (by omega) hbad
      · exact ⟨x, hx, hbad⟩
    · simp only [atoiLoop, if_neg hd]

/-- C18: for every non-empty byte range `s`, with `body` the bytes after a leading `'-'`
(all of `s` when there is none) and `sign` -1 or 1 accordingly: `atoi` returns false
exactly when some byte of `body` is not an ASCII digit; when it returns true the
output is `sign` times the decimal value of `body`, reduced to `w` bits; when it
returns false the output variable keeps its value. -/
theorem integer_decode (w : Nat) (s : List Nat) (output : Int) (_hs : s ≠ []) :
    ((atoiOutput w s output).1 = false ↔
      ∃ c ∈ (if s.head? = some MINUS then s.drop 1 else s), ¬ (48 ≤ c ∧ c ≤ 57)) ∧
    ((atoiOutput w s output).1 = true →
      (atoiOutput w s output).2 =
        wrap w ((if s.head? = some MINUS then -1 else 1) *
          digitsValue 0 (if s.head? = some MINUS then s.drop 1 else s))) ∧
    ((atoiOutput w s output).1 = false → (atoiOutput w s output).2 = output) := by
  have hitr : (if (if s.head? = some MINUS then (-1 : Int) else 1) = 1 then s else s.drop 1)
      = (if s.head? = some MINUS then s.drop 1 else s) := by
    by_cases h : s.head? = some MINUS
    · simp [h]
    · simp [h]
  by_cases hbad : ∃ c ∈ (if s.head? = some MINUS then s.drop 1 else s), ¬ (48 ≤ c ∧ c ≤ 57)
  · have hnone : atoi w s = none := by
      unfold atoi
      simp only [hitr]
      rw [atoiLoop_non_digit w _ 0 hbad]
    simp only [atoiOutput, hnone]
    exact ⟨⟨fun _ => hbad, fun _ => trivial⟩, fun h => absurd h (by simp), fun _ => trivial⟩
  · have hall : ∀ c ∈ (if s.head? = some MINUS then s.drop 1 else s), 48 ≤ c ∧ c ≤ 57 := by
      intro c hc
      by_contra hcon
      exact hbad ⟨c, hc, hcon⟩
    obtain ⟨v, hv, hmod⟩ := atoiLoop_digits w _ 0 0 (Int.ModEq.refl _) hall
    have hsome : atoi w s = some (wrap w ((if s.head? = some MINUS then -1 else 1) * v)) := by
      unfold atoi
      simp only [hitr]
      rw [hv]
    simp only [atoiOutput, hsome]
    refine ⟨⟨fun h => absurd h (by simp), fun h => absurd h hbad⟩, fun _ => ?_,
      fun h => absurd h (by simp)⟩
    exact wrap_congr w _ _ (hmod.mul_left _)

/-- The text `-42` decodes to -42, `4x2` is refused and leaves the output variable at 7,
`300` read into an 8-bit integer wraps to 44, and a `'-'` that is not leading is
refused. -/
theorem integer_decode_witness :
    ([45, 52, 50] ≠ [] ∧
      ((atoiOutput 32 [45, 52, 50] 7).1 = true →
        (atoiOutput 32 [45, 52, 50] 7).2 =
          wrap 32 ((if [45, 52, 50].head? = some MINUS then -1 else 1) *
            digitsValue 0 (if [45, 52, 50].head? = some MINUS
              then [45, 52, 50].drop 1 else [45, 52, 50])))) ∧
    atoiOutput 32 [45, 52, 50] 7 = (true, -42) ∧
    atoiOutput 32 [52, 120, 50] 7 = (false, 7) ∧
    atoiOutput 8 [51, 48, 48] 7 = (true, 44) ∧
    atoiOutput 32 [52, 45, 50] 7 = (false, 7) ∧
    atoiOutput 32 [45] 7 = (true, 0) :=
  ⟨⟨by decide, (integer_decode 32 [45, 52, 50] 7 (by decide)).2.1⟩,
   by decide, by decide, by decide, by decide, by decide⟩

/-! ## `dtoa` -/

theorem dtoaFrac_keeps (accuracy : Nat) (dest : List Nat) (fr : Frac) (s : Nat)
    (h : s + accuracy < dest.length) :
    ∃ r, dtoaFrac accuracy dest fr s = .ok r ∧ r.length = dest.length ∧
      ∀ i, i ≤ s → r.getD i 0 = dest.getD i 0 := by
  induction accuracy generalizing dest fr s with
  | zero => exact ⟨dest, rfl, rfl, fun _ _ => rfl⟩
  | succ n ih =>
    have hlt : s + 1 < dest.length := by omega
    obtain ⟨r, hr, hlen, hkeep⟩ := ih (dest.set (s + 1) (ZERO + (fr.mul10).trunc.toNat))
      ((fr.mul10).subInt (fr.mul10).trunc) (s + 1) (by simp; omega)
    refine ⟨r, ?_, by simpa using hlen, ?_⟩
    · simp only [dtoaFrac, store, if_pos hlt]
      exact hr
    · intro i hi
      rw [hkeep i (by omega)]
      simp only [List.getD_eq_getElem?_getD]
      rw [List.getElem?_set_ne (by omega)]

theorem dtoa_below_one (dest : List Nat) (val : Frac) (accuracy : Nat)
    (hval : val.abs.trunc = 0) (hroom : accuracy < dest.length) :
    ∃ r, dtoa dest val accuracy = .ok (r, (if val.isNeg then 1 else 0) + 1 + accuracy) ∧
      r.head? = some 46 := by
  have hval1 : (if val.isNeg then val.neg else val).trunc = 0 := by
    by_cases hn : val.num < 0
    · have e : val.neg = val.abs := by
        simp only [Frac.neg, Frac.abs]
        congr 1
        omega
      simp only [Frac.isNeg, hn, decide_True, if_true, e, hval]
    · have e : val = val.abs := by
        cases val with
        | mk num den =>
          simp only [Frac.abs]
          congr 1
          simp only at hn
          omega
      simp only [Frac.isNeg, hn, decide_False]
      rw [e]
      exact hval
  obtain ⟨x, rest, rfl⟩ : ∃ x rest, dest = x :: rest := by
    cases dest with
    | nil => simp at hroom
    | cons x rest => exact ⟨x, rest, rfl⟩
  have hpre : ∃ y, (if val.isNeg then store (x :: rest) 0 MINUS else .ok (x :: rest))
      = .ok (y :: rest) := by
    by_cases hn : val.isNeg
    · exact ⟨MINUS, by simp [hn, store]⟩
    · exact ⟨x, by simp [hn]⟩
  obtain ⟨y, hy⟩ := hpre
  obtain ⟨r, hr, hlen, hkeep⟩ := dtoaFrac_keeps accuracy (46 :: rest)
    ((if val.isNeg then val.neg else val).subInt 0) 0 (by simpa using hroom)
  refine ⟨r, ?_, ?_⟩
  · unfold dtoa
    simp only [hval, hval1, hy, Int.toNat_zero, itoaCount, itoaFill]
    simp only [store, List.length_cons, Nat.zero_lt_succ, if_true, List.set_cons_zero, hr,
      Nat.add_zero, Nat.zero_add]
  · have h0 := hkeep 0 (Nat.le_refl _)
    cases r with
    | nil => simp at hlen
    | cons a r1 => simpa using h0

/-- C19 at `val = -12.5`. With `val = -12.5` and 4 fractional digits `dtoa`
writes `12.5000` into the first seven bytes (the `'-'` stored at `dest[0]` is overwritten
by the first integer digit), leaves the eighth byte as it was (35 here) and returns 8:
the text is not `-12.5000` and the returned count is one more than the bytes written.
For `val = 12.5` it writes the same seven bytes and returns 7. -/
theorem float_sign_overwritten :
    dtoa [35, 35, 35, 35, 35, 35, 35, 35] ⟨-25, 2⟩ 4
      = .ok ([49, 50, 46, 53, 48, 48, 48, 35], 8) ∧
    dtoa [35, 35, 35, 35, 35, 35, 35, 35] ⟨-25, 2⟩ 4
      ≠ .ok ([45, 49, 50, 46, 53, 48, 48, 48], 8) ∧
    dtoa [35, 35, 35, 35, 35, 35, 35, 35] ⟨25, 2⟩ 4
      = .ok ([49, 50, 46, 53, 48, 48, 48, 35], 7) ∧
    TvpFloat.set ⟨[52, 52], [35, 35, 35, 35, 35, 35, 35, 35], 0⟩ ⟨-25, 2⟩ 4
      = .ok ⟨[52, 52], [49, 50, 46, 53, 48, 48, 48, 35], 8⟩ := by
  decide

/-- C20 at concrete inputs. A `TvpFloat` set to zero with 4 fractional digits holds the
five bytes `.0000` (`usedLen = 5`), not `0.0000`: no digit is written for the integer
part. The same holds for 0.5 (`.5000`), and for -0.5 the `'.'` also replaces the `'-'`
while the returned count is 6. -/
theorem float_zero_has_no_integer_digit :
    TvpFloat.set ⟨[52, 52], [35, 35, 35, 35, 35, 35, 35, 35], 0⟩ ⟨0, 1⟩ 4
      = .ok ⟨[52, 52], [46, 48, 48, 48, 48, 35, 35, 35], 5⟩ ∧
    TvpFloat.set ⟨[52, 52], [35, 35, 35, 35, 35, 35, 35, 35], 0⟩ ⟨0, 1⟩ 4
      ≠ .ok ⟨[52, 52], [48, 46, 48, 48, 48, 48, 35, 35], 6⟩ ∧
    dtoa [35, 35, 35, 35, 35, 35, 35, 35] ⟨1, 2⟩ 4
      = .ok ([46, 53, 48, 48, 48, 35, 35, 35], 5) ∧
    dtoa [35, 35, 35, 35, 35, 35, 35, 35] ⟨-1, 2⟩ 4
      = .ok ([46, 53, 48, 48, 48, 35, 35, 35], 6) := by
  decide

/-! ## Timestamps -/

theorem digitChar_tmod (n : Nat) : digitChar (Int.tmod (n : Int) 10) = ZERO + n % 10 := by
  have h : Int.tmod (n : Int) 10 = ((n % 10 : Nat) : Int) := by
    rw [Int.tmod_eq_emod (by omega) (by omega)]
    omega
  rw [h]
  unfold digitChar ZERO
  omega

theorem tdiv_natCast (n : Nat) : Int.tdiv (n : Int) 10 = ((n / 10 : Nat) : Int) := by
  rw [Int.tdiv_eq_ediv (by omega) (by omega)]
  omega

theorem nsec_natCast (ts : Int) : ∃ n : Nat, max (Int.tmod ts 1000000000) 0 = (n : Int) :=
  ⟨(max (Int.tmod ts 1000000000) 0).toNat, by omega⟩

theorem strfepoch_natCast (Prec : clock_precision) (m : Mem) (dest : Nat) (ts : Int)
    (y mo d h mi s : Nat) :
    peek (strfepoch Prec m dest ⟨s, mi, h, d, (mo : Int) - 1, (y : Int) - 1900⟩ ts).1 dest 17
      = padded 4 y ++ padded 2 mo ++ padded 2 d ++ [45] ++ padded 2 h ++ [58] ++
          padded 2 mi ++ [58] ++ padded 2 s := by
  obtain ⟨n, hn⟩ := nsec_natCast ts
  have e1 : (y : Int) - 1900 + 1900 = (y : Int) := by omega
  have e2 : (mo : Int) - 1 + 1 = (mo : Int) := by omega
  cases Prec <;>
  simp only [strfepoch, hn, e1, e2, tdiv_natCast, digitChar_tmod] <;>
  simp [peek, List.range_succ, poke, padded, clock_precision.toNat]

theorem strfepoch_size (Prec : clock_precision) (m : Mem) (dest : Nat) (t : tm) (ts : Int) :
    (strfepoch Prec m dest t ts).2 = stampSize Prec := by
  cases Prec <;> simp [strfepoch, stampSize, clock_precision.toNat]

theorem strfepoch_dot (Prec : clock_precision) (m : Mem) (dest : Nat) (t : tm) (ts : Int)
    (h : Prec ≠ .seconds) : (strfepoch Prec m dest t ts).1 (dest + 17) = 46 := by
  cases Prec <;> simp [strfepoch, poke, clock_precision.toNat] at h ⊢

theorem strfepoch_fraction_digits (Prec : clock_precision) (m : Mem) (dest : Nat) (t : tm)
    (ts : Int) (i : Nat) (h1 : 18 ≤ i) (h2 : i < stampSize Prec) :
    48 ≤ (strfepoch Prec m dest t ts).1 (dest + i) ∧
      (strfepoch Prec m dest t ts).1 (dest + i) ≤ 57 := by
  obtain ⟨n, hn⟩ := nsec_natCast ts
  cases Prec <;> simp only [stampSize] at h2 <;>
  simp only [strfepoch, clock_precision.toNat, ge_iff_le, gt_iff_lt, Nat.reduceLeDiff,
    Nat.reduceLT, reduceIte, Nat.lt_irrefl, Nat.le_refl, Nat.not_succ_le_zero, Nat.zero_lt_succ,
    hn, tdiv_natCast, digitChar_tmod] <;>
  interval_cases i <;>
  simp [poke, ZERO] <;> omega

theorem strfepoch_outside (Prec : clock_precision) (m : Mem) (dest : Nat) (t : tm) (ts : Int)
    (a : Nat) (h : a < dest ∨ dest + stampSize Prec ≤ a) :
    (strfepoch Prec m dest t ts).1 a = m a := by
  cases Prec <;> simp only [stampSize] at h <;>
  simp only [strfepoch, poke, clock_precision.toNat, ge_iff_le, gt_iff_lt, Nat.reduceLeDiff,
    Nat.reduceLT, reduceIte, Nat.lt_irrefl, Nat.le_refl, Nat.not_succ_le_zero,
    Nat.zero_lt_succ] <;>
  repeat (first | rfl | rw [if_neg (by omega)])

theorem padded_length (k n : Nat) : (padded k n).length = k := by
  induction k generalizing n with
  | zero => rfl
  | succ k ih => simp [padded, ih]

theorem padded_digits (k n c : Nat) (h : c ∈ padded k n) : 48 ≤ c ∧ c ≤ 57 := by
  induction k generalizing n with
  | zero => simp [padded] at h
  | succ k ih =>
    simp only [padded, List.mem_append, List.mem_singleton] at h
    rcases h with h | h
    · exact ih _ h
    · subst h
      unfold ZERO
      omega

theorem stampText_shape (t : tm) :
    (stampText t).length = 17 ∧ (stampText t).getD 8 0 = 45 ∧
    (stampText t).getD 11 0 = 58 ∧ (stampText t).getD 14 0 = 58 ∧
    ∀ i, i < 17 → i ≠ 8 → i ≠ 11 → i ≠ 14 →
      48 ≤ (stampText t).getD i 0 ∧ (stampText t).getD i 0 ≤ 57 := by
  refine ⟨by simp [stampText, padded_length], by simp [stampText, padded],
    by simp [stampText, padded], by simp [stampText, padded], ?_⟩
  intro i hi h8 h11 h14
  interval_cases i <;> simp [stampText, padded, ZERO] <;> omega

/-- C21: for every broken-down time `t` with the year in 0..9999, every epoch value `ts`
and every precision, `strfepoch` returns 17, 21, 24 or 27 (seconds, milliseconds,
microseconds, nanoseconds), changes no byte outside `dest[0 .. size)`, and leaves there
the text `YYYYMMDD-HH:MM:SS`, made of the zero-padded year, month (`tm_mon + 1`), day,
hour, minute and second with `'-'` at index 8 and `':'` at indices 11 and 14, then, when
the precision is finer than seconds, `'.'` at index 17 and an ASCII digit at every index
from 18 to the end. -/
theorem timestamp_layout (Prec : clock_precision) (m : Mem) (dest : Nat) (t : tm) (ts : Int)
    (ht : t.IsBrokenDown) :
    (strfepoch Prec m dest t ts).2 = stampSize Prec ∧
    (∀ a, a < dest ∨ dest + stampSize Prec ≤ a → (strfepoch Prec m dest t ts).1 a = m a) ∧
    peek (strfepoch Prec m dest t ts).1 dest 17 = stampText t ∧
    ((stampText t).length = 17 ∧ (stampText t).getD 8 0 = 45 ∧
      (stampText t).getD 11 0 = 58 ∧ (stampText t).getD 14 0 = 58 ∧
      ∀ i, i < 17 → i ≠ 8 → i ≠ 11 → i ≠ 14 →
        48 ≤ (stampText t).getD i 0 ∧ (stampText t).getD i 0 ≤ 57) ∧
    (Prec ≠ .seconds → (strfepoch Prec m dest t ts).1 (dest + 17) = 46) ∧
    (∀ i, 18 ≤ i → i < stampSize Prec →
      48 ≤ (strfepoch Prec m dest t ts).1 (dest + i) ∧
        (strfepoch Prec m dest t ts).1 (dest + i) ≤ 57) := by
  refine ⟨strfepoch_size Prec m dest t ts, strfepoch_outside Prec m dest t ts, ?_,
    stampText_shape t, strfepoch_dot Prec m dest t ts,
    strfepoch_fraction_digits Prec m dest t ts⟩
  obtain ⟨⟨hy, _⟩, ⟨hmo, _⟩, ⟨hd, _⟩, ⟨hh, _⟩, ⟨hmi, _⟩, ⟨hs, _⟩⟩ := ht
  cases t with
  | mk sec min hour mday mon year =>
    simp only at hy hmo hd hh hmi hs
    obtain ⟨s, rfl⟩ : ∃ s : Nat, sec = (s : Int) := ⟨sec.toNat, by omega⟩
    obtain ⟨mi, rfl⟩ : ∃ s : Nat, min = (s : Int) := ⟨min.toNat, by omega⟩
    obtain ⟨h, rfl⟩ : ∃ s : Nat, hour = (s : Int) := ⟨hour.toNat, by omega⟩
    obtain ⟨d, rfl⟩ : ∃ s : Nat, mday = (s : Int) := ⟨mday.toNat, by omega⟩
    obtain ⟨mo, rfl⟩ : ∃ s : Nat, mon = (s : Int) - 1 := ⟨(mon + 1).toNat, by omega⟩
    obtain ⟨y, rfl⟩ : ∃ s : Nat, year = (s : Int) - 1900 := ⟨(year + 1900).toNat, by omega⟩
    rw [strfepoch_natCast]
    simp [stampText]

/-- The time 2024-01-02 03:04:05 with `ts` ending in 728 ms, at millisecond precision:
21 bytes, the first 17 of which are `20240102-03:04:05`. -/
theorem timestamp_layout_witness :
    tm.IsBrokenDown ⟨5, 4, 3, 2, 0, 124⟩ ∧
    (strfepoch .milliseconds (fun _ => 35) 100 ⟨5, 4, 3, 2, 0, 124⟩ 1704164645728000000).2 = 21 ∧
    peek (strfepoch .milliseconds (fun _ => 35) 100 ⟨5, 4, 3, 2, 0, 124⟩
      1704164645728000000).1 100 17
      = [50, 48, 50, 52, 48, 49, 48, 50, 45, 48, 51, 58, 48, 52, 58, 48, 53] :=
  ⟨by decide,
   (timestamp_layout .milliseconds (fun _ => 35) 100 ⟨5, 4, 3, 2, 0, 124⟩ 1704164645728000000
      (by decide)).1,
   (timestamp_layout .milliseconds (fun _ => 35) 100 ⟨5, 4, 3, 2, 0, 124⟩ 1704164645728000000
      (by decide)).2.2.1⟩

/-- C22 at `n = 728000000`. At millisecond precision `strfepoch` writes `.000` after the
seconds, the last three digits of `n`, where the leading three are `728`; at nanosecond
precision `n = 123456789` is written as `.789456123`, the three-digit groups of `n` in
reverse order; at microsecond precision it is `.789456`. In each block the code takes
`nsec % 10` from the low end of `n`, starting with the first block after the point. -/
theorem fraction_digits_from_low_end :
    peek (strfepoch .milliseconds (fun _ => 35) 0 ⟨5, 4, 3, 2, 0, 124⟩ 1704164645728000000).1
      17 4 = [46, 48, 48, 48] ∧
    padded 3 (728000000 / 10 ^ 6) = [55, 50, 56] ∧
    peek (strfepoch .nanoseconds (fun _ => 35) 0 ⟨5, 4, 3, 2, 0, 124⟩ 1704164645123456789).1
      17 10 = [46, 55, 56, 57, 52, 53, 54, 49, 50, 51] ∧
    padded 9 123456789 = [49, 50, 51, 52, 53, 54, 55, 56, 57] ∧
    peek (strfepoch .microseconds (fun _ => 35) 0 ⟨5, 4, 3, 2, 0, 124⟩ 1704164645123456789).1
      17 7 = [46, 55, 56, 57, 52, 53, 54] ∧
    padded 6 (123456789 / 10 ^ 3) = [49, 50, 51, 52, 53, 54] := by
  decide

theorem readDigit_ok (signed : Bool) (src : List Nat) (x : Int) (i : Nat) (h : i < src.length) :
    readDigit signed src x i
      = .ok (wrap INT_BITS (10 * x + charToInt signed (src.getD i 0) - 48)) := by
  simp [readDigit, readChar, h]

theorem strtepoch_seconds (signed : Bool) (src : List Nat) (size : Int) (f : tm → Int)
    (hlen : 17 ≤ src.length) (hsize : size < 20) :
    strtepoch signed src size f = .ok (wrap 64 (f (stampTm signed src))) := by
  simp only [strtepoch, bind, Except.bind, readDigit_ok signed src _ _ (show 0 < src.length by omega),
    readDigit_ok signed src _ _ (show 1 < src.length by omega),
    readDigit_ok signed src _ _ (show 2 < src.length by omega),
    readDigit_ok signed src _ _ (show 3 < src.length by omega),
    readDigit_ok signed src _ _ (show 4 < src.length by omega),
    readDigit_ok signed src _ _ (show 5 < src.length by omega),
    readDigit_ok signed src _ _ (show 6 < src.length by omega),
    readDigit_ok signed src _ _ (show 7 < src.length by omega),
    readDigit_ok signed src _ _ (show 9 < src.length by omega),
    readDigit_ok signed src _ _ (show 10 < src.length by omega),
    readDigit_ok signed src _ _ (show 12 < src.length by omega),
    readDigit_ok signed src _ _ (show 13 < src.length by omega),
    readDigit_ok signed src _ _ (show 15 < src.length by omega),
    readDigit_ok signed src _ _ (show 16 < src.length by omega), if_pos hsize]
  rfl

theorem strtepoch_fraction (signed : Bool) (src : List Nat) (size : Int) (f : tm → Int)
    (hlen : 21 ≤ src.length) (hsize : 20 ≤ size)
    (h6 : 23 < size → 24 ≤ src.length) (h9 : 26 < size → 27 ≤ src.length) :
    strtepoch signed src size f
      = .ok (wrap 64 (wrap 64 (f (stampTm signed src)) *
            (if 26 < size then 1000000000 else if 23 < size then 1000000 else 1000) +
          digitsAt signed src 0 18 (if 26 < size then 9 else if 23 < size then 6 else 3))) := by
  have hns : ¬ size < 20 := by omega
  simp only [strtepoch, bind, Except.bind, pure, Except.pure,
    readDigit_ok signed src _ _ (show 0 < src.length by omega),
    readDigit_ok signed src _ _ (show 1 < src.length by omega),
    readDigit_ok signed src _ _ (show 2 < src.length by omega),
    readDigit_ok signed src _ _ (show 3 < src.length by omega),
    readDigit_ok signed src _ _ (show 4 < src.length by omega),
    readDigit_ok signed src _ _ (show 5 < src.length by omega),
    readDigit_ok signed src _ _ (show 6 < src.length by omega),
    readDigit_ok signed src _ _ (show 7 < src.length by omega),
    readDigit_ok signed src _ _ (show 9 < src.length by omega),
    readDigit_ok signed src _ _ (show 10 < src.length by omega),
    readDigit_ok signed src _ _ (show 12 < src.length by omega),
    readDigit_ok signed src _ _ (show 13 < src.length by omega),
    readDigit_ok signed src _ _ (show 15 < src.length by omega),
    readDigit_ok signed src _ _ (show 16 < src.length by omega),
    readDigit_ok signed src _ _ (show 18 < src.length by omega),
    readDigit_ok signed src _ _ (show 19 < src.length by omega),
    readDigit_ok signed src _ _ (show 20 < src.length by omega), if_neg hns]
  by_cases c9 : 26 < size
  · have c6 : 23 < size := by omega
    have l9 := h9 c9
    simp only [gt_iff_lt, c9, c6, if_true,
      readDigit_ok signed src _ _ (show 21 < src.length by omega),
      readDigit_ok signed src _ _ (show 22 < src.length by omega),
      readDigit_ok signed src _ _ (show 23 < src.length by omega),
      readDigit_ok signed src _ _ (show 24 < src.length by omega),
      readDigit_ok signed src _ _ (show 25 < src.length by omega),
      readDigit_ok signed src _ _ (show 26 < src.length by omega)]
    rfl
  · by_cases c6 : 23 < size
    · have l6 := h6 c6
      simp only [gt_iff_lt, c9, c6, if_true, if_false,
        readDigit_ok signed src _ _ (show 21 < src.length by omega),
        readDigit_ok signed src _ _ (show 22 < src.length by omega),
        readDigit_ok signed src _ _ (show 23 < src.length by omega)]
      rfl
    · simp only [gt_iff_lt, c9, c6, if_false]
      rfl

/-- C23, amended: given `size` bytes, `strtepoch` reads no fractional digit when `size` is
17 to 19, and the 3, 6 or 9 fractional digits at indices 18 to 20, 18 to 23 or 18 to 26
when `size` is 21 to 23, 24 to 26 or at least 27; the result is `f(dt)`, respectively
`f(dt) * 10^k + fraction`, as an `int64_t`. In these cases it returns without reading a
byte at an index `≥ size` (such a read is a fault here, `src` holding `size` bytes). -/
theorem timestamp_parse_precision (signed : Bool) (src : List Nat) (f : tm → Int) :
    (17 ≤ src.length ∧ src.length ≤ 19 →
      strtepoch signed src src.length f = .ok (wrap 64 (f (stampTm signed src)))) ∧
    (21 ≤ src.length ∧ src.length ≤ 23 →
      strtepoch signed src src.length f
        = .ok (wrap 64 (wrap 64 (f (stampTm signed src)) * 1000
            + digitsAt signed src 0 18 3))) ∧
    (24 ≤ src.length ∧ src.length ≤ 26 →
      strtepoch signed src src.length f
        = .ok (wrap 64 (wrap 64 (f (stampTm signed src)) * 1000000
            + digitsAt signed src 0 18 6))) ∧
    (27 ≤ src.length →
      strtepoch signed src src.length f
        = .ok (wrap 64 (wrap 64 (f (stampTm signed src)) * 1000000000
            + digitsAt signed src 0 18 9))) := by
  refine ⟨?_, ?_, ?_, ?_⟩
  · rintro ⟨h1, h2⟩
    exact strtepoch_seconds signed src _ f h1 (by omega)
  · rintro ⟨h1, h2⟩
    rw [strtepoch_fraction signed src _ f h1 (by omega) (by omega) (by omega),
      if_neg (by omega), if_neg (by omega), if_neg (by omega), if_neg (by omega)]
  · rintro ⟨h1, h2⟩
    rw [strtepoch_fraction signed src _ f (by omega) (by omega) (by omega) (by omega),
      if_neg (by omega), if_pos (by omega), if_neg (by omega), if_pos (by omega)]
  · intro h1
    rw [strtepoch_fraction signed src _ f (by omega) (by omega) (by omega) (by omega),
      if_pos (by omega), if_pos (by omega)]

/-- The stamps `20240102-03:04:05`, `….123`, `….123456` and `….123456789` (17, 21, 24 and
27 bytes), with the seconds field standing in for `timegm`. -/
theorem timestamp_parse_precision_witness :
    strtepoch true [50, 48, 50, 52, 48, 49, 48, 50, 45, 48, 51, 58, 48, 52, 58, 48, 53]
      17 (fun t => t.tm_sec) = .ok 5 ∧
    strtepoch true [50, 48, 50, 52, 48, 49, 48, 50, 45, 48, 51, 58, 48, 52, 58, 48, 53,
      46, 49, 50, 51] 21 (fun t => t.tm_sec) = .ok 5123 ∧
    strtepoch true [50, 48, 50, 52, 48, 49, 48, 50, 45, 48, 51, 58, 48, 52, 58, 48, 53,
      46, 49, 50, 51, 52, 53, 54] 24 (fun t => t.tm_sec) = .ok 5123456 ∧
    strtepoch true [50, 48, 50, 52, 48, 49, 48, 50, 45, 48, 51, 58, 48, 52, 58, 48, 53,
      46, 49, 50, 51, 52, 53, 54, 55, 56, 57] 27 (fun t => t.tm_sec) = .ok 5123456789 ∧
    (27 ≤ [50, 48, 50, 52, 48, 49, 48, 50, 45, 48, 51, 58, 48, 52, 58, 48, 53,
        46, 49, 50, 51, 52, 53, 54, 55, 56, 57].length →
      strtepoch true [50, 48, 50, 52, 48, 49, 48, 50, 45, 48, 51, 58, 48, 52, 58, 48, 53,
          46, 49, 50, 51, 52, 53, 54, 55, 56, 57]
        [50, 48, 50, 52, 48, 49, 48, 50, 45, 48, 51, 58, 48, 52, 58, 48, 53,
          46, 49, 50, 51, 52, 53, 54, 55, 56, 57].length (fun t => t.tm_sec)
        = .ok (wrap 64 (wrap 64 ((fun t => t.tm_sec) (stampTm true
            [50, 48, 50, 52, 48, 49, 48, 50, 45, 48, 51, 58, 48, 52, 58, 48, 53,
              46, 49, 50, 51, 52, 53, 54, 55, 56, 57])) * 1000000000
          + digitsAt true [50, 48, 50, 52, 48, 49, 48, 50, 45, 48, 51, 58, 48, 52, 58, 48, 53,
              46, 49, 50, 51, 52, 53, 54, 55, 56, 57] 0 18 9))) :=
  ⟨by decide, by decide, by decide, by decide,
   (timestamp_parse_precision true [50, 48, 50, 52, 48, 49, 48, 50, 45, 48, 51, 58, 48, 52,
      58, 48, 53, 46, 49, 50, 51, 52, 53, 54, 55, 56, 57] (fun t => t.tm_sec)).2.2.2⟩

/-- C23 as stated fails at the lengths 23 and 26. The 23 bytes `20240102-03:04:05.12345`
give `5 * 1000 + 123`: three fractional digits are read, not six, and the bytes at
indices 21 and 22 do not matter. The 26 bytes `….12345678` give `5 * 10^6 + 123456`: six
digits, not nine. At length 20 (`….12`) the byte at index 20 is read. -/
theorem timestamp_parse_lengths_23_26 :
    strtepoch true [50, 48, 50, 52, 48, 49, 48, 50, 45, 48, 51, 58, 48, 52, 58, 48, 53,
      46, 49, 50, 51, 52, 53] 23 (fun t => t.tm_sec) = .ok 5123 ∧
    strtepoch true [50, 48, 50, 52, 48, 49, 48, 50, 45, 48, 51, 58, 48, 52, 58, 48, 53,
      46, 49, 50, 51, 57, 57] 23 (fun t => t.tm_sec) = .ok 5123 ∧
    strtepoch true [50, 48, 50, 52, 48, 49, 48, 50, 45, 48, 51, 58, 48, 52, 58, 48, 53,
      46, 49, 50, 51, 52, 53, 54, 55, 56] 26 (fun t => t.tm_sec) = .ok 5123456 ∧
    strtepoch true [50, 48, 50, 52, 48, 49, 48, 50, 45, 48, 51, 58, 48, 52, 58, 48, 53,
      46, 49, 50] 20 (fun t => t.tm_sec) = .error .outOfBounds := by
  decide

/-! ## `FixEngine::perform` -/

/-- C24: when the transport holds fewer than 32 bytes, and when it holds at least 32 but
no more than the peeked message length `msgLen` (so also when it holds exactly `msgLen`
bytes), `perform` makes one call, `poll()`, on the transport: the visitor is not invoked,
`move_head` is not called, and `false` is returned. -/
theorem no_premature_dispatch {σ μ : Type} (dataSource : DataSource σ)
    (MsgTypeStringToEnum : List Nat → μ) (hdr : MsgInitials) (s : σ) :
    (dataSource.size s < 32 →
      FixEngine.perform dataSource MsgTypeStringToEnum hdr s
        = .ok (false, dataSource.poll s, [.poll])) ∧
    (∀ hdr1 msgLen, 32 ≤ dataSource.size s →
      PeekMessage (dataSource.readable s) hdr = .ok (hdr1, msgLen) →
      dataSource.size s ≤ msgLen →
      FixEngine.perform dataSource MsgTypeStringToEnum hdr s
        = .ok (false, dataSource.poll s, [.poll])) := by
  constructor
  · intro h
    unfold FixEngine.perform
    simp only [ge_iff_le, if_neg (show ¬ (32 ≤ dataSource.size s) by omega), if_true]
  · intro hdr1 msgLen h32 hpeek hle
    unfold FixEngine.perform
    simp only [ge_iff_le, if_pos h32, hpeek, gt_iff_lt,
      if_neg (show ¬ (msgLen < dataSource.size s) by omega), if_true]

/-- A ring that holds the 50 bytes of the sample message and nothing else: the peeked
length is 50, the size is 50, and `perform` polls. -/
theorem no_premature_dispatch_witness :
    (32 ≤ Ring.dataSource.size ⟨sampleWire, 0, 50⟩ ∧
      PeekMessage (Ring.dataSource.readable ⟨sampleWire, 0, 50⟩) sampleInitials
        = .ok (samplePeeked, 50) ∧
      Ring.dataSource.size ⟨sampleWire, 0, 50⟩ ≤ 50) ∧
    FixEngine.perform Ring.dataSource (id : List Nat → List Nat) sampleInitials ⟨sampleWire, 0, 50⟩
      = .ok (false, Ring.dataSource.poll ⟨sampleWire, 0, 50⟩, [.poll]) :=
  ⟨⟨by decide, by decide, by decide⟩,
   (no_premature_dispatch Ring.dataSource (id : List Nat → List Nat) sampleInitials
     ⟨sampleWire, 0, 50⟩).2 samplePeeked 50 (by decide) (by decide) (by decide)⟩

/-- C26, amended: when the transport holds at least 32 bytes and more than the peeked
length `msgLen`, `perform` invokes the visitor once, with the message type looked up
from the peeked `MessageType`, the read pointer and `msgLen`, then calls
`move_head(msgLen)`, does not poll, and returns `msgLen > 0`: `true` when `msgLen` is
positive, `false` otherwise. -/
theorem dispatch_step {σ μ : Type} (dataSource : DataSource σ)
    (MsgTypeStringToEnum : List Nat → μ) (hdr hdr1 : MsgInitials) (msgLen : Int) (s : σ)
    (h32 : 32 ≤ dataSource.size s)
    (hpeek : PeekMessage (dataSource.readable s) hdr = .ok (hdr1, msgLen))
    (hgt : msgLen < dataSource.size s) :
    FixEngine.perform dataSource MsgTypeStringToEnum hdr s
      = .ok (decide (0 < msgLen), dataSource.move_head s msgLen,
          [.visitor (MsgTypeStringToEnum (TvpStringFixed.get hdr1.messageType))
              (dataSource.read_ptr s) msgLen,
            .move_head msgLen]) ∧
    (0 < msgLen → ∃ s1 calls,
      FixEngine.perform dataSource MsgTypeStringToEnum hdr s = .ok (true, s1, calls)) ∧
    (msgLen ≤ 0 → ∃ s1 calls,
      FixEngine.perform dataSource MsgTypeStringToEnum hdr s = .ok (false, s1, calls)) := by
  have h : FixEngine.perform dataSource MsgTypeStringToEnum hdr s
      = .ok (decide (0 < msgLen), dataSource.move_head s msgLen,
          [.visitor (MsgTypeStringToEnum (TvpStringFixed.get hdr1.messageType))
              (dataSource.read_ptr s) msgLen,
            .move_head msgLen]) := by
    unfold FixEngine.perform
    simp only [ge_iff_le, if_pos h32, hpeek, gt_iff_lt, if_pos hgt]
  refine ⟨h, ?_, ?_⟩
  · intro hpos
    exact ⟨_, _, by rw [h, decide_eq_true hpos]⟩
  · intro hneg
    exact ⟨_, _, by rw [h, decide_eq_false (by omega)]⟩

/-- A ring that holds the sample message twice: the first is dispatched, with type `X`,
pointer 0 and length 50, and the head moves to 50. -/
theorem dispatch_step_witness :
    (32 ≤ Ring.dataSource.size ⟨sampleWire ++ sampleWire, 0, 100⟩ ∧
      PeekMessage (Ring.dataSource.readable ⟨sampleWire ++ sampleWire, 0, 100⟩) sampleInitials
        = .ok (samplePeeked, 50) ∧
      (50 : Int) < Ring.dataSource.size ⟨sampleWire ++ sampleWire, 0, 100⟩) ∧
    FixEngine.perform Ring.dataSource (id : List Nat → List Nat) sampleInitials
        ⟨sampleWire ++ sampleWire, 0, 100⟩
      = .ok (decide ((0 : Int) < 50),
          Ring.dataSource.move_head ⟨sampleWire ++ sampleWire, 0, 100⟩ 50,
          [.visitor (id (TvpStringFixed.get samplePeeked.messageType))
              (Ring.dataSource.read_ptr ⟨sampleWire ++ sampleWire, 0, 100⟩) 50,
            .move_head 50]) ∧
    FixEngine.perform Ring.dataSource (id : List Nat → List Nat) sampleInitials
        ⟨sampleWire ++ sampleWire, 0, 100⟩
      = .ok (true, ⟨sampleWire ++ sampleWire, 50, 100⟩,
          [.visitor [88] 0 50, .move_head 50]) :=
  ⟨⟨by decide, by decide, by decide⟩,
   (dispatch_step Ring.dataSource (id : List Nat → List Nat) sampleInitials samplePeeked 50
      ⟨sampleWire ++ sampleWire, 0, 100⟩ (by decide) (by decide) (by decide)).1,
   by decide⟩

/-- C26 as stated fails on the 40 buffered bytes `8=FIX.4.4|9=-100|35=0|` followed by
`58=abcdefghijklmn|`: the peeked length is 10 + 7 - 100 + 7 = -76, below the size 40, so
the visitor is invoked and `move_head(-76)` is called, and `perform` returns `false`. -/
theorem dispatch_returns_false :
    Ring.dataSource.size ⟨negativeLengthWire, 0, 40⟩ = 40 ∧
    PeekMessage negativeLengthWire sampleInitials
      = .ok (⟨⟨[56], [70, 73, 88, 46, 52, 46, 52, 0, 0, 0, 0, 0, 0, 0, 0, 0], 7⟩,
          ⟨[57], [45, 49, 48, 48], 4⟩, ⟨[51, 53], [48], 1⟩⟩, -76) ∧
    FixEngine.perform Ring.dataSource (id : List Nat → List Nat) sampleInitials
        ⟨negativeLengthWire, 0, 40⟩
      = .ok (false, ⟨negativeLengthWire, 0, 40⟩, [.visitor [48] 0 (-76), .move_head (-76)]) := by
  decide

/-- C27 at `N = 1` and `N = 2`. A ring that holds exactly the 50 bytes of the sample
message, with a `poll` that delivers nothing: two calls of `perform` both poll and
return `false`, so the visitor is never invoked, although the final `SOH` is in the
buffer (the size 50 is not greater than the peeked length 50). With the message twice
in the ring, three calls dispatch the first one and then poll twice: one dispatch
for two messages. -/
theorem last_message_not_dispatched :
    FixEngine.perform Ring.dataSource (id : List Nat → List Nat) sampleInitials ⟨sampleWire, 0, 50⟩
      = .ok (false, ⟨sampleWire, 0, 50⟩, [.poll]) ∧
    PeekMessage sampleWire sampleInitials
      = .ok (samplePeeked, 50) ∧
    sampleWire.length = 50 ∧
    FixEngine.perform Ring.dataSource (id : List Nat → List Nat) sampleInitials
        ⟨sampleWire ++ sampleWire, 0, 100⟩
      = .ok (true, ⟨sampleWire ++ sampleWire, 50, 100⟩,
          [.visitor [88] 0 50, .move_head 50]) ∧
    FixEngine.perform Ring.dataSource (id : List Nat → List Nat) sampleInitials
        ⟨sampleWire ++ sampleWire, 50, 100⟩
      = .ok (false, ⟨sampleWire ++ sampleWire, 50, 100⟩, [.poll]) :=
  ⟨by decide, by decide, by decide, by decide, by decide⟩

/-! ## `FixEngine::connect` and `disconnect` -/

/-- C29 at `file_client`: `disconnect()` on an active `file_client` closes the files and
returns 1, and `FixEngine::disconnect()`, which tests `== 0`, returns `false`;
`FixEngine::connect()` tests `>= 0` and returns `true` for the 1 that
`file_client::connect()` returns. For every transport `disconnect()` is `true` exactly
when the delegate returns 0, `connect()` on an inactive transport exactly when the
delegate returns a non-negative value. -/
theorem disconnect_tests_for_zero :
    file_client.disconnect ⟨true⟩ = (⟨false⟩, 1) ∧
    FixEngine.disconnect file_client.disconnect ⟨true⟩ = (false, ⟨false⟩) ∧
    FixEngine.disconnect tcp_client.disconnect ⟨true⟩ = (true, ⟨false⟩) ∧
    FixEngine.connect (fun c : client => c.is_active) (fun _ => (⟨true⟩, 1)) ⟨false⟩
      = (true, ⟨true⟩) ∧
    (∀ (disconnect : client → client × Int) (s : client),
      (FixEngine.disconnect disconnect s).1 = decide ((disconnect s).2 = 0)) ∧
    (∀ (connect : client → client × Int) (s : client), s.is_active = false →
      (FixEngine.connect (fun c : client => c.is_active) connect s).1
        = decide (0 ≤ (connect s).2)) := by
  refine ⟨by decide, by decide, by decide, by decide, fun _ _ => rfl, ?_⟩
  intro connect s h
  simp [FixEngine.connect, h]

/-! ## The bytes of a finalised message -/

theorem FixMessage.dump_finalised_fields (fuel : Nat) (msg : FixMessage) (m : Mem) (dest : Nat)
    (hfuel : 0 < fuel)
    (hlen : (decimal msg.mMsgBody.width).length ≤ msg.bodyLength.value.length)
    (hsum : 3 ≤ msg.checkSum.value.length) :
    ∃ msg1 c, msg.dump fuel m dest true true
        = .ok (msg1, blit m dest msg1.wire, msg1.wire.length) ∧
      msg1.beginString = msg.beginString ∧ msg1.body = msg.body ∧
      msg1.bodyLength.wire
        = msg.bodyLength.tag ++ [ASSIGN] ++ decimal msg.mMsgBody.width ++ [SEPARATOR] ∧
      msg1.bodyLength.value.take msg1.bodyLength.usedLen = decimal msg.mMsgBody.width ∧
      msg1.bodyLength.usedLen = (decimal msg.mMsgBody.width).length ∧
      msg1.bodyLength.tag = msg.bodyLength.tag ∧
      msg1.checkSum.wire
        = msg.checkSum.tag ++ [ASSIGN] ++ [ZERO + c / 100, ZERO + c / 10 % 10, ZERO + c % 10]
            ++ [SEPARATOR] ∧
      c = (msg1.beginString.wire ++ msg1.bodyLength.wire ++ wireEach msg1.body).sum % 256 ∧
      msg1.bodyLength.IsSet := by
  obtain ⟨msgL, hL, hLb, hLbody, hLc, _, hLt, hLu, hLv⟩ :=
    FixMessage.updateBodyLength_spec fuel msg hfuel hlen
  obtain ⟨msg1, h1, _, h1b, h1l, h1body, _, h1t, h1u, h1v⟩ :=
    FixMessage.updateCheckSum_spec msgL (by rw [hLc]; exact hsum)
  have htake : msg1.bodyLength.value.take msg1.bodyLength.usedLen
      = decimal msg.mMsgBody.width := by
    rw [h1l, hLu, hLv, List.take_left]
  have hu : msg1.bodyLength.usedLen = (decimal msg.mMsgBody.width).length := by
    rw [h1l, hLu]
  refine ⟨msg1, msgL.checksumOf, ?_, h1b.trans hLb, h1body.trans hLbody, ?_, htake, hu,
    by rw [h1l, hLt], ?_, ?_, ?_⟩
  · rw [FixMessage.dump_both fuel msg msgL msg1 m dest _ hL h1, FixMessage.wire_length,
      FixMessage.wire, Tvp.dumped_eq, Tvp.dumped_eq, Tvp.dumped_eq]
  · have h0 : msg1.bodyLength.usedLen ≠ 0 := by
      rw [hu]; exact Nat.pos_iff_ne_zero.mp (decimal_length_pos _)
    have hcap : msg1.bodyLength.usedLen ≤ msg1.bodyLength.value.length := by
      rw [h1l, hLu, hLv]; simp
    rw [TvpStatic.wire, fieldWire_of_le _ _ _ h0 hcap, htake, h1l, hLt]
  · have h0 : msg1.checkSum.usedLen ≠ 0 := by rw [h1u]; decide
    have hcap : msg1.checkSum.usedLen ≤ msg1.checkSum.value.length := by
      rw [h1u, h1v]; simp
    rw [TvpStatic.wire, fieldWire_of_le _ _ _ h0 hcap, h1u, h1v, h1t, hLc]
    rfl
  · rw [FixMessage.checksumOf_eq, Tvp.dumped_eq, Tvp.dumped_eq, header_wire,
      FixMessage.mMsgBody, Tvp.wire, h1b, h1l, h1body]
  · refine ⟨by rw [hu]; exact decimal_length_pos _, by rw [h1l, hLu, hLv]; simp, ?_⟩
    rw [htake]
    exact separator_not_mem_decimal _

theorem padded_three (c : Nat) (h : c < 1000) :
    padded 3 c = [ZERO + c / 100, ZERO + c / 10 % 10, ZERO + c % 10] := by
  simp only [padded, List.nil_append, List.cons_append, List.singleton_append]
  have e : c / 10 / 10 % 10 = c / 100 := by omega
  rw [e]

/-- C30: `dump(dest, true, true)` writes as trailer the `CheckSum` tag (`10`), `'='`,
three decimal digits and `SOH`: the digits are the checksum `c` of the bytes before them,
padded with zeros on the left, so the trailer has exactly 7 bytes; 7 is rendered as `007`
and 90 as `090`. -/
theorem checksum_rendering (fuel : Nat) (msg : FixMessage) (m : Mem) (dest : Nat)
    (hfuel : 0 < fuel)
    (hlen : (decimal msg.mMsgBody.width).length ≤ msg.bodyLength.value.length)
    (hsum : 3 ≤ msg.checkSum.value.length)
    (htag : msg.checkSum.tag = [49, 48]) :
    ∃ msg1 m1 n c, msg.dump fuel m dest true true = .ok (msg1, m1, n) ∧
      7 ≤ n ∧ c = (peek m1 dest (n - 7)).sum % 256 ∧
      peek m1 (dest + (n - 7)) 7 = [49, 48, ASSIGN] ++ padded 3 c ++ [SEPARATOR] ∧
      msg1.mMsgTrailer.dumped = [49, 48, ASSIGN] ++ padded 3 c ++ [SEPARATOR] ∧
      msg1.mMsgTrailer.width = 7 ∧
      padded 3 7 = [48, 48, 55] ∧ padded 3 90 = [48, 57, 48] := by
  obtain ⟨msg1, c, hdump, _, _, _, _, _, _, hcs, hc, _⟩ :=
    FixMessage.dump_finalised_fields fuel msg m dest hfuel hlen hsum
  have hc256 : c < 1000 := by rw [hc]; omega
  have hcs2 : msg1.checkSum.wire = [49, 48, ASSIGN] ++ padded 3 c ++ [SEPARATOR] := by
    rw [hcs, htag, padded_three c hc256]; rfl
  have hl7 : msg1.checkSum.wire.length = 7 := by rw [hcs2]; simp [padded_length]
  have hw : msg1.wire = (msg1.beginString.wire ++ msg1.bodyLength.wire ++ wireEach msg1.body)
      ++ msg1.checkSum.wire := FixMessage.wire_eq msg1
  have hn : msg1.wire.length - 7
      = (msg1.beginString.wire ++ msg1.bodyLength.wire ++ wireEach msg1.body).length := by
    rw [hw, List.length_append, hl7]; omega
  refine ⟨msg1, blit m dest msg1.wire, msg1.wire.length, c, hdump, ?_, ?_, ?_, ?_, ?_,
    by decide, by decide⟩
  · rw [hw, List.length_append, hl7]; omega
  · rw [hn, hc, hw, peek_blit_prefix]
  · rw [hn, hw]
    have := peek_blit_suffix m dest
      (msg1.beginString.wire ++ msg1.bodyLength.wire ++ wireEach msg1.body) msg1.checkSum.wire
    rw [hl7] at this
    rw [this, hcs2]
  · rw [Tvp.dumped_eq, trailer_wire, hcs2]
  · rw [← Tvp.dumped_length, Tvp.dumped_eq, trailer_wire, hl7]

/-- The sample refresh: its trailer is `10=014|`. -/
theorem checksum_rendering_witness :
    (0 < 1 ∧
     (decimal sampleRefresh.mMsgBody.width).length ≤ sampleRefresh.bodyLength.value.length ∧
     3 ≤ sampleRefresh.checkSum.value.length ∧ sampleRefresh.checkSum.tag = [49, 48]) ∧
    (∃ msg1 m1 n c, sampleRefresh.dump 1 (fun _ => 0) 0 true true = .ok (msg1, m1, n) ∧
      7 ≤ n ∧ c = (peek m1 0 (n - 7)).sum % 256 ∧
      peek m1 (0 + (n - 7)) 7 = [49, 48, ASSIGN] ++ padded 3 c ++ [SEPARATOR] ∧
      msg1.mMsgTrailer.dumped = [49, 48, ASSIGN] ++ padded 3 c ++ [SEPARATOR] ∧
      msg1.mMsgTrailer.width = 7 ∧
      padded 3 7 = [48, 48, 55] ∧ padded 3 90 = [48, 57, 48]) ∧
    (∃ msg1 m1, sampleRefresh.dump 1 (fun _ => 0) 0 true true = .ok (msg1, m1, 50) ∧
      peek m1 43 7 = [49, 48, 61, 48, 49, 52, 1]) :=
  ⟨⟨by decide, by decide, by decide, by decide⟩,
   checksum_rendering 1 sampleRefresh (fun _ => 0) 0 (by decide) (by decide) (by decide)
     (by decide),
   ⟨_, _, rfl, by decide⟩⟩

/-! ## `PeekMessage` -/

theorem TvpStatic.parse_field_fits (g f : TvpStatic) (rest : List Nat) (meta : Int)
    (h : f.IsSet) (htag : g.tag = f.tag) (hcap : f.usedLen ≤ g.value.length) :
    g.parse ⟨f.wire ++ rest, meta⟩ = .ok (g.received f, ⟨rest, meta⟩, f.wire.length) := by
  have hl : (f.value.take f.usedLen).length = f.usedLen := by
    simp [Nat.min_eq_left h.2.1]
  have hp := TvpStatic.parse_encoded g (f.value.take f.usedLen) rest meta h.2.2
    (by rw [hl]; exact hcap)
  rw [hl] at hp
  rw [TvpStatic.wire_of_isSet f h, ← htag]
  rw [hp]
  simp [TvpStatic.received, hl]
  omega

theorem TvpStatic.received_width (g f : TvpStatic) (htag : g.tag = f.tag) :
    (g.received f).width = f.width := by
  simp [TvpStatic.received, TvpStatic.width, TvpStatic.TagSize, htag]

theorem PeekMessage_wire (b l t : TvpStatic) (hdr : MsgInitials) (rest : List Nat)
    (hb : b.IsSet) (hl : l.IsSet) (ht : t.IsSet)
    (hbt : hdr.beginString.tag = b.tag) (hbc : b.usedLen ≤ hdr.beginString.value.length)
    (hlt : hdr.bodyLength.tag = l.tag) (hlc : l.usedLen ≤ hdr.bodyLength.value.length)
    (htt : hdr.messageType.tag = t.tag) (htc : t.usedLen ≤ hdr.messageType.value.length) :
    PeekMessage (b.wire ++ (l.wire ++ (t.wire ++ rest))) hdr
      = .ok (⟨hdr.beginString.received b, hdr.bodyLength.received l,
              hdr.messageType.received t⟩,
          wrap INT_BITS ((b.width : Int) + (l.width : Int) + TvpInteger.get INT_BITS l + 7)) := by
  unfold PeekMessage TvpGroup.parse
  simp only [parse_impl, Tvp.parse]
  rw [TvpStatic.parse_field_fits _ b _ _ hb hbt hbc]
  simp only []
  rw [TvpStatic.parse_field_fits _ l _ _ hl hlt hlc]
  simp only []
  rw [TvpStatic.parse_field_fits _ t _ _ ht htt htc]
  simp only []
  rw [TvpStatic.received_width _ _ hbt, TvpStatic.received_width _ _ hlt,
    TvpInteger.get_received _ _ hl]

/-- C25: a message whose body starts with a set `MessageType` field `t` is serialised by
`dump(dest, true, true)`, the trailer being `10=NNN` and `SOH`. `PeekMessage`, applied to
the bytes written (followed by any `rest`) with a default-constructed `MsgInitials` of
matching tags and sufficient capacity, returns
`width(BeginString) + width(BodyLength) + BodyLength + 7`, and this is the number of
bytes that `dump` wrote and returned. The total is taken to fit an `int`. -/
theorem peeked_length_is_wire_length (fuel : Nat) (msg : FixMessage) (m : Mem) (dest : Nat)
    (hdr : MsgInitials) (t : TvpStatic) (body : List Tvp) (rest : List Nat)
    (hfuel : 0 < fuel)
    (hlen : (decimal msg.mMsgBody.width).length ≤ msg.bodyLength.value.length)
    (hsum : 3 ≤ msg.checkSum.value.length)
    (hbody : msg.body = .static t :: body)
    (hset : msg.beginString.IsSet ∧ t.IsSet)
    (htags : hdr.beginString.tag = msg.beginString.tag ∧
      hdr.bodyLength.tag = msg.bodyLength.tag ∧ hdr.messageType.tag = t.tag)
    (hcap : msg.beginString.usedLen ≤ hdr.beginString.value.length ∧
      (decimal msg.mMsgBody.width).length ≤ hdr.bodyLength.value.length ∧
      t.usedLen ≤ hdr.messageType.value.length)
    (htrailer : msg.checkSum.tag.length = 2)
    (hint : msg.beginString.width + msg.bodyLength.tag.length
      + (decimal msg.mMsgBody.width).length + msg.mMsgBody.width + 9 < 2 ^ 31) :
    ∃ msg1 m1 n hdr1, msg.dump fuel m dest true true = .ok (msg1, m1, n) ∧
      PeekMessage (peek m1 dest n ++ rest) hdr = .ok (hdr1, (n : Int)) ∧
      (n : Int) = (msg1.beginString.width : Int) + (msg1.bodyLength.width : Int)
        + TvpInteger.get INT_BITS msg1.bodyLength + 7 ∧
      TvpInteger.get INT_BITS msg1.bodyLength = (msg1.mMsgBody.width : Int) ∧
      msg1.mMsgTrailer.width = 7 ∧
      n = msg1.mMsgHeader.width + msg1.mMsgBody.width + msg1.mMsgTrailer.width := by
  obtain ⟨msg1, c, hdump, hb1, hbody1, hlw, hltake, hlu, hltag, hcs, _, hlset⟩ :=
    FixMessage.dump_finalised_fields fuel msg m dest hfuel hlen hsum
  obtain ⟨hbset, htset⟩ := hset
  obtain ⟨hbt, hlt, htt⟩ := htags
  obtain ⟨hbc, hlc, htc⟩ := hcap
  have hbodyw : msg1.mMsgBody.width = msg.mMsgBody.width := by
    rw [FixMessage.body_congr msg1 msg hbody1]
  have hget : TvpInteger.get INT_BITS msg1.bodyLength = (msg.mMsgBody.width : Int) := by
    unfold TvpInteger.get
    rw [hltake, atoi_decimal _ (by omega)]
  have hcsl : msg1.checkSum.wire.length = 7 := by
    rw [hcs]; simp [htrailer]
  have hlwl : msg1.bodyLength.wire.length
      = msg.bodyLength.tag.length + (decimal msg.mMsgBody.width).length + 2 := by
    rw [hlw]; simp; omega
  have hwire : msg1.wire = msg1.beginString.wire ++ (msg1.bodyLength.wire ++
      (t.wire ++ (wireEach body ++ msg1.checkSum.wire))) := by
    rw [FixMessage.wire_eq, hbody1, hbody]
    simp [wireEach, Tvp.wire]
  have hbodyl : (wireEach msg1.body).length = msg.mMsgBody.width := by
    rw [← hbodyw, FixMessage.mMsgBody, Tvp.width_eq, Tvp.wire]
  have hn : (msg1.wire.length : Int) = (msg1.beginString.width : Int)
      + (msg1.bodyLength.width : Int) + (msg.mMsgBody.width : Int) + 7 := by
    rw [FixMessage.wire_eq]
    simp only [List.length_append, hcsl, hbodyl, TvpStatic.static_width_eq]
    push_cast
    ring
  have hbw : msg1.beginString.width = msg.beginString.width := by rw [hb1]
  have hpeek := PeekMessage_wire msg1.beginString msg1.bodyLength t hdr
    (wireEach body ++ msg1.checkSum.wire ++ rest) (by rw [hb1]; exact hbset) hlset htset
    (by rw [hb1]; exact hbt) (by rw [hb1]; exact hbc) (by rw [hltag]; exact hlt)
    (by rw [hlu]; exact hlc) htt htc
  refine ⟨msg1, blit m dest msg1.wire, msg1.wire.length,
    ⟨hdr.beginString.received msg1.beginString, hdr.bodyLength.received msg1.bodyLength,
      hdr.messageType.received t⟩, hdump, ?_, ?_, ?_, ?_, ?_⟩
  · have hval : wrap INT_BITS ((msg1.beginString.width : Int) + (msg1.bodyLength.width : Int)
        + (msg.mMsgBody.width : Int) + 7) = (msg1.wire.length : Int) := by
      rw [hn]
      apply wrap_INT_BITS
      · omega
      · rw [TvpStatic.static_width_eq msg1.bodyLength, hlwl, hbw]
        push_cast
        omega
    rw [hget, hval] at hpeek
    have e : msg1.wire ++ rest = msg1.beginString.wire ++ (msg1.bodyLength.wire ++
        (t.wire ++ (wireEach body ++ msg1.checkSum.wire ++ rest))) := by
      rw [hwire]
      simp only [List.append_assoc]
    rw [peek_blit, e]
    exact hpeek
  · rw [hn, hget]
  · rw [hget, hbodyw]
  · rw [← Tvp.dumped_length, Tvp.dumped_eq, trailer_wire, hcsl]
  · rw [FixMessage.wire_length]

/-- The sample refresh: `dump` writes 50 bytes and `PeekMessage` returns 50. -/
theorem peeked_length_is_wire_length_witness :
    (0 < 1 ∧
     (decimal sampleRefresh.mMsgBody.width).length ≤ sampleRefresh.bodyLength.value.length ∧
     3 ≤ sampleRefresh.checkSum.value.length ∧
     (sampleRefresh.beginString.IsSet ∧ TvpStatic.IsSet ⟨[51, 53], [88], 1⟩) ∧
     sampleRefresh.checkSum.tag.length = 2) ∧
    (∃ msg1 m1 n hdr1, sampleRefresh.dump 1 (fun _ => 0) 0 true true = .ok (msg1, m1, n) ∧
      PeekMessage (peek m1 0 n ++ []) sampleInitials = .ok (hdr1, (n : Int)) ∧
      (n : Int) = (msg1.beginString.width : Int) + (msg1.bodyLength.width : Int)
        + TvpInteger.get INT_BITS msg1.bodyLength + 7 ∧
      TvpInteger.get INT_BITS msg1.bodyLength = (msg1.mMsgBody.width : Int) ∧
      msg1.mMsgTrailer.width = 7 ∧
      n = msg1.mMsgHeader.width + msg1.mMsgBody.width + msg1.mMsgTrailer.width) ∧
    (∃ msg1 m1, sampleRefresh.dump 1 (fun _ => 0) 0 true true = .ok (msg1, m1, 50) ∧
      peek m1 0 50 = sampleWire) ∧
    PeekMessage sampleWire sampleInitials = .ok (samplePeeked, 50) :=
  ⟨⟨by decide, by decide, by decide, by decide, by decide⟩,
   peeked_length_is_wire_length 1 sampleRefresh (fun _ => 0) 0 sampleInitials
     ⟨[51, 53], [88], 1⟩
     [.count ⟨[50, 54, 56], [50, 0], 1⟩,
      .vector (rowOf [⟨[49, 51, 50], [0, 0, 0, 0], 0⟩]) 2
        [rowOf [⟨[49, 51, 50], [49, 46, 53, 0], 3⟩], rowOf [⟨[49, 51, 50], [50, 50, 46, 48], 4⟩]]]
     [] (by decide) (by decide) (by decide) rfl (by decide) (by decide) (by decide)
     (by decide) (by decide),
   ⟨_, _, rfl, by decide⟩, by decide⟩

/-! ## `FixEngine::sendmsg` -/

/-- C28: `sendmsg(msg)` serialises the message with `dump(requestBuf, …)` (both flags are
`true` when the caller gives none). When `dump` returns a positive count that fits the
buffer, the transport's `send_message` is called once, with the bytes written and their
count, and its result is returned (as a `size_t`: unchanged when it is not negative);
when `dump` returns 0, `send_message` is not called and 0 is returned. -/
theorem sendmsg_delegates {σ μ : Type} (send_message : σ → List Nat → Int → σ × Int)
    (fuel : Nat) (msg msg1 : FixMessage) (m m1 : Mem) (requestBuf bytes : Nat) (s : σ)
    (updateBodyLen updateCheckSum : Bool)
    (hdump : msg.dump fuel m requestBuf updateBodyLen updateCheckSum = .ok (msg1, m1, bytes))
    (hfit : bytes ≤ FixEngine.requestBufSize) :
    (0 < bytes →
      FixEngine.sendmsg send_message fuel msg m requestBuf s updateBodyLen updateCheckSum
        = (.ok (((send_message s (peek m1 requestBuf bytes) bytes).2 % 2 ^ 64).toNat,
            msg1, m1, (send_message s (peek m1 requestBuf bytes) bytes).1,
            [.send_message (peek m1 requestBuf bytes) bytes]) :
          Except Fault (Nat × FixMessage × Mem × σ × List (Call μ))) ∧
      (0 ≤ (send_message s (peek m1 requestBuf bytes) bytes).2 →
        (send_message s (peek m1 requestBuf bytes) bytes).2 < 2 ^ 64 →
        ((((send_message s (peek m1 requestBuf bytes) bytes).2 % 2 ^ 64).toNat : Nat) : Int)
          = (send_message s (peek m1 requestBuf bytes) bytes).2)) ∧
    (bytes = 0 →
      FixEngine.sendmsg send_message fuel msg m requestBuf s updateBodyLen updateCheckSum
        = (.ok (0, msg1, m1, s, []) :
          Except Fault (Nat × FixMessage × Mem × σ × List (Call μ)))) := by
  constructor
  · intro hpos
    constructor
    · unfold FixEngine.sendmsg
      rw [hdump]
      simp only [gt_iff_lt, if_neg (show ¬ (FixEngine.requestBufSize < bytes) by omega),
        if_pos hpos]
    · intro h0 h1
      rw [Int.emod_eq_of_lt h0 h1]
      omega
  · intro h0
    unfold FixEngine.sendmsg
    rw [hdump]
    simp only [gt_iff_lt, if_neg (show ¬ (FixEngine.requestBufSize < bytes) by omega),
      if_neg (show ¬ (0 < bytes) by omega)]

/-- The sample refresh is sent as its 50 bytes to a transport that records what it is
given and reports the count; a message with no field set, dumped without the two
updates, is not sent. -/
theorem sendmsg_delegates_witness :
    ((0 < 50 ∧ 50 ≤ FixEngine.requestBufSize) ∧
      FixEngine.sendmsg (fun (s : List (List Nat)) b n => (s ++ [b], n)) 1 sampleRefresh
          (fun _ => 0) 0 [] true true
        = (.ok (50, sampleSent, blit (fun _ => 0) 0 sampleWire, [sampleWire],
            [.send_message sampleWire 50]) :
          Except Fault (Nat × FixMessage × Mem × List (List Nat) × List (Call Nat)))) ∧
    FixEngine.sendmsg (fun (s : List (List Nat)) b n => (s ++ [b], n)) 1 sampleEmpty
        (fun _ => 0) 0 [] false false
      = (.ok (0, sampleEmpty, blit (fun _ => 0) 0 [], [], []) :
          Except Fault (Nat × FixMessage × Mem × List (List Nat) × List (Call Nat))) :=
  ⟨⟨⟨by decide, by decide⟩,
    ((sendmsg_delegates (fun (s : List (List Nat)) b n => (s ++ [b], n)) 1 sampleRefresh
      sampleSent (fun _ => 0) (blit (fun _ => 0) 0 sampleWire) 0 50 [] true true
      (FixMessage.dump_both 1 sampleRefresh
        { sampleRefresh with bodyLength := ⟨[57], [50, 56, 0, 0], 2⟩, mBodyLen := 28 }
        sampleSent (fun _ => 0) 0 28 rfl rfl)
      (by decide)).1 (by decide)).1⟩,
   (sendmsg_delegates (fun (s : List (List Nat)) b n => (s ++ [b], n)) 1 sampleEmpty
      sampleEmpty (fun _ => 0) (blit (fun _ => 0) 0 []) 0 0 [] false false
      (FixMessage.dump_plain 1 sampleEmpty (fun _ => 0) 0) (by decide)).2 rfl⟩

/-! ## The reference count of the TLS context -/

theorem createMany_count (new : Option Nat) : ∀ (n : Nat) (s : SslCtx),
    0 ≤ s.FIXATE_SSL_CTX_COUNT → s.FIXATE_SSL_CTX_COUNT + n < 2 ^ 31 →
    (createMany new n s).FIXATE_SSL_CTX_COUNT = s.FIXATE_SSL_CTX_COUNT + n ∧
      (createMany new n s).freed = s.freed
  | 0, s, _, _ => by simp [createMany]
  | n + 1, s, h0, h1 => by
    have hw : wrap INT_BITS (s.FIXATE_SSL_CTX_COUNT + 1) = s.FIXATE_SSL_CTX_COUNT + 1 :=
      wrap_INT_BITS _ (by omega) (by push_cast at h1; omega)
    have hc : (ssl_ctx_create new s).1.FIXATE_SSL_CTX_COUNT = s.FIXATE_SSL_CTX_COUNT + 1 := by
      simp only [ssl_ctx_create]
      split <;> exact hw
    have hf : (ssl_ctx_create new s).1.freed = s.freed := by
      simp only [ssl_ctx_create]
      split <;> rfl
    obtain ⟨ih1, ih2⟩ := createMany_count new n (ssl_ctx_create new s).1
      (by rw [hc]; omega) (by rw [hc]; push_cast at h1; omega)
    rw [createMany, ih1, ih2, hc, hf]
    push_cast
    omega

theorem ssl_ctx_destroy_step (s : SslCtx) :
    (ssl_ctx_destroy s).FIXATE_SSL_CTX_COUNT = wrap INT_BITS (s.FIXATE_SSL_CTX_COUNT - 1) ∧
    (ssl_ctx_destroy s).freed = (if s.FIXATE_SSL_CTX_COUNT = 0 then s.freed + 1 else s.freed) ∧
    (ssl_ctx_destroy s).FIXATE_SSL_CTX_RAW = s.FIXATE_SSL_CTX_RAW := by
  unfold ssl_ctx_destroy
  by_cases h : s.FIXATE_SSL_CTX_COUNT = 0
  · simp [h]
  · simp [h]

theorem destroyMany_count : ∀ (n : Nat) (s : SslCtx),
    (n : Int) ≤ s.FIXATE_SSL_CTX_COUNT → s.FIXATE_SSL_CTX_COUNT < 2 ^ 31 →
    (destroyMany n s).FIXATE_SSL_CTX_COUNT = s.FIXATE_SSL_CTX_COUNT - n ∧
      (destroyMany n s).freed = s.freed
  | 0, s, _, _ => by simp [destroyMany]
  | n + 1, s, h0, h1 => by
    obtain ⟨hc, hf, _⟩ := ssl_ctx_destroy_step s
    have hw : wrap INT_BITS (s.FIXATE_SSL_CTX_COUNT - 1) = s.FIXATE_SSL_CTX_COUNT - 1 :=
      wrap_INT_BITS _ (by push_cast at h0; omega) (by omega)
    rw [hw] at hc
    rw [if_neg (by push_cast at h0; omega)] at hf
    obtain ⟨ih1, ih2⟩ := destroyMany_count n (ssl_ctx_destroy s)
      (by rw [hc]; push_cast at h0; omega) (by rw [hc]; omega)
    rw [destroyMany, ih1, ih2, hc, hf]
    push_cast
    omega

/-- C31: `ssl_ctx_destroy` decrements `FIXATE_SSL_CTX_COUNT` on every call and calls
`SSL_CTX_free` exactly when it finds the counter at 0. From the initial state (counter 0,
nothing freed), `n ≥ 1` creates followed by `n` destroys leave the counter at 0 with the
context not freed; one more destroy frees it and leaves the counter at -1. -/
theorem tls_context_count (SSL_CTX_new : Option Nat) (n : Nat) (s : SslCtx)
    (hn : 1 ≤ n) (hint : n < 2 ^ 31) :
    (ssl_ctx_destroy s).FIXATE_SSL_CTX_COUNT = wrap INT_BITS (s.FIXATE_SSL_CTX_COUNT - 1) ∧
    ((ssl_ctx_destroy s).freed = s.freed + 1 ↔ s.FIXATE_SSL_CTX_COUNT = 0) ∧
    (s.FIXATE_SSL_CTX_COUNT ≠ 0 → (ssl_ctx_destroy s).freed = s.freed) ∧
    (createMany SSL_CTX_new n {}).FIXATE_SSL_CTX_COUNT = n ∧
    (destroyMany n (createMany SSL_CTX_new n {})).freed = 0 ∧
    (destroyMany n (createMany SSL_CTX_new n {})).FIXATE_SSL_CTX_COUNT = 0 ∧
    (destroyMany (n + 1) (createMany SSL_CTX_new n {})).freed = 1 ∧
    (destroyMany (n + 1) (createMany SSL_CTX_new n {})).FIXATE_SSL_CTX_COUNT = -1 := by
  obtain ⟨hc, hf, _⟩ := ssl_ctx_destroy_step s
  obtain ⟨c1, c2⟩ := createMany_count SSL_CTX_new n {} (by decide)
    (by show (0 : Int) + n < 2 ^ 31; push_cast; omega)
  have c1n : (createMany SSL_CTX_new n {}).FIXATE_SSL_CTX_COUNT = n := by
    rw [c1]; show (0 : Int) + n = n; omega
  have c2n : (createMany SSL_CTX_new n {}).freed = 0 := c2
  obtain ⟨d1, d2⟩ := destroyMany_count n (createMany SSL_CTX_new n {})
    (by rw [c1n]) (by rw [c1n]; push_cast; omega)
  rw [c1n] at d1
  rw [c2n] at d2
  have d1z : (destroyMany n (createMany SSL_CTX_new n {})).FIXATE_SSL_CTX_COUNT = 0 := by
    rw [d1]; omega
  have hlast : ∀ (k : Nat) (t : SslCtx), destroyMany (k + 1) t = ssl_ctx_destroy (destroyMany k t) := by
    intro k
    induction k with
    | zero => intro t; rfl
    | succ k ih => intro t; rw [destroyMany, ih (ssl_ctx_destroy t)]; rfl
  obtain ⟨e1, e2, _⟩ := ssl_ctx_destroy_step (destroyMany n (createMany SSL_CTX_new n {}))
  refine ⟨hc, ?_, ?_, c1n, d2, d1z, ?_, ?_⟩
  · rw [hf]
    by_cases h : s.FIXATE_SSL_CTX_COUNT = 0
    · simp [h]
    · simp [h]
  · intro h
    rw [hf, if_neg h]
  · rw [hlast, e2, d1z, d2]
    rfl
  · rw [hlast, e1, d1z]
    decide

/-- Three clients created and destroyed: the counter is back at 0 and nothing was
freed; a fourth destroy frees the context and leaves the counter at -1. -/
theorem tls_context_count_witness :
    (1 ≤ 3 ∧ 3 < 2 ^ 31) ∧
    destroyMany 3 (createMany (some 1) 3 {}) = ⟨0, some 1, 0⟩ ∧
    destroyMany 4 (createMany (some 1) 3 {}) = ⟨-1, some 1, 1⟩ ∧
    (destroyMany 3 (createMany (some 1) 3 {})).freed = 0 :=
  ⟨⟨by decide, by decide⟩, by decide, by decide,
   (tls_context_count (some 1) 3 {} (by decide) (by decide)).2.2.2.2.1⟩

/-! ## `atod` on arbitrary bytes -/

theorem isDigit_iff (c : Nat) : isDigit c = true ↔ 0 ≤ (c : Int) - 48 ∧ (c : Int) - 48 ≤ 9 := by
  unfold isDigit
  rw [decide_eq_true_iff]
  omega

theorem atodFrac_isSome : ∀ (l : List Nat) (val : Frac) (divisor : Nat),
    (atodFrac l val divisor).isSome = l.all isDigit
  | [], _, _ => rfl
  | c :: rest, val, divisor => by
    by_cases h : 0 ≤ (c : Int) - 48 ∧ (c : Int) - 48 ≤ 9
    · have hd : isDigit c = true := (isDigit_iff c).mpr h
      simp only [atodFrac, if_pos h, List.all_cons, hd, Bool.true_and]
      exact atodFrac_isSome rest _ _
    · have hd : isDigit c = false := by
        rw [← Bool.not_eq_true, isDigit_iff]; exact h
      simp only [atodFrac, if_neg h, List.all_cons, hd, Bool.false_and]
      rfl

theorem atodInt_dropWhile : ∀ (l : List Nat) (val : Frac),
    (match l.dropWhile isDigit with
      | [] => ∃ v, atodInt l val = some (v, [])
      | c :: rest => if c = 46 then ∃ v, atodInt l val = some (v, rest)
          else atodInt l val = none)
  | [], val => ⟨val, rfl⟩
  | c :: rest, val => by
    by_cases h : 0 ≤ (c : Int) - 48 ∧ (c : Int) - 48 ≤ 9
    · have hd : isDigit c = true := (isDigit_iff c).mpr h
      simp only [List.dropWhile_cons, hd, if_true, atodInt, if_pos h]
      exact atodInt_dropWhile rest _
    · have hd : isDigit c = false := by
        rw [← Bool.not_eq_true, isDigit_iff]; exact h
      simp only [List.dropWhile_cons, hd, atodInt, if_neg h]
      by_cases h46 : c = 46
      · simp [h46]
      · simp [h46]

theorem atod_isSome (s : List Nat) : (atod s).isSome = isFloatText s := by
  have hitr : (if (if s.head? = some MINUS then (-1 : Int) else 1) = 1 then s else s.drop 1)
      = (if s.head? = some MINUS then s.drop 1 else s) := by
    by_cases h : s.head? = some MINUS
    · simp [h]
    · simp [h]
  unfold atod isFloatText
  simp only [hitr]
  have hI := atodInt_dropWhile (if s.head? = some MINUS then s.drop 1 else s) ⟨0, 1⟩
  cases hdw : (if s.head? = some MINUS then s.drop 1 else s).dropWhile isDigit with
  | nil =>
    rw [hdw] at hI
    obtain ⟨v, hv⟩ := hI
    simp only [hv, atodFrac]
    rfl
  | cons c rest =>
    rw [hdw] at hI
    simp only [] at hI ⊢
    by_cases h46 : c = 46
    · rw [if_pos h46] at hI
      obtain ⟨v, hv⟩ := hI
      simp only [hv, h46, decide_True, Bool.true_and]
      rw [← atodFrac_isSome rest v 10]
      cases atodFrac rest v 10 <;> rfl
    · rw [if_neg h46] at hI
      simp only [hI, h46, decide_False, Bool.false_and]
      rfl

/-- C32: for every non-empty byte range `s`, `atod` returns true exactly when `s` is an
optional leading `'-'`, then zero or more digits, then optionally a single `'.'`
followed by zero or more digits; when it returns false (any other byte, a second
`'.'` included) the output variable keeps its value. -/
theorem float_decode_acceptance (s : List Nat) (output : Frac) (_hs : s ≠ []) :
    ((atodOutput s output).1 = true ↔ isFloatText s = true) ∧
    ((atodOutput s output).1 = false → (atodOutput s output).2 = output) := by
  have h := atod_isSome s
  unfold atodOutput
  cases ha : atod s with
  | none =>
    rw [ha] at h
    simp only []
    refine ⟨⟨fun hf => absurd hf (by simp), fun hf => ?_⟩, fun _ => trivial⟩
    rw [← h] at hf
    exact absurd hf (by simp)
  | some v =>
    rw [ha] at h
    simp only []
    exact ⟨⟨fun _ => h.symm, fun _ => trivial⟩, fun hf => absurd hf (by simp)⟩

/-- The text `-12.5` is accepted, with value -125/10; `1.2.3`, `--1` and `4x` are refused and
leave the output variable at 7; `-`, `.` and `5.` are accepted. -/
theorem float_decode_acceptance_witness :
    ([45, 49, 50, 46, 53] ≠ [] ∧
      ((atodOutput [45, 49, 50, 46, 53] ⟨7, 1⟩).1 = true ↔
        isFloatText [45, 49, 50, 46, 53] = true)) ∧
    atodOutput [45, 49, 50, 46, 53] ⟨7, 1⟩ = (true, ⟨-125, 10⟩) ∧
    atodOutput [49, 46, 50, 46, 51] ⟨7, 1⟩ = (false, ⟨7, 1⟩) ∧
    atodOutput [45, 45, 49] ⟨7, 1⟩ = (false, ⟨7, 1⟩) ∧
    atodOutput [52, 120] ⟨7, 1⟩ = (false, ⟨7, 1⟩) ∧
    (atodOutput [45] ⟨7, 1⟩).1 = true ∧ (atodOutput [46] ⟨7, 1⟩).1 = true ∧
    (atodOutput [53, 46] ⟨7, 1⟩).1 = true ∧
    isFloatText [49, 46, 50, 46, 51] = false ∧ isFloatText [45] = true :=
  ⟨⟨by decide, (float_decode_acceptance [45, 49, 50, 46, 53] ⟨7, 1⟩ (by decide)).1⟩,
   by decide, by decide, by decide, by decide, by decide, by decide, by decide, by decide,
   by decide⟩

/-! ## What `parse` leaves behind -/

theorem TvpStatic.parse_unmatched (f : TvpStatic) (pd : TvpParseData)
    (h : pd.buffer.take f.TagSize ≠ f.tag) : f.parse pd = .ok (f, pd, 0) := by
  unfold TvpStatic.parse
  simp only [if_pos h]

theorem TvpDynamic.dynamic_parse_unmatched (g : TvpDynamic) (pd : TvpParseData)
    (h : pd.buffer.take g.TagSize ≠ g.tag) : g.parse pd = .ok (g, pd, 0) := by
  unfold TvpDynamic.parse
  simp only [if_pos h]

theorem countParse_unmatched (f : TvpStatic) (pd : TvpParseData)
    (h : pd.buffer.take f.TagSize ≠ f.tag) : countParse f pd = .ok (f, pd, 0) := by
  unfold countParse
  rw [TvpStatic.parse_unmatched f pd h]
  simp

/-- C33: a field (`TvpStatic`, `TvpDynamic` or a count field) whose tag is not at the
cursor returns 0 and is left exactly as it was, value and logical length, with the
cursor where it was; and in a group, where the members `pre` before such a field have
been parsed and the members `post` after it are parsed from the same cursor, the field
is in the group afterwards as it was before. -/
theorem stale_fields_survive (f : TvpStatic) (g : TvpDynamic) (pd : TvpParseData)
    (pre post : List Tvp) :
    (pd.buffer.take f.TagSize ≠ f.tag → f.parse pd = .ok (f, pd, 0)) ∧
    (pd.buffer.take g.TagSize ≠ g.tag → g.parse pd = .ok (g, pd, 0)) ∧
    (pd.buffer.take f.TagSize ≠ f.tag → (Tvp.count f).parse pd = .ok (.count f, pd, 0)) ∧
    (∀ pre1 pd1 r1 post1 pd2 r2, parse_impl pre pd = .ok (pre1, pd1, r1) →
      pd1.buffer.take f.TagSize ≠ f.tag → parse_impl post pd1 = .ok (post1, pd2, r2) →
      parse_impl (pre ++ .static f :: post) pd
        = .ok (pre1 ++ .static f :: post1, pd2, r1 + r2)) := by
  refine ⟨TvpStatic.parse_unmatched f pd, TvpDynamic.dynamic_parse_unmatched g pd, ?_, ?_⟩
  · intro h
    rw [Tvp.parse_count, countParse_unmatched f pd h]
  · intro pre1 pd1 r1 post1 pd2 r2 hpre hf hpost
    rw [parse_impl_append, hpre]
    simp only []
    rw [parse_impl_cons]
    simp only [Tvp.parse]
    rw [TvpStatic.parse_unmatched f pd1 hf]
    simp only []
    rw [hpost]
    simp

/-- The group `35`, `49`, `56` parses `35=X|56=T|`. With `49=A` stored before, `49=A`
is stored afterwards; with `49=B` stored before, `49=B`: the same bytes give two
different states. -/
theorem stale_fields_survive_witness :
    TvpGroup.parse [.static ⟨[51, 53], [0], 0⟩, .static ⟨[52, 57], [65], 1⟩,
        .static ⟨[53, 54], [0], 0⟩] [51, 53, 61, 88, 1, 53, 54, 61, 84, 1]
      = .ok ([.static ⟨[51, 53], [88], 1⟩, .static ⟨[52, 57], [65], 1⟩,
          .static ⟨[53, 54], [84], 1⟩], 10) ∧
    TvpGroup.parse [.static ⟨[51, 53], [0], 0⟩, .static ⟨[52, 57], [66], 1⟩,
        .static ⟨[53, 54], [0], 0⟩] [51, 53, 61, 88, 1, 53, 54, 61, 84, 1]
      = .ok ([.static ⟨[51, 53], [88], 1⟩, .static ⟨[52, 57], [66], 1⟩,
          .static ⟨[53, 54], [84], 1⟩], 10) ∧
    parse_impl ([.static ⟨[51, 53], [0], 0⟩] ++ .static ⟨[52, 57], [65], 1⟩ ::
        [.static ⟨[53, 54], [0], 0⟩]) ⟨[51, 53, 61, 88, 1, 53, 54, 61, 84, 1], -1⟩
      = .ok ([.static ⟨[51, 53], [88], 1⟩] ++ .static ⟨[52, 57], [65], 1⟩ ::
          [.static ⟨[53, 54], [84], 1⟩], ⟨[], -1⟩, 5 + 5) :=
  ⟨rfl, rfl,
   (stale_fields_survive ⟨[52, 57], [65], 1⟩ ⟨[], [], 0⟩
      ⟨[51, 53, 61, 88, 1, 53, 54, 61, 84, 1], -1⟩ [.static ⟨[51, 53], [0], 0⟩]
      [.static ⟨[53, 54], [0], 0⟩]).2.2.2 [.static ⟨[51, 53], [88], 1⟩]
      ⟨[53, 54, 61, 84, 1], -1⟩ 5 [.static ⟨[53, 54], [84], 1⟩] ⟨[], -1⟩ 5 rfl (by decide) rfl⟩

/-! ## `TvpDynamic::parse` on an encoded field -/

theorem TvpDynamic.dynamic_parseLoop_eq : ∀ (v rest value : List Nat) (bR : Nat), SEPARATOR ∉ v →
    TvpDynamic.parseLoop (v ++ SEPARATOR :: rest) value bR = .ok (value ++ v, bR + v.length)
  | [], rest, value, bR, _ => by simp [TvpDynamic.parseLoop]
  | c :: v, rest, value, bR, h => by
    have hc : c ≠ SEPARATOR := fun e => h (by simp [e])
    have hv : SEPARATOR ∉ v := fun e => h (by simp [e])
    rw [List.cons_append, TvpDynamic.parseLoop, if_neg hc,
      TvpDynamic.dynamic_parseLoop_eq v rest (value ++ [c]) (bR + 1) hv]
    simp
    omega

theorem firstN_append_left (a b : List Nat) (n : Nat) (h : n ≤ a.length) :
    firstN (a ++ b) n = firstN a n := by
  rw [firstN_eq_take _ _ (by simp; omega), firstN_eq_take _ _ h, List.take_append_of_le_length h]

/-- C34: a `TvpDynamic` whose stored string is `s` (`g.value`) parses `tag = v SOH` (`v`
without `SOH`): the stored string becomes `s` followed by `v`, `ValueSize` stays as it was,
the cursor moves past the field and the count of its bytes is returned. `width()` is
unchanged, and so are `sum()`, `dump()` and `get()` when `ValueSize` is within `s`:
they go by the first `ValueSize` bytes. -/
theorem dynamic_parse_appends (g : TvpDynamic) (v rest : List Nat) (meta : Int)
    (hv : SEPARATOR ∉ v) :
    g.parse ⟨g.tag ++ [ASSIGN] ++ v ++ [SEPARATOR] ++ rest, meta⟩
      = .ok ({ g with value := g.value ++ v }, ⟨rest, meta⟩, g.TagSize + 1 + v.length + 1) ∧
    ({ g with value := g.value ++ v } : TvpDynamic).ValueSize = g.ValueSize ∧
    ({ g with value := g.value ++ v } : TvpDynamic).width = g.width ∧
    (g.ValueSize ≤ g.value.length →
      ({ g with value := g.value ++ v } : TvpDynamic).sum = g.sum ∧
      (∀ m dest, ({ g with value := g.value ++ v } : TvpDynamic).dump m dest = g.dump m dest) ∧
      TvpStringDynamic.get { g with value := g.value ++ v } = TvpStringDynamic.get g) := by
  refine ⟨?_, rfl, rfl, ?_⟩
  · unfold TvpDynamic.parse TvpDynamic.TagSize
    have htake : (g.tag ++ [ASSIGN] ++ v ++ [SEPARATOR] ++ rest).take g.tag.length = g.tag := by
      simp [List.append_assoc, List.take_left']
    have hdrop : (g.tag ++ [ASSIGN] ++ v ++ [SEPARATOR] ++ rest).drop (0 + (g.tag.length + 1))
        = v ++ SEPARATOR :: rest := by
      have : g.tag ++ [ASSIGN] ++ v ++ [SEPARATOR] ++ rest
          = (g.tag ++ [ASSIGN]) ++ (v ++ SEPARATOR :: rest) := by simp
      rw [this, Nat.zero_add, List.drop_left' (by simp)]
    simp only [htake, ne_eq, not_true_eq_false, if_false, hdrop]
    rw [TvpDynamic.dynamic_parseLoop_eq v rest g.value _ hv]
    simp only []
    have hdrop2 : (g.tag ++ [ASSIGN] ++ v ++ [SEPARATOR] ++ rest).drop
        (0 + (g.tag.length + 1) + v.length + 1) = rest := by
      have : g.tag ++ [ASSIGN] ++ v ++ [SEPARATOR] ++ rest
          = (g.tag ++ [ASSIGN] ++ v ++ [SEPARATOR]) ++ rest := by simp
      rw [this, List.drop_left' (by simp; omega)]
    rw [hdrop2]
    simp
  · intro hle
    have hw : TvpDynamic.wire { g with value := g.value ++ v } = g.wire := by
      unfold TvpDynamic.wire fieldWire
      simp only []
      rw [firstN_append_left _ _ _ hle]
    refine ⟨?_, ?_, ?_⟩
    · rw [TvpDynamic.dynamic_sum_eq, TvpDynamic.dynamic_sum_eq, hw]
    · intro m dest
      rw [TvpDynamic.dynamic_dump_eq, TvpDynamic.dynamic_dump_eq, hw]
    · simp [TvpStringDynamic.get, List.take_append_of_le_length hle]

/-- The field `58` holding `Hi` (`ValueSize` 2) parses `58=Yo|`: it holds `HiYo` with
`ValueSize` 2, and `get()` still returns `Hi`. -/
theorem dynamic_parse_appends_witness :
    SEPARATOR ∉ [89, 111] ∧
    TvpDynamic.parse ⟨[53, 56], [72, 105], 2⟩
        ⟨[53, 56] ++ [ASSIGN] ++ [89, 111] ++ [SEPARATOR] ++ [], -1⟩
      = .ok ({ (⟨[53, 56], [72, 105], 2⟩ : TvpDynamic) with value := [72, 105] ++ [89, 111] },
          ⟨[], -1⟩, TvpDynamic.TagSize ⟨[53, 56], [72, 105], 2⟩ + 1 + [89, 111].length + 1) ∧
    TvpStringDynamic.get ⟨[53, 56], [72, 105, 89, 111], 2⟩ = [72, 105] :=
  ⟨by decide,
   (dynamic_parse_appends ⟨[53, 56], [72, 105], 2⟩ [89, 111] [] (-1) (by decide)).1,
   by decide⟩

/-- C39: a fixed-width field parses `tag = SOH`, an empty value: it returns `TagSize + 2`,
the cursor moves past these bytes, and `usedLen` is 0 (the value array is untouched);
afterwards `width()` is 0 and `dump` writes nothing and returns 0, so the `TagSize + 2`
bytes of the input are not reproduced. -/
theorem empty_value_parse (g : TvpStatic) (rest : List Nat) (meta : Int) (m : Mem)
    (dest : Nat) :
    g.parse ⟨g.tag ++ [ASSIGN] ++ [SEPARATOR] ++ rest, meta⟩
      = .ok ({ g with usedLen := 0 }, ⟨rest, meta⟩, g.TagSize + 2) ∧
    ({ g with usedLen := 0 } : TvpStatic).width = 0 ∧
    ({ g with usedLen := 0 } : TvpStatic).dump m dest = (m, 0) ∧
    (Tvp.static { g with usedLen := 0 }).dumped = [] ∧
    0 < (g.tag ++ [ASSIGN] ++ [SEPARATOR]).length := by
  refine ⟨?_, by simp [TvpStatic.width], by simp [TvpStatic.dump], ?_, by simp⟩
  · have h := TvpStatic.parse_encoded g [] rest meta (by simp) (by simp)
    simp only [List.append_nil, List.length_nil, List.drop_zero, List.nil_append] at h
    rw [h]
    simp [TvpStatic.TagSize]
  · rw [Tvp.dumped_eq]
    simp [Tvp.wire, TvpStatic.wire, fieldWire]

/-- The field `58` holding `abc` parses `58=|`: 4 bytes consumed, `usedLen` 0. -/
theorem empty_value_example :
    TvpStatic.parse ⟨[53, 56], [97, 98, 99, 0], 3⟩ ⟨[53, 56, 61, 1, 49, 48, 61], -1⟩
      = .ok (⟨[53, 56], [97, 98, 99, 0], 0⟩, ⟨[49, 48, 61], -1⟩, 4) ∧
    TvpStatic.width ⟨[53, 56], [97, 98, 99, 0], 0⟩ = 0 := by
  decide

/-! ## The dispatched length -/

/-- C35 at `9=-23`: on the 40 buffered bytes `8=FIX.4.4|9=-23|35=0|58=abcdefghijklmno|`
the peeked length is 10 + 6 - 23 + 7 = 0; `perform` invokes the visitor with length 0
and calls `move_head(0)`, leaving the transport as it was, so every further call does
the same. On `negativeLengthWire` (`9=-100`) the length passed is -76. A buffer that
does not start with the `BeginString` tag peeks to 7. -/
theorem dispatched_length_not_positive :
    PeekMessage zeroLengthWire sampleInitials
      = .ok (⟨⟨[56], [70, 73, 88, 46, 52, 46, 52, 0, 0, 0, 0, 0, 0, 0, 0, 0], 7⟩,
          ⟨[57], [45, 50, 51, 0], 3⟩, ⟨[51, 53], [48], 1⟩⟩, 0) ∧
    FixEngine.perform Ring.dataSource (id : List Nat → List Nat) sampleInitials
        ⟨zeroLengthWire, 0, 40⟩
      = .ok (false, ⟨zeroLengthWire, 0, 40⟩, [.visitor [48] 0 0, .move_head 0]) ∧
    FixEngine.perform Ring.dataSource (id : List Nat → List Nat) sampleInitials
        ⟨negativeLengthWire, 0, 40⟩
      = .ok (false, Ring.dataSource.move_head ⟨negativeLengthWire, 0, 40⟩ (-76),
          [.visitor [48] 0 (-76), .move_head (-76)]) ∧
    PeekMessage (List.replicate 40 65) sampleInitials = .ok (sampleInitials, 7) :=
  ⟨by decide, by decide, by decide, by decide⟩

/-! ## The cached body length -/

/-- C36: when `FixMessage::parse` returns, `getBodyLength()` returns what it returned
before the call, whatever `BodyLength` was parsed into the header. -/
theorem parse_keeps_cached_body_length (msg msg1 : FixMessage) (src : List Nat) (n : Nat)
    (h : msg.parse src = .ok (msg1, n)) : msg1.getBodyLength = msg.getBodyLength := by
  unfold FixMessage.parse at h
  split at h
  · simp only [] at h
    split at h
    · cases h
    · split at h
      · simp only [Except.ok.injEq, Prod.mk.injEq] at h
        rw [← h.1]
        rfl
      · cases h
      · cases h
  · cases h
  · cases h

/-- The fresh sample message parses the 50 bytes of `sampleWire`, whose header says
`9=28`: the header field holds 28 and `getBodyLength()` is still 0. -/
theorem parse_keeps_cached_body_length_witness :
    sampleFresh.parse sampleWire = .ok (sampleParsed, 50) ∧
    sampleParsed.getBodyLength = sampleFresh.getBodyLength ∧
    sampleFresh.getBodyLength = 0 ∧
    TvpInteger.get INT_BITS sampleParsed.bodyLength = 28 :=
  ⟨rfl, parse_keeps_cached_body_length sampleFresh sampleParsed sampleWire 50 rfl,
   by decide, by decide⟩

/-! ## Finalising twice -/

theorem FixMessage.updateBodyLength_fixed (fuel : Nat) (msg : FixMessage) (h0 : 0 < fuel)
    (hu : msg.bodyLength.usedLen = (decimal msg.mMsgBody.width).length)
    (hv : msg.bodyLength.value.take (decimal msg.mMsgBody.width).length
      = decimal msg.mMsgBody.width)
    (hm : msg.mBodyLen = msg.mMsgBody.width) :
    msg.updateBodyLength fuel = .ok (msg, msg.mMsgBody.width) := by
  have hlen : (decimal msg.mMsgBody.width).length ≤ msg.bodyLength.value.length := by
    have := congrArg List.length hv
    simp only [List.length_take] at this
    omega
  rw [FixMessage.updateBodyLength_eq fuel msg h0 hlen]
  have hval : decimal msg.mMsgBody.width
      ++ msg.bodyLength.value.drop (decimal msg.mMsgBody.width).length
      = msg.bodyLength.value := by
    nth_rewrite 1 [← hv]
    exact List.take_append_drop _ _
  rw [hval, ← hu, ← hm]

theorem FixMessage.updateCheckSum_fixed (msg : FixMessage)
    (hu : msg.checkSum.usedLen = 3)
    (hv : msg.checkSum.value.take 3
      = [ZERO + msg.checksumOf / 100, ZERO + msg.checksumOf / 10 % 10,
          ZERO + msg.checksumOf % 10]) :
    msg.updateCheckSum = .ok msg := by
  have hlen : 3 ≤ msg.checkSum.value.length := by
    have := congrArg List.length hv
    simp only [List.length_take, List.length_cons, List.length_nil] at this
    omega
  unfold FixMessage.updateCheckSum
  simp only []
  rw [CheckSum.set_eq _ _ hlen]
  have hval : [ZERO + msg.checksumOf / 100, ZERO + msg.checksumOf / 10 % 10,
      ZERO + msg.checksumOf % 10] ++ msg.checkSum.value.drop 3 = msg.checkSum.value := by
    rw [← hv]
    exact List.take_append_drop _ _
  rw [hval, ← hu]

/-- C37: let `msg1` be the message after `dump(dest, true, true)`, which runs
`updateBodyLength` and then `updateCheckSum`. Running `updateBodyLength` on `msg1` leaves
`msg1` as it is (header, body, trailer and cached body length), and so does
`updateCheckSum`; a second `dump(dest2, true, true)` returns the same count and writes
the same bytes. -/
theorem finalisation_idempotent (fuel : Nat) (msg : FixMessage) (m : Mem) (dest : Nat)
    (m2 : Mem) (dest2 : Nat)
    (hfuel : 0 < fuel)
    (hlen : (decimal msg.mMsgBody.width).length ≤ msg.bodyLength.value.length)
    (hsum : 3 ≤ msg.checkSum.value.length) :
    ∃ msg1 m1 n, msg.dump fuel m dest true true = .ok (msg1, m1, n) ∧
      msg1.updateBodyLength fuel = .ok (msg1, msg1.getBodyLength) ∧
      msg1.updateCheckSum = .ok msg1 ∧
      ∃ m3, msg1.dump fuel m2 dest2 true true = .ok (msg1, m3, n) ∧
        peek m3 dest2 n = peek m1 dest n := by
  obtain ⟨msgL, hL, hLb, hLbody, hLc, hLm, hLt, hLu, hLv⟩ :=
    FixMessage.updateBodyLength_spec fuel msg hfuel hlen
  obtain ⟨msg1, h1, _, h1b, h1l, h1body, h1m, h1t, h1u, h1v⟩ :=
    FixMessage.updateCheckSum_spec msgL (by rw [hLc]; exact hsum)
  have hbody : msg1.mMsgBody = msg.mMsgBody :=
    (FixMessage.body_congr msg1 msgL h1body).trans (FixMessage.body_congr msgL msg hLbody)
  have hcs : msg1.checksumOf = msgL.checksumOf := by
    unfold FixMessage.checksumOf
    rw [FixMessage.header_congr msg1 msgL h1b h1l, FixMessage.body_congr msg1 msgL h1body]
  have hup1 : msg1.updateBodyLength fuel = .ok (msg1, msg1.mMsgBody.width) := by
    apply FixMessage.updateBodyLength_fixed fuel msg1 hfuel
    · rw [hbody, h1l, hLu]
    · rw [hbody, h1l, hLv, List.take_left]
    · rw [hbody, h1m, hLm]
  have hup2 : msg1.updateCheckSum = .ok msg1 := by
    apply FixMessage.updateCheckSum_fixed msg1 h1u
    rw [hcs, h1v]
    rfl
  have hget : msg1.getBodyLength = msg1.mMsgBody.width := by
    unfold FixMessage.getBodyLength
    rw [hbody, h1m, hLm]
  have hd1 := FixMessage.dump_both fuel msg msgL msg1 m dest _ hL h1
  have hd2 := FixMessage.dump_both fuel msg1 msg1 msg1 m2 dest2 _ hup1 hup2
  refine ⟨msg1, _, _, hd1, by rw [hget]; exact hup1, hup2, _, hd2, ?_⟩
  rw [← Tvp.dumped_length, ← Tvp.dumped_length, ← Tvp.dumped_length, ← List.length_append,
    ← List.length_append, peek_blit, peek_blit]

/-- The sample refresh, finalised twice: both dumps return 50. -/
theorem finalisation_idempotent_witness :
    (0 < 1 ∧
     (decimal sampleRefresh.mMsgBody.width).length ≤ sampleRefresh.bodyLength.value.length ∧
     3 ≤ sampleRefresh.checkSum.value.length) ∧
    (∃ msg1 m1 n, sampleRefresh.dump 1 (fun _ => 0) 0 true true = .ok (msg1, m1, n) ∧
      msg1.updateBodyLength 1 = .ok (msg1, msg1.getBodyLength) ∧
      msg1.updateCheckSum = .ok msg1 ∧
      ∃ m3, msg1.dump 1 (fun _ => 7) 100 true true = .ok (msg1, m3, n) ∧
        peek m3 100 n = peek m1 0 n) ∧
    sampleSent.updateBodyLength 1 = .ok (sampleSent, 28) ∧
    sampleSent.updateCheckSum = .ok sampleSent :=
  ⟨⟨by decide, by decide, by decide⟩,
   finalisation_idempotent 1 sampleRefresh (fun _ => 0) 0 (fun _ => 7) 100 (by decide)
     (by decide) (by decide),
   rfl, rfl⟩

/-! ## The unit of a parsed timestamp -/

theorem charToInt_digit (signed : Bool) (b : Nat) (h : 48 ≤ b ∧ b ≤ 57) :
    charToInt signed b = (b : Int) := by
  unfold charToInt
  have hb : b % 256 = b := Nat.mod_eq_of_lt (by omega)
  rw [hb, if_neg (by omega)]
  omega

theorem digitsAt_digits (signed : Bool) (src : List Nat) : ∀ (k i : Nat) (x : Int),
    k ≤ 9 → 0 ≤ x → x < 10 ^ (9 - k) → i + k ≤ src.length →
    (∀ c ∈ (src.drop i).take k, 48 ≤ c ∧ c ≤ 57) →
    digitsAt signed src x i k = digitsValue x ((src.drop i).take k)
  | 0, i, x, _, _, _, _, _ => by simp [digitsAt, digitsValue]
  | k + 1, i, x, hk, h0, hx, hlen, hd => by
    have hi : i < src.length := by omega
    have hsplit : (src.drop i).take (k + 1) = src[i] :: (src.drop (i + 1)).take k := by
      rw [List.drop_eq_getElem_cons hi, List.take_succ_cons]
    have hget : src.getD i 0 = src[i] := by
      simp [List.getD_eq_getElem?_getD, List.getElem?_eq_getElem hi]
    have hc : 48 ≤ src[i] ∧ src[i] ≤ 57 := hd _ (by rw [hsplit]; simp)
    have hpow : (10 : Int) ^ (9 - k) = 10 * 10 ^ (9 - (k + 1)) := by
      rw [show 9 - k = (9 - (k + 1)) + 1 by omega, pow_succ]
      ring
    have hle9 : (10 : Int) ^ (9 - k) ≤ 10 ^ 9 :=
      pow_le_pow_right₀ (by norm_num) (by omega)
    have hnew : 10 * x + ((src[i] : Nat) : Int) - 48 < 10 ^ (9 - k) := by
      rw [hpow]
      omega
    have hw : wrap INT_BITS (10 * x + ((src[i] : Nat) : Int) - 48)
        = 10 * x + ((src[i] : Nat) : Int) - 48 :=
      wrap_INT_BITS _ (by omega) (by
        have : (10 : Int) ^ 9 < 2147483648 := by norm_num
        omega)
    rw [digitsAt, hget, charToInt_digit signed _ hc, hw, hsplit, digitsValue,
      digitsAt_digits signed src k (i + 1) _ (by omega) (by omega) (by
        rw [show 9 - k = 9 - k from rfl]; exact hnew) (by omega)
        (fun c hcm => hd c (by rw [hsplit]; exact List.mem_cons_of_mem _ hcm))]
    congr 1
    ring

theorem digitsValue_bound : ∀ (l : List Nat) (x : Int), 0 ≤ x →
    (∀ c ∈ l, 48 ≤ c ∧ c ≤ 57) →
    0 ≤ digitsValue x l ∧ digitsValue x l < (x + 1) * 10 ^ l.length
  | [], x, h0, _ => by simp [digitsValue]; omega
  | c :: l, x, h0, hd => by
    have hc := hd c (by simp)
    obtain ⟨ih0, ih1⟩ := digitsValue_bound l (10 * x + ((c : Int) - 48)) (by omega)
      (fun d hdm => hd d (List.mem_cons_of_mem _ hdm))
    refine ⟨ih0, ?_⟩
    rw [digitsValue, List.length_cons, pow_succ]
    have hp : (0 : Int) < 10 ^ l.length := by positivity
    have : (10 * x + ((c : Int) - 48) + 1) * 10 ^ l.length ≤ (x + 1) * (10 ^ l.length * 10) := by
      have h1 : 10 * x + ((c : Int) - 48) + 1 ≤ 10 * (x + 1) := by omega
      calc (10 * x + ((c : Int) - 48) + 1) * 10 ^ l.length
          ≤ (10 * (x + 1)) * 10 ^ l.length := by
            exact mul_le_mul_of_nonneg_right h1 (le_of_lt hp)
        _ = (x + 1) * (10 ^ l.length * 10) := by ring
    omega

theorem strtepoch_unit_fraction (signed : Bool) (src : List Nat) (size : Int) (f : tm → Int)
    (k : Nat) (hk : k = 3 ∨ k = 6 ∨ k = 9)
    (hs : -(9 * 10 ^ 9) < f (stampTm signed src) ∧ f (stampTm signed src) < 9 * 10 ^ 9)
    (hlen : 18 + k ≤ src.length) (hsize : 20 ≤ size)
    (hsel : k = (if 26 < size then 9 else if 23 < size then 6 else 3))
    (hd : ∀ c ∈ (src.drop 18).take k, 48 ≤ c ∧ c ≤ 57) :
    strtepoch signed src size f
      = .ok (f (stampTm signed src) * 10 ^ k + digitsValue 0 ((src.drop 18).take k)) := by
  have hk9 : k ≤ 9 := by omega
  have hfr := strtepoch_fraction signed src size f (by omega) hsize
    (by intro h; rw [if_pos h] at hsel; split at hsel <;> omega)
    (by intro h; rw [if_pos h] at hsel; omega)
  rw [← hsel] at hfr
  have hdig := digitsAt_digits signed src k 18 0 hk9 (le_refl _) (by positivity) hlen hd
  obtain ⟨b0, b1⟩ := digitsValue_bound ((src.drop 18).take k) 0 (le_refl _) hd
  have hl : ((src.drop 18).take k).length = k := by
    simp only [List.length_take, List.length_drop]
    omega
  rw [hl, zero_add, one_mul] at b1
  have hpk : (if 26 < size then (1000000000 : Int) else if 23 < size then 1000000 else 1000)
      = 10 ^ k := by
    rcases hk with rfl | rfl | rfl
    · split at hsel
      · omega
      · split at hsel
        · omega
        · rename_i h1 h2
          rw [if_neg h1, if_neg h2]; norm_num
    · split at hsel
      · omega
      · rename_i h1
        split at hsel
        · rename_i h2
          rw [if_neg h1, if_pos h2]; norm_num
        · omega
    · split at hsel
      · rename_i h1
        rw [if_pos h1]; norm_num
      · split at hsel <;> omega
  have hpow : (10 : Int) ^ k ≤ 10 ^ 9 := pow_le_pow_right₀ (by norm_num) hk9
  have hpos : (0 : Int) < 10 ^ k := by positivity
  have hw1 : wrap 64 (f (stampTm signed src)) = f (stampTm signed src) :=
    wrap_of_range 64 _ (by decide) (by norm_num; omega) (by norm_num; omega)
  have hup : f (stampTm signed src) * 10 ^ k ≤ (9 * 10 ^ 9 - 1) * 10 ^ k :=
    mul_le_mul_of_nonneg_right (by omega) (le_of_lt hpos)
  have hlo : (-(9 * 10 ^ 9) + 1) * 10 ^ k ≤ f (stampTm signed src) * 10 ^ k :=
    mul_le_mul_of_nonneg_right (by omega) (le_of_lt hpos)
  have hup2 : (9 * 10 ^ 9 - 1) * (10 : Int) ^ k ≤ (9 * 10 ^ 9 - 1) * 10 ^ 9 :=
    mul_le_mul_of_nonneg_left hpow (by norm_num)
  have hlo2 : (-(9 * 10 ^ 9) + 1) * (10 : Int) ^ 9 ≤ (-(9 * 10 ^ 9) + 1) * 10 ^ k :=
    mul_le_mul_of_nonpos_left hpow (by norm_num)
  have hw2 : wrap 64 (f (stampTm signed src) * 10 ^ k + digitsValue 0 ((src.drop 18).take k))
      = f (stampTm signed src) * 10 ^ k + digitsValue 0 ((src.drop 18).take k) := by
    apply wrap_of_range 64 _ (by decide)
    · norm_num at hlo2 ⊢
      omega
    · norm_num at hup2 ⊢
      omega
  rw [hfr, hw1, hpk, hdig, hw2]

/-- C38: let `s` be what the calendar callback returns for the date-time part (taken
within about ±285 years of the epoch, so that `s * 10^9` fits an `int64_t`) and let the
fractional digits that are read be ASCII digits. Then `strtepoch` returns `s` for a
`size` below 20, `s * 10^3` plus the 3 fractional digits for `size` 20 to 23, `s * 10^6`
plus the 6 fractional digits for 24 to 26, and `s * 10^9` plus the 9 fractional digits
for 27 and more: the unit of the result depends on the length given. The digits read
are taken to be readable (`src` holds them). -/
theorem timestamp_unit (signed : Bool) (src : List Nat) (size : Int) (f : tm → Int)
    (hs : -(9 * 10 ^ 9) < f (stampTm signed src) ∧ f (stampTm signed src) < 9 * 10 ^ 9) :
    (17 ≤ src.length → size < 20 →
      strtepoch signed src size f = .ok (f (stampTm signed src))) ∧
    (21 ≤ src.length → 20 ≤ size → size ≤ 23 →
      (∀ c ∈ (src.drop 18).take 3, 48 ≤ c ∧ c ≤ 57) →
      strtepoch signed src size f
        = .ok (f (stampTm signed src) * 10 ^ 3 + digitsValue 0 ((src.drop 18).take 3))) ∧
    (24 ≤ src.length → 24 ≤ size → size ≤ 26 →
      (∀ c ∈ (src.drop 18).take 6, 48 ≤ c ∧ c ≤ 57) →
      strtepoch signed src size f
        = .ok (f (stampTm signed src) * 10 ^ 6 + digitsValue 0 ((src.drop 18).take 6))) ∧
    (27 ≤ src.length → 27 ≤ size →
      (∀ c ∈ (src.drop 18).take 9, 48 ≤ c ∧ c ≤ 57) →
      strtepoch signed src size f
        = .ok (f (stampTm signed src) * 10 ^ 9 + digitsValue 0 ((src.drop 18).take 9))) := by
  refine ⟨?_, ?_, ?_, ?_⟩
  · intro hlen hsize
    rw [strtepoch_seconds signed src size f hlen hsize,
      wrap_of_range 64 _ (by decide) (by norm_num; omega) (by norm_num; omega)]
  · intro hlen h1 h2 hd
    exact strtepoch_unit_fraction signed src size f 3 (Or.inl rfl) hs (by omega) h1
      (by rw [if_neg (by omega), if_neg (by omega)]) hd
  · intro hlen h1 h2 hd
    exact strtepoch_unit_fraction signed src size f 6 (Or.inr (Or.inl rfl)) hs (by omega)
      (by omega) (by rw [if_neg (by omega), if_pos (by omega)]) hd
  · intro hlen h1 hd
    exact strtepoch_unit_fraction signed src size f 9 (Or.inr (Or.inr rfl)) hs (by omega)
      (by omega) (by rw [if_pos (by omega)]) hd

/-- The stamp `20250211-12:28:38.728` (21 bytes) with a callback that returns 1739276918:
the result is 1739276918728, in milliseconds; the first 17 bytes alone give 1739276918,
in seconds. -/
theorem timestamp_unit_witness :
    (-(9 * 10 ^ 9) < (1739276918 : Int) ∧ (1739276918 : Int) < 9 * 10 ^ 9) ∧
    strtepoch true [50, 48, 50, 53, 48, 50, 49, 49, 45, 49, 50, 58, 50, 56, 58, 51, 56, 46,
        55, 50, 56] 21 (fun _ => 1739276918)
      = .ok ((fun _ => 1739276918) (stampTm true [50, 48, 50, 53, 48, 50, 49, 49, 45, 49, 50,
          58, 50, 56, 58, 51, 56, 46, 55, 50, 56]) * 10 ^ 3
        + digitsValue 0 (([50, 48, 50, 53, 48, 50, 49, 49, 45, 49, 50, 58, 50, 56, 58, 51, 56,
          46, 55, 50, 56].drop 18).take 3)) ∧
    strtepoch true [50, 48, 50, 53, 48, 50, 49, 49, 45, 49, 50, 58, 50, 56, 58, 51, 56, 46,
        55, 50, 56] 21 (fun _ => 1739276918) = .ok 1739276918728 ∧
    strtepoch true [50, 48, 50, 53, 48, 50, 49, 49, 45, 49, 50, 58, 50, 56, 58, 51, 56]
        17 (fun _ => 1739276918) = .ok 1739276918 :=
  ⟨⟨by decide, by decide⟩,
   (timestamp_unit true [50, 48, 50, 53, 48, 50, 49, 49, 45, 49, 50, 58, 50, 56, 58, 51, 56,
      46, 55, 50, 56] 21 (fun _ => 1739276918) ⟨by decide, by decide⟩).2.1
      (by decide) (by decide) (by decide) (by decide),
   by decide, by decide⟩

/-! ## A field that no member matches -/

theorem Tvp.parse_unmatchedAt (t : Tvp) (pd : TvpParseData)
    (h : t.unmatchedAt pd.buffer = true) : t.parse pd = .ok (t, pd, 0) := by
  cases t with
  | static f =>
    simp only [Tvp.unmatchedAt, decide_eq_true_eq] at h
    simp only [Tvp.parse]
    rw [TvpStatic.parse_unmatched f pd h]
  | dynamic g =>
    simp only [Tvp.unmatchedAt, decide_eq_true_eq] at h
    simp only [Tvp.parse]
    rw [TvpDynamic.dynamic_parse_unmatched g pd h]
  | count f =>
    simp only [Tvp.unmatchedAt, decide_eq_true_eq] at h
    rw [Tvp.parse_count, countParse_unmatched f pd h]
  | array u d => simp [Tvp.unmatchedAt] at h
  | vector p n d => simp [Tvp.unmatchedAt] at h
  | group ms => simp [Tvp.unmatchedAt] at h

theorem parse_impl_unmatched : ∀ (later : List Tvp) (pd : TvpParseData),
    (∀ t ∈ later, t.unmatchedAt pd.buffer = true) → parse_impl later pd = .ok (later, pd, 0)
  | [], pd, _ => by rw [parse_impl]
  | t :: later, pd, h => by
    rw [parse_impl_cons, Tvp.parse_unmatchedAt t pd (h t (by simp))]
    simp only []
    rw [parse_impl_unmatched later pd (fun x hx => h x (by simp [hx]))]

/-- C40, amended: the header is parsed (`r0` bytes) and the body members `pre` are
parsed (`r1` bytes), after which the field at the cursor matches the tag of none of the
remaining body members `later`, all of them fields, nor the tag of `CheckSum`. Then every
member of `later` and `CheckSum` are left unchanged in the message, and
`FixMessage::parse` returns `r0 + r1`, the number of bytes before that field. -/
theorem body_parse_stops (msg : FixMessage) (src : List Nat) (pre later pre1 : List Tvp)
    (b l : TvpStatic) (r0 r1 : Nat) (pd1 : TvpParseData)
    (hbody : msg.body = pre ++ later)
    (hhead : TvpGroup.parse [.static msg.beginString, .static msg.bodyLength] src
      = .ok ([.static b, .static l], r0))
    (hpre : parse_impl pre ⟨src.drop r0, -1⟩ = .ok (pre1, pd1, r1))
    (hlater : ∀ t ∈ later, t.unmatchedAt pd1.buffer = true)
    (hcs : (src.drop (r0 + r1)).take msg.checkSum.TagSize ≠ msg.checkSum.tag) :
    msg.parse src
      = .ok ({ msg with beginString := b, bodyLength := l, body := pre1 ++ later },
          r0 + r1) ∧
    parse_impl later pd1 = .ok (later, pd1, 0) ∧
    msg.checkSum.parse ⟨src.drop (r0 + r1), -1⟩ = .ok (msg.checkSum, ⟨src.drop (r0 + r1), -1⟩, 0) := by
  have hl := parse_impl_unmatched later pd1 hlater
  have hc := TvpStatic.parse_unmatched msg.checkSum ⟨src.drop (r0 + r1), -1⟩ hcs
  refine ⟨?_, hl, hc⟩
  have hb : TvpGroup.parse msg.body (src.drop r0) = .ok (pre1 ++ later, r1) := by
    unfold TvpGroup.parse
    rw [hbody, parse_impl_append, hpre]
    simp only []
    rw [hl]
    simp
  have ht : TvpGroup.parse [.static msg.checkSum] (src.drop (r0 + r1))
      = .ok ([.static msg.checkSum], 0) := by
    unfold TvpGroup.parse
    simp only [parse_impl, Tvp.parse]
    rw [hc]
  unfold FixMessage.parse
  rw [hhead]
  simp only []
  rw [hb]
  simp only []
  rw [ht]
  simp

/-- The message of the fields `35`, `49`, `56` parses
`8=FIX.4.4|9=12|35=X|999=1|56=T|10=000|`: `35=X` is stored, the fields `49` and `56` and
the checksum field keep what they held, and 20 is returned, the bytes before `999=1`. -/
theorem body_parse_stops_witness :
    (sampleFields.body = [.static ⟨[51, 53], [0], 0⟩]
        ++ [.static ⟨[52, 57], [65], 1⟩, .static ⟨[53, 54], [66], 1⟩] ∧
      (∀ t ∈ [Tvp.static ⟨[52, 57], [65], 1⟩, Tvp.static ⟨[53, 54], [66], 1⟩],
        t.unmatchedAt (unknownFieldWire.drop 20) = true) ∧
      (unknownFieldWire.drop (15 + 5)).take sampleFields.checkSum.TagSize
        ≠ sampleFields.checkSum.tag) ∧
    sampleFields.parse unknownFieldWire
      = .ok ({ sampleFields with
          beginString := ⟨[56], [70, 73, 88, 46, 52, 46, 52, 0], 7⟩,
          bodyLength := ⟨[57], [49, 50, 0, 0], 2⟩,
          body := [.static ⟨[51, 53], [88], 1⟩]
            ++ [.static ⟨[52, 57], [65], 1⟩, .static ⟨[53, 54], [66], 1⟩] }, 15 + 5) ∧
    unknownFieldWire.length = 38 :=
  ⟨⟨rfl, by decide, by decide⟩,
   (body_parse_stops sampleFields unknownFieldWire [.static ⟨[51, 53], [0], 0⟩]
      [.static ⟨[52, 57], [65], 1⟩, .static ⟨[53, 54], [66], 1⟩] [.static ⟨[51, 53], [88], 1⟩]
      ⟨[56], [70, 73, 88, 46, 52, 46, 52, 0], 7⟩ ⟨[57], [49, 50, 0, 0], 2⟩ 15 5
      ⟨unknownFieldWire.drop 20, -1⟩ rfl rfl rfl (by decide) (by decide)).1,
   by decide⟩

/-- C40 as stated fails where a later body member is a repeating container. The fresh
sample message (`35`, the count `268`, a vector of rows) parses
`8=FIX.4.4|9=28|35=X|999=1|268=2|…`: the count field does not match `999`, the cursor's
count stays unset and `TvpVector::parse` fails its assertion, so `FixMessage::parse` does
not return. With `999=1` after `268=2` the vector, empty before, is resized to two rows,
and 26 is returned. -/
theorem body_parse_container_after_unknown :
    sampleFresh.parse unknownBeforeCount = .error .assertion ∧
    sampleFresh.parse unknownAfterCount
      = .ok ({ sampleFresh with
          bodyLength := ⟨[57], [50, 56, 0, 0], 2⟩,
          body := [.static ⟨[51, 53], [88], 1⟩, .count ⟨[50, 54, 56], [50, 0], 1⟩,
            .vector (rowOf [⟨[49, 51, 50], [0, 0, 0, 0], 0⟩]) 0
              [rowOf [⟨[49, 51, 50], [0, 0, 0, 0], 0⟩],
                rowOf [⟨[49, 51, 50], [0, 0, 0, 0], 0⟩]]] }, 26) :=
  ⟨rfl, rfl⟩

end fixate
